import Mathlib

/-!
# The step executor of the deployment engine

A shallow embedding of `pkg/resource/deploy/step_executor.go`.

The executor is stateful Go code: it mutates its own fields, the resource states it
reaches through pointers, and it calls out to collaborators (the steps themselves, the
event sink, the diagnostic sink, the hook runner, the resource-status server).  The
embedding passes the executor state explicitly, keeps the resource states in a heap
indexed by references, and records every call to a collaborator in a chronological
trace of effects.  What a collaborator returns is a parameter of the model: it is
carried by the step, by the `Events` record or by the deployment.

Concurrency is not part of this model: one worker runs one chain, the worker lock and
the per-state mutexes are left out, and the cancellation context is a flag.
`stepExecutor.log` only writes debug output and is left out as well, except where the
evaluation of its arguments can fail.
-/

namespace deploy

/-! ## Values from `sdk/go/common/resource` -/

/-- The key of a property in a property map (`resource.PropertyKey`). -/
abbrev PropertyKey := String

/-- Modelled from the spec: property values are declared in another package.  Only
secretness is observed by the executor, so a value is either an ordinary value or a
secret wrapping another value. -/
inductive PropertyValue where
  | plain (v : String)
  | secret (element : PropertyValue)
deriving DecidableEq, Repr

/-- Modelled from the spec: `PropertyValue.IsSecret`, true exactly for a secret wrapper. -/
def PropertyValue.IsSecret : PropertyValue → Bool
  | .plain _ => false
  | .secret _ => true

/-- Modelled from the spec: `resource.MakeSecret`, which wraps a value as a secret. -/
def MakeSecret (v : PropertyValue) : PropertyValue := .secret v

/-- A Go `map[PropertyKey]PropertyValue`, as the lookup function of the map.  A key that
is absent maps to `none`; the nil map is the everywhere-absent map. -/
abbrev PropertyMap := PropertyKey → Option PropertyValue

/-- The nil (and the empty) property map. -/
def PropertyMap.empty : PropertyMap := fun _ => none

/-- The map after the Go assignment `m[k] = v`. -/
def PropertyMap.set (m : PropertyMap) (k : PropertyKey) (v : PropertyValue) : PropertyMap :=
  fun k2 => if k2 = k then some v else m k2

/-- Modelled from the spec: `PropertyMap.Copy`, a fresh map with the same entries. -/
def PropertyMap.Copy (m : PropertyMap) : PropertyMap := fun k => m k

/-- The loop `for k, v := range src { dst[k] = v }`: every key of `src` is assigned in
`dst`, the other keys of `dst` stay. -/
def PropertyMap.assignAll (dst src : PropertyMap) : PropertyMap :=
  fun k =>
    match src k with
    | some v => some v
    | none => dst k

/-- Modelled from the spec: URN parsing is declared in another package.  A URN is
carried as its text (what `%v` prints) together with the qualified type that
`URN.QualifiedType()` extracts from it. -/
structure URN where
  text : String
  QualifiedType : String
deriving DecidableEq, Repr

/-- Modelled from the spec: the qualified type of the root stack resource
(`resource.RootStackType`), a constant declared in another package. -/
def RootStackType : String := "pulumi:pulumi:Stack"

/-- A pointer to a resource state (`*resource.State`). -/
abbrev StateRef := Nat

/-- The two hook kinds the executor runs (`resource.AfterCreate`, `resource.AfterUpdate`). -/
inductive ResourceHookType where
  | AfterCreate
  | AfterUpdate
deriving DecidableEq, Repr

/-- The fields of `resource.State` the executor reads or writes. -/
structure State where
  URN : URN
  Custom : Bool
  ID : String
  Inputs : PropertyMap
  Outputs : PropertyMap
  AdditionalSecretOutputs : List PropertyKey
  ResourceHooks : ResourceHookType → List String

/-! ## Errors -/

/-- Go `error` values as the executor builds and inspects them: a plain message, the
planner's delete-protected error, `fmt.Errorf` with one `%w` (the text before the
verb and the wrapped error), the `StepApplyFailed` sentinel, and `errors.Join`. -/
inductive Error where
  | errorString (msg : String)
  | deleteProtectedError (msg : String)
  | wrapError (msg : String) (err : Error)
  | StepApplyFailed (Err : Error)
  | joinError (errs : List Error)
deriving Repr

mutual
/-- Equality of errors is decidable. -/
def Error.decEq : (a b : Error) → Decidable (a = b)
  | .errorString m, .errorString n =>
    decidable_of_iff (m = n) ⟨fun h => by rw [h], fun h => by injection h⟩
  | .deleteProtectedError m, .deleteProtectedError n =>
    decidable_of_iff (m = n) ⟨fun h => by rw [h], fun h => by injection h⟩
  | .wrapError m e, .wrapError n f =>
    match Error.decEq e f with
    | isTrue h => decidable_of_iff (m = n) ⟨fun hm => by rw [hm, h], fun hw => by injection hw⟩
    | isFalse h => isFalse (fun hw => by injection hw; contradiction)
  | .StepApplyFailed e, .StepApplyFailed f =>
    match Error.decEq e f with
    | isTrue h => isTrue (by rw [h])
    | isFalse h => isFalse (fun hw => by injection hw; contradiction)
  | .joinError es, .joinError fs =>
    match Error.decEqList es fs with
    | isTrue h => isTrue (by rw [h])
    | isFalse h => isFalse (fun hw => by injection hw; contradiction)
  | .errorString _, .deleteProtectedError _ => isFalse nofun
  | .errorString _, .wrapError _ _ => isFalse nofun
  | .errorString _, .StepApplyFailed _ => isFalse nofun
  | .errorString _, .joinError _ => isFalse nofun
  | .deleteProtectedError _, .errorString _ => isFalse nofun
  | .deleteProtectedError _, .wrapError _ _ => isFalse nofun
  | .deleteProtectedError _, .StepApplyFailed _ => isFalse nofun
  | .deleteProtectedError _, .joinError _ => isFalse nofun
  | .wrapError _ _, .errorString _ => isFalse nofun
  | .wrapError _ _, .deleteProtectedError _ => isFalse nofun
  | .wrapError _ _, .StepApplyFailed _ => isFalse nofun
  | .wrapError _ _, .joinError _ => isFalse nofun
  | .StepApplyFailed _, .errorString _ => isFalse nofun
  | .StepApplyFailed _, .deleteProtectedError _ => isFalse nofun
  | .StepApplyFailed _, .wrapError _ _ => isFalse nofun
  | .StepApplyFailed _, .joinError _ => isFalse nofun
  | .joinError _, .errorString _ => isFalse nofun
  | .joinError _, .deleteProtectedError _ => isFalse nofun
  | .joinError _, .wrapError _ _ => isFalse nofun
  | .joinError _, .StepApplyFailed _ => isFalse nofun
/-- Equality of lists of errors is decidable. -/
def Error.decEqList : (as bs : List Error) → Decidable (as = bs)
  | [], [] => isTrue rfl
  | [], _ :: _ => isFalse nofun
  | _ :: _, [] => isFalse nofun
  | a :: as, b :: bs =>
    match Error.decEq a b, Error.decEqList as bs with
    | isTrue h1, isTrue h2 => isTrue (by rw [h1, h2])
    | isFalse h, _ => isFalse (fun hw => by injection hw; contradiction)
    | _, isFalse h => isFalse (fun hw => by injection hw; contradiction)
end

instance : DecidableEq Error := Error.decEq

mutual
/-- The text of an error, `err.Error()`. -/
def Error.message : Error → String
  | .errorString msg => msg
  | .deleteProtectedError msg => msg
  | .wrapError msg err => msg ++ err.message
  | .StepApplyFailed Err => "step application failed: " ++ Err.message
  | .joinError errs => Error.joinText errs
/-- The text of a joined error: the texts of its parts, one per line. -/
def Error.joinText : List Error → String
  | [] => ""
  | [e] => e.message
  | e :: rest => e.message ++ "\n" ++ Error.joinText rest
end

/-- What `StepApplyFailed.Unwrap` returns. -/
def Error.Unwrap : Error → Option Error
  | .StepApplyFailed Err => some Err
  | .wrapError _ err => some err
  | _ => none

mutual
/-- The test `errors.As(err, &deleteProtectedError{})`: the error is, or wraps, a
delete-protected error. -/
def Error.AsDeleteProtected : Error → Bool
  | .errorString _ => false
  | .deleteProtectedError _ => true
  | .wrapError _ err => err.AsDeleteProtected
  | .StepApplyFailed Err => Err.AsDeleteProtected
  | .joinError errs => Error.anyAsDeleteProtected errs
/-- The walk of `errors.As` over the parts of a joined error. -/
def Error.anyAsDeleteProtected : List Error → Bool
  | [] => false
  | e :: rest => e.AsDeleteProtected || Error.anyAsDeleteProtected rest
end

mutual
/-- The test `errors.As(err, &saf)` for a `StepApplyFailed` target. -/
def Error.AsStepApplyFailed : Error → Bool
  | .errorString _ => false
  | .deleteProtectedError _ => false
  | .wrapError _ err => err.AsStepApplyFailed
  | .StepApplyFailed _ => true
  | .joinError errs => Error.anyAsStepApplyFailed errs
/-- The walk of `errors.As` over the parts of a joined error. -/
def Error.anyAsStepApplyFailed : List Error → Bool
  | [] => false
  | e :: rest => e.AsStepApplyFailed || Error.anyAsStepApplyFailed rest
end

/-- The call `errors.Join(errs...)` on a slice of non-nil errors: nil for the empty slice. -/
def errorsJoin (errs : List Error) : Option Error :=
  match errs with
  | [] => none
  | _ :: _ => some (.joinError errs)

/-! ## Steps -/

/-- The operation of a step.  Modelled from the spec: the `StepOp` constants are declared
in another package; these are the operation kinds the spec lists. -/
inductive StepOp where
  | OpCreate
  | OpUpdate
  | OpDelete
  | OpReplace
  | OpRead
  | OpReadReplacement
  | OpDiff
  | OpSame
  | OpImport
  | OpRemove
deriving DecidableEq, Repr

/-- The Go dynamic type of a step, as far as the executor tests it with a type
assertion. -/
inductive StepKind where
  | CreateStep
  | UpdateStep
  | DeleteStep
  | DiffStep
  | OtherStep
deriving DecidableEq, Repr

/-- A resource status (`resource.Status`), only handed on to the post-step event. -/
abbrev Status := Nat

/-- The value `interface{}` that the pre-step event returns and the post-step event
receives; `none` is nil. -/
abbrev Payload := Option Nat

/-- The three results of `step.Apply()`; `stepComplete` tells whether the returned
callback is non-nil. -/
structure ApplyResult where
  status : Status
  stepComplete : Bool
  err : Option Error
deriving DecidableEq

/-- A step as the executor sees it through the `Step` interface: its dynamic type, the
results of its methods, and what its `Apply` returns (a parameter of the model, as
`Apply` is the step's own code).  `new` and `old` of the concrete create and update
steps are `New` and `Old`. -/
structure Step where
  kind : StepKind
  Op : StepOp
  URN : URN
  Typ : String
  Logical : Bool
  New : Option StateRef
  Old : Option StateRef
  Res : StateRef
  Apply : ApplyResult
deriving DecidableEq

/-- A step together with the view steps that `resourceStatus.ReleaseToken` returns when
the executor drains the step, each with the payload recorded for it.  The view steps
are published by collaborators while the step is applied, so they are a parameter of
the model. -/
inductive StepRun where
  | node (step : Step) (views : List (Payload × StepRun))

/-- The step of a run. -/
def StepRun.step : StepRun → Step
  | .node step _ => step

/-- The view steps released for a run. -/
def StepRun.views : StepRun → List (Payload × StepRun)
  | .node _ views => views

/-- A Go `chain`: steps to be executed in the given order. -/
abbrev chain := List StepRun

/-! ## Collaborators -/

/-- The calls the executor makes to its collaborators, in the order it makes them. -/
inductive Effect where
  | OnResourceStepPre (step : Step)
  | Apply (step : Step)
  | OnResourceStepPost (payload : Payload) (step : Step) (status : Status) (err : Option Error)
  | ReleaseToken (urn : URN)
  | stepComplete (step : Step)
  | Fail (step : Step)
  | cancel
  | Errorf (urn : URN) (msg : String)
  | Warningf (urn : URN) (msg : String)
  | Done (urn : URN)
  | OnResourceOutputs (step : Step)
  | RunHooks (hook : ResourceHookType) (urn : URN)
deriving DecidableEq

/-- The event sink (`Events`): what each callback returns is a parameter of the model. -/
structure Events where
  OnResourceStepPre : Step → Payload × Option Error
  OnResourceStepPost : Payload → Step → Status → Option Error → Option Error
  OnResourceOutputs : Step → Option Error

/-- The arguments of a `Deployment.RunHooks` call made by the executor. -/
structure HookCall where
  hooks : List String
  isBeforeHook : Bool
  id : String
  urn : URN
  typ : String
  newInputs : PropertyMap
  oldInputs : Option PropertyMap
  newOutputs : PropertyMap
  oldOutputs : Option PropertyMap

/-- A per-resource plan: its output check, and the outputs and output diff recorded in
it.  `checkOutputs` is declared in another package and is a parameter; the
diff `NewPlanDiff(oldOuts.Diff(outs))` is kept as the two maps it is computed from. -/
structure ResourcePlan where
  checkOutputs : PropertyMap → PropertyMap → Option Error
  Outputs : PropertyMap
  OutputDiff : Option (PropertyMap × PropertyMap)

/-- A deployment plan. -/
structure Plan where
  ResourcePlans : URN → Option ResourcePlan

/-- The deployment options the executor reads. -/
structure Options where
  ContinueOnError : Bool
  GeneratePlan : Bool
  DryRun : Bool

/-- The parts of `Deployment` the executor reads or writes. -/
structure Deployment where
  opts : Options
  events : Option Events
  plan : Option Plan
  newPlans : URN → Option ResourcePlan
  news : URN → Option StateRef
  reads : URN → Option StateRef
  Olds : URN → Option StateRef
  RunHooks : HookCall → Option Error

/-- An output-registration event (`RegisterResourceOutputsEvent`). -/
structure RegisterResourceOutputsEvent where
  URN : URN
  Outputs : PropertyMap

/-! ## Concurrent maps and the error slot -/

/-- The map after `m.Store(k, v)`. -/
def Store {κ ν : Type} [DecidableEq κ] (m : κ → Option ν) (k : κ) (v : ν) : κ → Option ν :=
  fun k2 => if k2 = k then some v else m k2

/-- The map after `m.Delete(k)`. -/
def Delete {κ ν : Type} [DecidableEq κ] (m : κ → Option ν) (k : κ) : κ → Option ν :=
  fun k2 => if k2 = k then none else m k2

/-- Modelled from the spec: `promise.CompletionSource`, declared in another
package, as far as the executor uses it: a slot that is empty or holds the error it was
rejected with. -/
abbrev CompletionSource := Option Error

/-- Modelled from the spec: `CompletionSource.Reject`.  The slot is single-assignment: the
first rejection sets it and reports true, a later one is dropped and reports false. -/
def CompletionSource.Reject (slot : CompletionSource) (err : Error) : CompletionSource × Bool :=
  match slot with
  | none => (some err, true)
  | some first => (some first, false)

/-- Modelled from the spec: the error part of `Promise().TryResult()`: nil until the
promise has been rejected. -/
def CompletionSource.TryResult (slot : CompletionSource) : Option Error := slot

/-! ## The executor -/

/-- The state of a `stepExecutor`, with the heap of resource states it reaches through
pointers (`states`) and the trace of its calls to collaborators (`trace`).
`ctxDone` tells whether the deployment context has been cancelled. -/
structure stepExecutor where
  deployment : Deployment
  pendingNews : URN → Option Step
  ignoreErrors : Bool
  ctxDone : Bool
  sawError : CompletionSource
  erroredSteps : List Step
  stackOutputsEvent : Option RegisterResourceOutputsEvent
  states : StateRef → State
  trace : List Effect

/-- How a call ends: it returns a value, or it panics (a failed `contract.Assertf`, a nil
dereference).  The executor state at that moment is kept next to it. -/
inductive Outcome (α : Type) where
  | returned (a : α)
  | panicked (msg : String)

/-- The executor with one more effect at the end of its trace. -/
def stepExecutor.emit (se : stepExecutor) (e : Effect) : stepExecutor :=
  { se with trace := se.trace ++ [e] }

/-- `stepExecutor.GetErroredSteps`. -/
def stepExecutor.GetErroredSteps (se : stepExecutor) : List Step := se.erroredSteps

/-- `stepExecutor.Errored`: the error the executor saw first, nil if none. -/
def stepExecutor.Errored (se : stepExecutor) : Option Error :=
  CompletionSource.TryResult se.sawError

/-- `stepExecutor.cancelDueToError`.  `step` is a Go interface value and may be nil
(`none`); calling `Fail` on nil panics. -/
def stepExecutor.cancelDueToError (se : stepExecutor) (err : Error) (step : Option Step) :
    stepExecutor × Outcome Unit :=
  let se := { se with sawError := (CompletionSource.Reject se.sawError err).1 }
  let continueOnError :=
    if err.AsDeleteProtected then true else se.deployment.opts.ContinueOnError
  if se.ignoreErrors then
    (se, .returned ())
  else if continueOnError then
    match step with
    | none => (se, .panicked "invalid memory address or nil pointer dereference")
    | some st =>
      let se := se.emit (.Fail st)
      ({ se with erroredSteps := se.erroredSteps ++ [st] }, .returned ())
  else
    ({ se.emit .cancel with ctxDone := true }, .returned ())

/-! ## Executing one step -/

/-- The loop over `newState.AdditionalSecretOutputs` in `continueExecuteStep`: a listed
output that is present and not yet secret is made secret; for `"id"` a warning is
raised instead.  Returns the outputs and the warnings raised, oldest first. -/
def markAdditionalSecretOutputs (urn : URN) :
    List PropertyKey → PropertyMap → List Effect → PropertyMap × List Effect
  | [], outs, warnings => (outs, warnings)
  | k :: rest, outs, warnings =>
    if k = "id" then
      markAdditionalSecretOutputs urn rest outs (warnings ++ [Effect.Warningf urn
        "The 'id' property cannot be made secret. See pulumi/pulumi#2717 for more details."])
    else
      match outs k with
      | some v =>
        if !v.IsSecret then
          markAdditionalSecretOutputs urn rest (outs.set k (MakeSecret v)) warnings
        else
          markAdditionalSecretOutputs urn rest outs warnings
      | none => markAdditionalSecretOutputs urn rest outs warnings

/-- The loop `for k, out := range newState.Outputs` in `continueExecuteStep`: an output
that is not secret and whose same-named input is secret is made secret.  Each key is
visited once and only its own entry is written, so the loop is given key by key. -/
def markLeakedInputSecrets (inputs outs : PropertyMap) : PropertyMap :=
  fun k =>
    match outs k with
    | none => none
    | some out =>
      if !out.IsSecret then
        match inputs k with
        | none => some out
        | some inp => if inp.IsSecret then some (MakeSecret out) else some out
      else some out

/-- The block of `continueExecuteStep` guarded by
`step.New() != nil && step.Op() != OpReplace`: mark the secret outputs of the new
state, track the state in `reads` or `news`, and copy its outputs to the generated
plan. -/
def stepExecutor.trackNewState (se : stepExecutor) (step : Step) (ref : StateRef) : stepExecutor :=
  let newState := se.states ref
  let marked := markAdditionalSecretOutputs step.URN newState.AdditionalSecretOutputs
    newState.Outputs []
  let outs := markLeakedInputSecrets newState.Inputs marked.1
  let newState := { newState with Outputs := outs }
  let se := { se with
    states := fun r => if r = ref then newState else se.states r
    trace := se.trace ++ marked.2 }
  let se :=
    if step.Op = StepOp.OpRead ∨ step.Op = StepOp.OpReadReplacement then
      { se with deployment := { se.deployment with
          reads := Store se.deployment.reads newState.URN ref } }
    else
      { se with deployment := { se.deployment with
          news := Store se.deployment.news newState.URN ref } }
  if se.deployment.opts.GeneratePlan then
    match se.deployment.newPlans newState.URN with
    | some resourcePlan =>
      { se with deployment := { se.deployment with
          newPlans := Store se.deployment.newPlans newState.URN
            { resourcePlan with Outputs := newState.Outputs } } }
    | none => se
  else se

/-- The part of `continueExecuteStep` between `Apply` and the view steps: publish the
pending registration of a logical step with a new state whose `Apply` returned no
error, then track the new state unless the step is a replace. -/
def stepExecutor.recordApplied (se : stepExecutor) (step : Step) : stepExecutor :=
  let se :=
    if step.Apply.err.isNone && step.Logical && step.New.isSome then
      { se with pendingNews := Store se.pendingNews step.URN step }
    else se
  match step.New with
  | some ref => if step.Op ≠ StepOp.OpReplace then se.trackNewState step ref else se
  | none => se

/-- The post-step event of `continueExecuteStep`: with an event sink, call
`OnResourceStepPost` and wrap the error it returns. -/
def stepExecutor.postStep (se : stepExecutor) (events : Option Events) (payload : Payload)
    (step : Step) : stepExecutor × Option Error :=
  match events with
  | some ev =>
    let se := se.emit (.OnResourceStepPost payload step step.Apply.status step.Apply.err)
    match ev.OnResourceStepPost payload step step.Apply.status step.Apply.err with
    | some postErr => (se, some (.wrapError "post-step event returned an error: " postErr))
    | none => (se, none)
  | none => (se, none)

/-- The end of `continueExecuteStep`: call `stepComplete` if it is non-nil, then return the
error of `Apply` inside the `StepApplyFailed` sentinel, or nil. -/
def stepExecutor.retire (se : stepExecutor) (step : Step) : stepExecutor × Option Error :=
  let se := if step.Apply.stepComplete then se.emit (.stepComplete step) else se
  match step.Apply.err with
  | some applyErr => (se, some (.StepApplyFailed applyErr))
  | none => (se, none)

/-- The body of `stepExecutor.continueExecuteStep`.  The closure `executeViewSteps` of the
source, which re-enters `continueExecuteStep` for each released view step, is taken
as an argument; `continueExecuteStep` below supplies it. -/
def stepExecutor.continueExecuteStepWith (se : stepExecutor) (payload : Payload) (step : Step)
    (executeViewSteps : stepExecutor → stepExecutor × Option Error) :
    stepExecutor × Option Error :=
  let events := se.deployment.events
  let se := se.emit (.Apply step)
  if step.kind = StepKind.DiffStep then (se, none) else
  let se := se.recordApplied step
  let isDelete : Bool := step.kind = StepKind.DeleteStep
  let r := if isDelete then executeViewSteps se else (se, none)
  match r.2 with
  | some viewErr => (r.1, some viewErr)
  | none =>
  let r := r.1.postStep events payload step
  match r.2 with
  | some postErr => (r.1, some postErr)
  | none =>
  let r := if !isDelete then executeViewSteps r.1 else (r.1, none)
  match r.2 with
  | some viewErr => (r.1, some viewErr)
  | none => r.1.retire step

mutual
/-- `stepExecutor.continueExecuteStep`, on a step with the view steps released for it.  Its
closure `executeViewSteps` asks `ReleaseToken` for the view steps of the URN, runs
them in order and joins their errors. -/
def stepExecutor.continueExecuteStep (se : stepExecutor) (payload : Payload) :
    StepRun → stepExecutor × Option Error
  | .node step views =>
    se.continueExecuteStepWith payload step (fun se =>
      let r := stepExecutor.viewStepLoop (se.emit (.ReleaseToken step.URN)) [] views
      (r.1, errorsJoin r.2))
/-- The loop of the `executeViewSteps` closure: run each released view step with its own
payload and collect the errors. -/
def stepExecutor.viewStepLoop (se : stepExecutor) (errs : List Error) :
    List (Payload × StepRun) → stepExecutor × List Error
  | [] => (se, errs)
  | (payload, step) :: rest =>
    let r := stepExecutor.continueExecuteStep se payload step
    match r.2 with
    | some err => stepExecutor.viewStepLoop r.1 (errs ++ [err]) rest
    | none => stepExecutor.viewStepLoop r.1 errs rest
end

/-- `stepExecutor.executeStep`. -/
def stepExecutor.executeStep (se : stepExecutor) (run : StepRun) : stepExecutor × Option Error :=
  let step := run.step
  let events := se.deployment.events
  let isDiff : Bool := step.kind = StepKind.DiffStep
  match events with
  | some ev =>
    if !isDiff then
      let se := se.emit (.OnResourceStepPre step)
      let r := ev.OnResourceStepPre step
      match r.2 with
      | some err => (se, some (.wrapError "pre-step event returned an error: " err))
      | none => se.continueExecuteStep r.1 run
    else se.continueExecuteStep none run
  | none => se.continueExecuteStep none run

/-- `stepExecutor.executeChain`: the steps of the chain in order, stopping at a cancelled
context or at the first step whose execution returns an error. -/
def stepExecutor.executeChain (se : stepExecutor) : chain → stepExecutor × Outcome Unit
  | [] => (se, .returned ())
  | run :: rest =>
    if se.ctxDone then (se, .returned ())
    else
      let r := se.executeStep run
      match r.2 with
      | some err =>
        let c := r.1.cancelDueToError err (some run.step)
        match c.2 with
        | .panicked msg => (c.1, .panicked msg)
        | .returned _ =>
          if !err.AsStepApplyFailed then
            (c.1.emit (.Errorf run.step.URN err.message), .returned ())
          else (c.1, .returned ())
      | none => stepExecutor.executeChain r.1 rest

/-! ## Registering resource outputs -/

/-- The plan check of `executeRegisterResourceOutputs`: with a plan present, the resource
must have a resource plan and its `checkOutputs` must accept the outputs. -/
def stepExecutor.checkPlan (se : stepExecutor) (urn : URN) (oldOuts outs : PropertyMap) :
    Option Error :=
  match se.deployment.plan with
  | none => none
  | some plan =>
    match plan.ResourcePlans urn with
    | none => some (.errorString ("no plan for resource " ++ urn.text))
    | some resourcePlan =>
      match resourcePlan.checkOutputs oldOuts outs with
      | some err => some (.wrapError "resource violates plan: " err)
      | none => none

/-- The after-hooks of `executeRegisterResourceOutputs` for a component resource: the
after-create hooks of a create step, the after-update hooks of an update step.
Returns the executor and the error of the hooks; an update step without an old state
panics on the nil dereference. -/
def stepExecutor.runAfterHooks (se : stepExecutor) (reg : Step) (ref : StateRef) :
    stepExecutor × Outcome (Option Error) :=
  if !(se.states reg.Res).Custom then
    let new := se.states ref
    if reg.kind = StepKind.CreateStep then
      (se.emit (.RunHooks .AfterCreate new.URN),
        .returned (se.deployment.RunHooks
          { hooks := new.ResourceHooks .AfterCreate, isBeforeHook := false, id := new.ID,
            urn := new.URN, typ := reg.Typ, newInputs := new.Inputs, oldInputs := none,
            newOutputs := new.Outputs, oldOutputs := none }))
    else if reg.kind = StepKind.UpdateStep then
      match reg.Old with
      | none => (se, .panicked "invalid memory address or nil pointer dereference")
      | some oldRef =>
        let old := se.states oldRef
        (se.emit (.RunHooks .AfterUpdate new.URN),
          .returned (se.deployment.RunHooks
            { hooks := new.ResourceHooks .AfterUpdate, isBeforeHook := false, id := new.ID,
              urn := new.URN, typ := reg.Typ, newInputs := new.Inputs,
              oldInputs := some old.Inputs, newOutputs := new.Outputs,
              oldOutputs := some old.Outputs }))
    else (se, .returned none)
  else (se, .returned none)

/-- `stepExecutor.executeRegisterResourceOutputs`. -/
def stepExecutor.executeRegisterResourceOutputs (se : stepExecutor)
    (e : RegisterResourceOutputsEvent) (errored finalizingStackOutputs : Bool) :
    stepExecutor × Outcome (Option Error) :=
  let urn := e.URN
  if finalizingStackOutputs && !(urn.QualifiedType = RootStackType) then
    (se, .panicked ("expected a stack resource urn, got " ++ urn.text))
  else if !finalizingStackOutputs && urn.QualifiedType = RootStackType then
    ({ se with stackOutputsEvent := some e }.emit (.Done urn), .returned none)
  else
  match se.pendingNews urn with
  | none =>
    (se, .returned (some (.errorString
      ("cannot complete a resource '" ++ urn.text ++ "' whose registration isn't pending"))))
  | some reg =>
  let se := { se with pendingNews := Delete se.pendingNews urn }
  match reg.New with
  | none => (se, .panicked "invalid memory address or nil pointer dereference")
  | some ref =>
  let oldOuts : PropertyMap :=
    match se.deployment.Olds urn with
    | some old => (se.states old).Outputs
    | none => PropertyMap.empty
  let outs : PropertyMap :=
    if finalizingStackOutputs && errored then oldOuts.Copy.assignAll e.Outputs
    else e.Outputs
  match se.checkPlan urn oldOuts outs with
  | some planErr => (se, .returned (some planErr))
  | none =>
  let se := { se with
    states := fun r => if r = ref then { se.states ref with Outputs := outs } else se.states r }
  let r : stepExecutor × Option Error :=
    if se.deployment.opts.GeneratePlan then
      match se.deployment.newPlans urn with
      | some resourcePlan =>
        ({ se with deployment := { se.deployment with
            newPlans := Store se.deployment.newPlans urn
              { resourcePlan with OutputDiff := some (oldOuts, outs), Outputs := outs } } },
          none)
      | none =>
        (se, some (.errorString
          ("resource should already have a plan from when we called register resources [urn="
            ++ urn.text ++ "]")))
    else (se, none)
  match r.2 with
  | some genErr => (r.1, .returned (some genErr))
  | none =>
  let se := r.1
  let h := se.runAfterHooks reg ref
  match h.2 with
  | .panicked msg => (h.1, .panicked msg)
  | .returned (some hookErr) => (h.1, .returned (some hookErr))
  | .returned none =>
  let se := h.1
  let finish := fun (se : stepExecutor) =>
    if !finalizingStackOutputs then (se.emit (.Done urn), Outcome.returned (none : Option Error))
    else (se, Outcome.returned (none : Option Error))
  match se.deployment.events with
  | none => finish se
  | some ev =>
    let se := se.emit (.OnResourceOutputs reg)
    match ev.OnResourceOutputs reg with
    | none => finish se
    | some eventerr =>
      let outErr := Error.wrapError "resource complete event returned an error: " eventerr
      let se := se.emit (.Errorf reg.URN outErr.message)
      let c := se.cancelDueToError eventerr none
      match c.2 with
      | .panicked msg => (c.1, .panicked msg)
      | .returned _ => (c.1, .returned none)

/-- `stepExecutor.ExecuteRegisterResourceOutputs`. -/
def stepExecutor.ExecuteRegisterResourceOutputs (se : stepExecutor)
    (e : RegisterResourceOutputsEvent) : stepExecutor × Outcome (Option Error) :=
  se.executeRegisterResourceOutputs e false false

/-! ## Construction, call sequences and sample data -/

/-- `newStepExecutor`, without the workers it starts: the executor for a deployment, with
empty pending registrations, an empty error slot and no errored steps.  `ctxDone`
tells whether the context handed in is already cancelled, `states` is the heap. -/
def newStepExecutor (ctxDone : Bool) (deployment : Deployment) (ignoreErrors : Bool)
    (states : StateRef → State) : stepExecutor :=
  { deployment := deployment
    pendingNews := fun _ => none
    ignoreErrors := ignoreErrors
    ctxDone := ctxDone
    sawError := none
    erroredSteps := []
    stackOutputsEvent := none
    states := states
    trace := [] }

/-- A sequence of `cancelDueToError` calls, one after the other; a call that panics ends
the sequence. -/
def stepExecutor.cancelAll (se : stepExecutor) :
    List (Error × Option Step) → stepExecutor × Outcome Unit
  | [] => (se, .returned ())
  | (err, step) :: rest =>
    let c := se.cancelDueToError err step
    match c.2 with
    | .panicked msg => (c.1, .panicked msg)
    | .returned _ => stepExecutor.cancelAll c.1 rest

/-- Whether a chain runs to its end from `se`: the context is not cancelled at any step
and every step executes without an error. -/
def stepExecutor.chainCompletes (se : stepExecutor) : chain → Bool
  | [] => true
  | run :: rest =>
    if se.ctxDone then false
    else
      match (se.executeStep run).2 with
      | some _ => false
      | none => stepExecutor.chainCompletes (se.executeStep run).1 rest

/-- The error for a registration that is not pending. -/
def notPendingError (urn : URN) : Error :=
  .errorString ("cannot complete a resource '" ++ urn.text ++ "' whose registration isn't pending")

/-- A sample URN of an ordinary resource. -/
def sampleURN (name : String) : URN :=
  { text := "urn:pulumi:dev::proj::pkg:index:Thing::" ++ name, QualifiedType := "pkg:index:Thing" }

/-- A sample resource state without inputs or outputs. -/
def sampleState (urn : URN) : State :=
  { URN := urn, Custom := true, ID := "", Inputs := PropertyMap.empty,
    Outputs := PropertyMap.empty, AdditionalSecretOutputs := [], ResourceHooks := fun _ => [] }

/-- A sample deployment without event sink or plan. -/
def sampleDeployment (continueOnError : Bool) : Deployment :=
  { opts := { ContinueOnError := continueOnError, GeneratePlan := false, DryRun := false }
    events := none
    plan := none
    newPlans := fun _ => none
    news := fun _ => none
    reads := fun _ => none
    Olds := fun _ => none
    RunHooks := fun _ => none }

/-- A fresh sample executor with the two error-policy flags as given. -/
def sampleExecutor (ignoreErrors continueOnError : Bool) : stepExecutor :=
  newStepExecutor false (sampleDeployment continueOnError) ignoreErrors
    (fun _ => sampleState (sampleURN "a"))

/-- A sample step of the given dynamic type whose `Apply` returns the given callback and
error. -/
def sampleStep (name : String) (kind : StepKind) (op : StepOp) (stepComplete : Bool)
    (err : Option Error) : Step :=
  { kind := kind, Op := op, URN := sampleURN name, Typ := "pkg:index:Thing", Logical := true,
    New := some 0, Old := none, Res := 0,
    Apply := { status := 0, stepComplete := stepComplete, err := err } }

/-- A sample step without view steps, whose `Apply` returns a non-nil callback and the
given error. -/
def sampleRun (name : String) (kind : StepKind) (op : StepOp) (err : Option Error) : StepRun :=
  .node (sampleStep name kind op true err) []

/-- A sample output-registration event without outputs. -/
def sampleEvent (name : String) : RegisterResourceOutputsEvent :=
  { URN := sampleURN name, Outputs := PropertyMap.empty }

/-! ## Names for the values of a registration, and more sample data -/

deriving instance DecidableEq for Outcome

/-- The `oldOuts` of `executeRegisterResourceOutputs`: the outputs of the old state the
deployment has for the URN, the nil map if it has none. -/
def stepExecutor.oldOuts (se : stepExecutor) (urn : URN) : PropertyMap :=
  match se.deployment.Olds urn with
  | some old => (se.states old).Outputs
  | none => PropertyMap.empty

/-- The `outs` of `executeRegisterResourceOutputs` when it reaches the plan check: the
outputs of the event, or, when finalizing stack outputs after an error, a copy of the
old outputs with the outputs of the event assigned over it. -/
def stepExecutor.registeredOuts (se : stepExecutor) (e : RegisterResourceOutputsEvent)
    (errored finalizingStackOutputs : Bool) : PropertyMap :=
  if finalizingStackOutputs && errored then (se.oldOuts e.URN).Copy.assignAll e.Outputs
  else e.Outputs

/-- A sample URN of the root stack resource. -/
def stackURN : URN :=
  { text := "urn:pulumi:dev::proj::pulumi:pulumi:Stack::proj-dev", QualifiedType := RootStackType }

/-- A sample heap: state 0 is a new state with the output `stale`, state 1 an old state
with the outputs `kept` and `both`; every other state is empty. -/
def sampleStates (urn : URN) : StateRef → State := fun r =>
  if r = 0 then
    { sampleState urn with Outputs := PropertyMap.empty.set "stale" (.plain "s") }
  else if r = 1 then
    { sampleState urn with
      Outputs := (PropertyMap.empty.set "kept" (.plain "k")).set "both" (.plain "old") }
  else sampleState urn

/-- A sample step for the URN with new state 0 and old state 1. -/
def pendingStep (urn : URN) : Step :=
  { kind := .UpdateStep, Op := .OpUpdate, URN := urn, Typ := "pkg:index:Thing", Logical := true,
    New := some 0, Old := some 1, Res := 0,
    Apply := { status := 0, stepComplete := true, err := none } }

/-- A sample executor on the sample heap in which `pendingStep urn` is pending and state 1
is the old state of the URN. -/
def pendingExecutor (urn : URN) (deployment : Deployment) (ignoreErrors : Bool) : stepExecutor :=
  { newStepExecutor false { deployment with Olds := Store deployment.Olds urn 1 } ignoreErrors
      (sampleStates urn) with
    pendingNews := Store (fun _ => none) urn (pendingStep urn) }

/-- A sample event with the outputs `both` and `fresh`. -/
def outputsEvent (urn : URN) : RegisterResourceOutputsEvent :=
  { URN := urn
    Outputs := (PropertyMap.empty.set "both" (.plain "new")).set "fresh" (.plain "f") }

/-- A sample plan whose only resource plan, for the given URN, rejects or accepts all
outputs. -/
def samplePlan (urn : URN) (reject : Bool) : Plan :=
  { ResourcePlans := fun u =>
      if u = urn then
        some { checkOutputs := fun _ _ => if reject then some (.errorString "mismatch") else none
               Outputs := PropertyMap.empty
               OutputDiff := none }
      else none }

/-- A sample event sink whose `OnResourceOutputs` fails. -/
def failingSink : Events :=
  { OnResourceStepPre := fun _ => (none, none)
    OnResourceStepPost := fun _ _ _ _ => none
    OnResourceOutputs := fun _ => some (.errorString "sink failed") }

/-- The part of `executeRegisterResourceOutputs` after the plan check that stores the
outputs: assign them to the new state and, when plans are generated, save them to the
generated resource plan, which must exist. -/
def stepExecutor.storeOutputs (se : stepExecutor) (urn : URN) (ref : StateRef)
    (oldOuts outs : PropertyMap) : stepExecutor × Option Error :=
  let se := { se with
    states := fun r => if r = ref then { se.states ref with Outputs := outs } else se.states r }
  if se.deployment.opts.GeneratePlan then
    match se.deployment.newPlans urn with
    | some resourcePlan =>
      ({ se with deployment := { se.deployment with
          newPlans := Store se.deployment.newPlans urn
            { resourcePlan with OutputDiff := some (oldOuts, outs), Outputs := outs } } },
        none)
    | none =>
      (se, some (.errorString
        ("resource should already have a plan from when we called register resources [urn="
          ++ urn.text ++ "]")))
  else (se, none)

/-- The end of `executeRegisterResourceOutputs`: call `OnResourceOutputs` of the event sink,
if there is one; report its error to the diagnostic sink, hand it to
`cancelDueToError` with a nil step and return nil; without an error call `Done`
unless finalizing. -/
def stepExecutor.notifyOutputs (se : stepExecutor) (e : RegisterResourceOutputsEvent)
    (reg : Step) (finalizingStackOutputs : Bool) : stepExecutor × Outcome (Option Error) :=
  let finish := fun (se : stepExecutor) =>
    if !finalizingStackOutputs then
      (se.emit (.Done e.URN), Outcome.returned (none : Option Error))
    else (se, Outcome.returned (none : Option Error))
  match se.deployment.events with
  | none => finish se
  | some ev =>
    let se := se.emit (.OnResourceOutputs reg)
    match ev.OnResourceOutputs reg with
    | none => finish se
    | some eventerr =>
      let outErr := Error.wrapError "resource complete event returned an error: " eventerr
      let se := se.emit (.Errorf reg.URN outErr.message)
      let c := se.cancelDueToError eventerr none
      match c.2 with
      | .panicked msg => (c.1, .panicked msg)
      | .returned _ => (c.1, .returned none)

/-! ## Steps and operations that concern a URN -/

mutual
/-- Whether a step, or one of the view steps released for it, has the given URN. -/
def StepRun.mentions (urn : URN) : StepRun → Bool
  | .node step views => decide (step.URN = urn) || StepRun.anyMentions urn views
/-- Whether one of the released view steps mentions the given URN. -/
def StepRun.anyMentions (urn : URN) : List (Payload × StepRun) → Bool
  | [] => false
  | (_, run) :: rest => run.mentions urn || StepRun.anyMentions urn rest
end

/-- What a client of the executor has it do between the application of a step and the
registration of its outputs: execute a chain, or register the outputs of a resource. -/
inductive Operation where
  | chain (steps : chain)
  | register (e : RegisterResourceOutputsEvent) (errored finalizingStackOutputs : Bool)

/-- Whether an operation concerns the given URN: a chain with a step or view step of that
URN, or a registration for it. -/
def Operation.mentions (urn : URN) : Operation → Bool
  | .chain steps => steps.any (fun run => run.mentions urn)
  | .register e _ _ => decide (e.URN = urn)

/-- The executor after an operation. -/
def stepExecutor.runOperation (se : stepExecutor) : Operation → stepExecutor
  | .chain steps => (se.executeChain steps).1
  | .register e errored finalizingStackOutputs =>
    (se.executeRegisterResourceOutputs e errored finalizingStackOutputs).1

/-- The executor after a sequence of operations. -/
def stepExecutor.runOperations (se : stepExecutor) : List Operation → stepExecutor
  | [] => se
  | op :: rest => stepExecutor.runOperations (se.runOperation op) rest

/-! ## The view steps of a step -/

/-- The closure `executeViewSteps` of `continueExecuteStep` for a step with the given URN
and released view steps: ask `ReleaseToken` for the view steps, run them in order
and join their errors. -/
def stepExecutor.executeViewSteps (se : stepExecutor) (urn : URN)
    (views : List (Payload × StepRun)) : stepExecutor × Option Error :=
  let r := stepExecutor.viewStepLoop (se.emit (.ReleaseToken urn)) [] views
  (r.1, errorsJoin r.2)

/-- The executor when `continueExecuteStep` has applied a step that is not a diff step and
has recorded it (pending registration, secret outputs, `news` or `reads`), before
the view steps and the post-step event. -/
def stepExecutor.afterApply (se : stepExecutor) (step : Step) : stepExecutor :=
  (se.emit (.Apply step)).recordApplied step

/-- The warning of `continueExecuteStep` for an `id` among the additional secret outputs. -/
def idSecretWarning (urn : URN) : Effect :=
  .Warningf urn "The 'id' property cannot be made secret. See pulumi/pulumi#2717 for more details."

/-- The effects that a call which took the executor from `before` to `after` added to the
trace. -/
def stepExecutor.effectsSince (after before : stepExecutor) : List Effect :=
  after.trace.drop before.trace.length

/-- In the words of the spec: the released view steps run one after the other in the order
in which they were released, each re-entering `continueExecuteStep` with its own
payload, whatever the earlier ones returned.  For each view step, in that order: the
effects of its run and the error it returned. -/
def stepExecutor.viewStepOutcomes (se : stepExecutor) :
    List (Payload × StepRun) → List (List Effect × Option Error)
  | [] => []
  | (payload, run) :: rest =>
    ((se.continueExecuteStep payload run).1.effectsSince se,
        (se.continueExecuteStep payload run).2)
      :: stepExecutor.viewStepOutcomes (se.continueExecuteStep payload run).1 rest

/-- The effects of all view steps, in order. -/
def stepExecutor.viewStepEffects (se : stepExecutor) (views : List (Payload × StepRun)) :
    List Effect :=
  ((se.viewStepOutcomes views).map Prod.fst).flatten

/-- Whether an effect is the post-step event or the completion callback of a step with the
given URN. -/
def Effect.retires (urn : URN) : Effect → Bool
  | .OnResourceStepPost _ step _ _ => decide (step.URN = urn)
  | .stepComplete step => decide (step.URN = urn)
  | _ => false

/-- The executor `after` has the trace of `before` and then only effects with the property
`P`. -/
def stepExecutor.addsOnly (P : Effect → Prop) (before after : stepExecutor) : Prop :=
  ∃ es, after.trace = before.trace ++ es ∧ ∀ e ∈ es, P e

/-- A sample event sink whose pre-step event hands out the payload 7 and whose post-step
event fails. -/
def failingPostSink : Events :=
  { OnResourceStepPre := fun _ => (some 7, none)
    OnResourceStepPost := fun _ _ _ _ => some (.errorString "snapshot failed")
    OnResourceOutputs := fun _ => none }

/-- A sample event sink that records nothing and never fails; its pre-step event hands out
the payload 7. -/
def quietSink : Events :=
  { OnResourceStepPre := fun _ => (some 7, none)
    OnResourceStepPost := fun _ _ _ _ => none
    OnResourceOutputs := fun _ => none }

/-- A fresh sample executor with the given event sink, with ignore-errors and
continue-on-error off. -/
def sinkExecutor (sink : Events) : stepExecutor :=
  newStepExecutor false { sampleDeployment false with events := some sink } false
    (fun _ => sampleState (sampleURN "a"))

/-- Two sample view steps, released in this order with the payloads 1 and 2. -/
def sampleViews : List (Payload × StepRun) :=
  [(some 1, sampleRun "v1" .CreateStep .OpCreate none),
    (some 2, sampleRun "v2" .CreateStep .OpCreate none)]

/-- Two sample view steps of which the first fails in `Apply`. -/
def failingViews : List (Payload × StepRun) :=
  [(some 1, sampleRun "v1" .DeleteStep .OpDelete (some (.errorString "boom"))),
    (some 2, sampleRun "v2" .DeleteStep .OpDelete none)]

/-! ## Secret outputs -/

/-- A value made secret unless it is secret already. -/
def secure (v : PropertyValue) : PropertyValue :=
  if v.IsSecret then v else MakeSecret v

/-- What `continueExecuteStep` establishes for the outputs of a new state: every key other
than `id` that is listed in the additional secret outputs and present in the outputs
maps to a secret value, and every output whose same-named input is secret is
secret. -/
def State.secured (st : State) : Prop :=
  (∀ k v, k ≠ "id" → k ∈ st.AdditionalSecretOutputs → st.Outputs k = some v →
    v.IsSecret = true) ∧
  (∀ k out inp, st.Outputs k = some out → st.Inputs k = some inp → inp.IsSecret = true →
    out.IsSecret = true)

/-- A sample state with the outputs `password`, `token`, `id` and `plain`, none of them
secret, of which `password` and `id` are listed as additional secret outputs and
`token` has a secret input; `idInput` is the input named `id`, if any. -/
def secretsState (urn : URN) (idInput : Option PropertyValue) : State :=
  { sampleState urn with
    AdditionalSecretOutputs := ["password", "id"]
    Inputs := fun k =>
      if k = "token" then some (.secret (.plain "t")) else if k = "id" then idInput else none
    Outputs := fun k =>
      if k = "password" then some (.plain "p")
      else if k = "token" then some (.plain "t")
      else if k = "id" then some (.plain "i")
      else if k = "plain" then some (.plain "x")
      else none }

/-- A fresh sample executor without an event sink in which every state is the sample state
with secrets. -/
def secretsExecutor (idInput : Option PropertyValue) : stepExecutor :=
  newStepExecutor false (sampleDeployment false) false
    (fun _ => secretsState (sampleURN "a") idInput)

/-- The heap after the two marking loops of `continueExecuteStep` on the state `ref`: only
the outputs of that state are written. -/
def trackedStates (states : StateRef → State) (urn : URN) (ref : StateRef) : StateRef → State :=
  fun r =>
    if r = ref then
      { states ref with
        Outputs := markLeakedInputSecrets (states ref).Inputs
          (markAdditionalSecretOutputs urn (states ref).AdditionalSecretOutputs
            (states ref).Outputs []).1 }
    else states r

end deploy

/-!
# The checkpoint persister

The persister and its diff state (`pkg/backend/httpstate`) are known here through the
specification, through their test (`snapshot_test.go`) and through the request types
of `sdk/go/common/apitype/updates.go`.  The request types and the handlers of the
test server are translated from those sources; the persister itself is modelled from
the specification.  The JSON encoders, the text diff and the hash are libraries and
are parameters of the model.
-/

namespace httpstate

/-- Raw JSON text (`json.RawMessage`), as its bytes. -/
abbrev RawMessage := List Nat

/-- The fields of `apitype.ResourceV3` that the test of the persister sets and checks. -/
structure ResourceV3 where
  URN : String
  RefreshBeforeUpdate : Bool
deriving DecidableEq, Repr

/-- A typed deployment (`apitype.DeploymentV3`), as far as the test checks it. -/
structure DeploymentV3 where
  Resources : List ResourceV3
deriving DecidableEq, Repr

/-- A deployment snapshot (`deploy.Snapshot`): the ordered resource states, each with the
fields that reach the persisted resource. -/
structure Snapshot where
  Resources : List ResourceV3
deriving DecidableEq, Repr

/-- An untyped deployment (`apitype.UntypedDeployment`): schema version, feature tags and
the JSON of the typed deployment. -/
structure UntypedDeployment where
  Version : Nat
  Features : List String
  Deployment : RawMessage
deriving DecidableEq, Repr

/-- A position-based text edit of the diff library: replace the text from `Start` up to
`End` by `NewText`. -/
structure TextEdit where
  Start : Nat
  End : Nat
  NewText : RawMessage
deriving DecidableEq, Repr

/-- `apitype.PatchUpdateCheckpointRequest`. -/
structure PatchUpdateCheckpointRequest where
  IsInvalid : Bool
  Version : Nat
  Features : List String
  Deployment : RawMessage
deriving DecidableEq, Repr

/-- `apitype.PatchUpdateVerbatimCheckpointRequest`. -/
structure PatchUpdateVerbatimCheckpointRequest where
  Version : Nat
  UntypedDeployment : RawMessage
  SequenceNumber : Nat
deriving DecidableEq, Repr

/-- `apitype.PatchUpdateCheckpointDeltaRequest`.  `DeploymentDelta` is the JSON of a list of
text edits and is kept as that list. -/
structure PatchUpdateCheckpointDeltaRequest where
  Version : Nat
  CheckpointHash : String
  SequenceNumber : Nat
  DeploymentDelta : List TextEdit
deriving DecidableEq, Repr

/-- A PATCH sent by the persister, by the endpoint it goes to. -/
inductive Request where
  | checkpoint (req : PatchUpdateCheckpointRequest)
  | checkpointverbatim (req : PatchUpdateVerbatimCheckpointRequest)
  | checkpointdelta (req : PatchUpdateCheckpointDeltaRequest)
deriving DecidableEq, Repr

/-- The three wire forms of a checkpoint. -/
inductive Transport where
  | regular
  | verbatim
  | delta
deriving DecidableEq, Repr

/-- The wire form of a request. -/
def Request.transport : Request → Transport
  | .checkpoint _ => .regular
  | .checkpointverbatim _ => .verbatim
  | .checkpointdelta _ => .delta

/-- The sequence number a request carries; a regular checkpoint carries none. -/
def Request.sequenceNumber : Request → Option Nat
  | .checkpoint _ => none
  | .checkpointverbatim req => some req.SequenceNumber
  | .checkpointdelta req => some req.SequenceNumber

/-- The libraries the persister and the test server call: the JSON encoder of the typed
deployment, the canonical indented encoder of the untyped deployment used by the
client, the encoder used by the test server, the text diff with its inverse
(`gotextdiff`), and SHA-256. -/
structure Libraries where
  marshalDeployment : DeploymentV3 → RawMessage
  marshalIndent : UntypedDeployment → RawMessage
  marshal : UntypedDeployment → RawMessage
  computeEdits : RawMessage → RawMessage → List TextEdit
  applyEdits : RawMessage → List TextEdit → RawMessage
  sha256 : RawMessage → List Nat

/-- One lowercase hexadecimal digit. -/
def hexDigit (n : Nat) : Char :=
  if n % 16 < 10 then Char.ofNat (48 + n % 16) else Char.ofNat (87 + n % 16)

/-- The lowercase hexadecimal text of a digest, two digits for each byte
(`fmt.Sprintf("%x", digest)`). -/
def hexLower (digest : List Nat) : String :=
  String.mk (digest.flatMap fun b => [hexDigit (b / 16), hexDigit b])

/-- Modelled from the spec: the parsed view of the capabilities the remote advertises.  The
capability negotiator is not among the sources; `delta` holds the cutoff size in
bytes when delta uploads are advertised, `schemaV4` tells whether schema version 4
is advertised. -/
structure Capabilities where
  delta : Option Nat
  schemaV4 : Bool
deriving DecidableEq, Repr

/-- Modelled from the spec: the feature set of a snapshot.  The function is not among the
sources; the spec names the feature refresh-before-update, used if any resource
uses it, and the test expects the tag `refreshBeforeUpdate`. -/
def Snapshot.features (snapshot : Snapshot) : List String :=
  if snapshot.Resources.any (fun r => r.RefreshBeforeUpdate) then ["refreshBeforeUpdate"]
  else []

/-- Modelled from the spec: the schema downgrade rule, which is not among the sources.
The wire schema is version 4 with the feature tags iff the remote advertised schema
version 4 and the feature set is non-empty, and version 3 without tags otherwise. -/
def schemaFor (schemaV4 : Bool) (features : List String) : Nat × List String :=
  if schemaV4 && !features.isEmpty then (4, features) else (3, [])

/-- Modelled from the spec: serializing a snapshot, which is not among the sources.  The
resources are carried with their fields whatever the schema version is. -/
def SerializeDeployment (snapshot : Snapshot) : DeploymentV3 :=
  { Resources := snapshot.Resources }

/-- Modelled from the spec: the deployment diff state, which is not among the sources: the
JSON last saved (none before the first successful save), the sequence number of the
next PATCH, and the cutoff size below which no diff is made. -/
structure deploymentDiffState where
  lastSavedDeployment : Option RawMessage
  sequenceNumber : Nat
  minimalDiffSize : Nat
deriving DecidableEq, Repr

/-- Modelled from the spec: `newDeploymentDiffState`, which is not among the sources: no
baseline yet, and sequence numbers begin at 1. -/
def newDeploymentDiffState (minimalDiffSize : Nat) : deploymentDiffState :=
  { lastSavedDeployment := none, sequenceNumber := 1, minimalDiffSize := minimalDiffSize }

/-- Modelled from the spec: `deploymentDiffState.MarshalDeployment`, which is not among the
sources: the canonical indented JSON of the untyped deployment with the given
version and features. -/
def deploymentDiffState.MarshalDeployment (lib : Libraries) (deployment : DeploymentV3)
    (version : Nat) (features : List String) : RawMessage :=
  lib.marshalIndent
    { Version := version, Features := features, Deployment := lib.marshalDeployment deployment }

/-- Modelled from the spec: `deploymentDiffState.ShouldDiff`, which is not among the
sources: a snapshot is diffed only if a prior baseline exists and its serialized size
is at least the cutoff. -/
def deploymentDiffState.ShouldDiff (dds : deploymentDiffState) (raw : RawMessage) : Bool :=
  dds.lastSavedDeployment.isSome && decide (dds.minimalDiffSize ≤ raw.length)

/-- The result of `deploymentDiffState.Diff`. -/
structure deploymentDiff where
  sequenceNumber : Nat
  checkpointHash : String
  deploymentDelta : List TextEdit
deriving DecidableEq, Repr

/-- Modelled from the spec: `deploymentDiffState.Diff`, which is not among the sources: the
text edits from the last saved JSON to the new JSON, with the lowercase hexadecimal
SHA-256 of the new JSON.  Without a baseline the diff is against the empty text. -/
def deploymentDiffState.Diff (lib : Libraries) (dds : deploymentDiffState) (raw : RawMessage) :
    deploymentDiff :=
  { sequenceNumber := dds.sequenceNumber
    checkpointHash := hexLower (lib.sha256 raw)
    deploymentDelta := lib.computeEdits (dds.lastSavedDeployment.getD []) raw }

/-- Modelled from the spec: `deploymentDiffState.Saved`, which is not among the sources: the
JSON that was saved becomes the baseline. -/
def deploymentDiffState.Saved (dds : deploymentDiffState) (raw : RawMessage) :
    deploymentDiffState :=
  { dds with lastSavedDeployment := some raw }

/-- Modelled from the spec: the snapshot persister of one update, which is not among the
sources: whether the remote advertised schema version 4, and the diff state, present
iff the remote advertised delta uploads. -/
structure cloudSnapshotPersister where
  schemaV4 : Bool
  deploymentDiffState : Option deploymentDiffState
deriving DecidableEq, Repr

/-- Modelled from the spec: `newSnapshotPersister`, which is not among the sources, from
the capabilities fetched at construction. -/
def newSnapshotPersister (caps : Capabilities) : cloudSnapshotPersister :=
  { schemaV4 := caps.schemaV4
    deploymentDiffState := caps.delta.map newDeploymentDiffState }

/-- Modelled from the spec: `cloudSnapshotPersister.Save`, which is not among the sources.
Without delta capability the regular checkpoint is sent.  Otherwise the snapshot is
serialized; if it should be diffed a delta is sent, else the verbatim checkpoint.
Every PATCH of the diff protocol takes the next sequence number; the baseline is
updated only if the remote accepted the PATCH (`response` is the error of the HTTP
exchange, none for success).  Returns the persister, the request sent and the error. -/
def cloudSnapshotPersister.Save (lib : Libraries) (p : cloudSnapshotPersister)
    (snapshot : Snapshot) (response : Option String) :
    cloudSnapshotPersister × Request × Option String :=
  let schema := schemaFor p.schemaV4 snapshot.features
  let deployment := SerializeDeployment snapshot
  match p.deploymentDiffState with
  | none =>
    (p, .checkpoint { IsInvalid := false, Version := schema.1, Features := schema.2,
                      Deployment := lib.marshalDeployment deployment }, response)
  | some dds =>
    let raw := deploymentDiffState.MarshalDeployment lib deployment schema.1 schema.2
    let request :=
      if dds.ShouldDiff raw then
        let diff := dds.Diff lib raw
        Request.checkpointdelta { Version := schema.1, CheckpointHash := diff.checkpointHash,
                                  SequenceNumber := diff.sequenceNumber,
                                  DeploymentDelta := diff.deploymentDelta }
      else
        Request.checkpointverbatim { Version := schema.1, UntypedDeployment := raw,
                                     SequenceNumber := dds.sequenceNumber }
    let dds := { dds with sequenceNumber := dds.sequenceNumber + 1 }
    match response with
    | some err => ({ p with deploymentDiffState := some dds }, request, some err)
    | none => ({ p with deploymentDiffState := some (dds.Saved raw) }, request, none)

/-- The saves of one update, in order: each snapshot with the response of the remote to its
PATCH.  Returns the persister and the requests sent. -/
def cloudSnapshotPersister.saves (lib : Libraries) (p : cloudSnapshotPersister) :
    List (Snapshot × Option String) → cloudSnapshotPersister × List Request
  | [] => (p, [])
  | (snapshot, response) :: rest =>
    let r := p.Save lib snapshot response
    let t := cloudSnapshotPersister.saves lib r.1 rest
    (t.1, r.2.1 :: t.2)

/-- The handler `handleLastRequestAsRegular` of the test server: the persisted state is the
JSON of the untyped deployment made of the fields of the request. -/
def handleLastRequestAsRegular (lib : Libraries) (req : PatchUpdateCheckpointRequest) :
    RawMessage :=
  lib.marshal { Version := req.Version, Features := req.Features, Deployment := req.Deployment }

/-- The handler `handleLastRequestAsVerbatim` of the test server. -/
def handleLastRequestAsVerbatim (req : PatchUpdateVerbatimCheckpointRequest) : RawMessage :=
  req.UntypedDeployment

/-- The handler `handleLastRequestAsDelta` of the test server: apply the edits to the
persisted state.  Returns the new persisted state and whether the hash of the
request is the lowercase hexadecimal SHA-256 of it, which the test asserts. -/
def handleLastRequestAsDelta (lib : Libraries) (persistedState : RawMessage)
    (req : PatchUpdateCheckpointDeltaRequest) : RawMessage × Bool :=
  let persisted := lib.applyEdits persistedState req.DeploymentDelta
  (persisted, decide (req.CheckpointHash = hexLower (lib.sha256 persisted)))

/-- The test server on a request: the new persisted state. -/
def handleRequest (lib : Libraries) (persistedState : RawMessage) : Request → RawMessage
  | .checkpoint req => handleLastRequestAsRegular lib req
  | .checkpointverbatim req => handleLastRequestAsVerbatim req
  | .checkpointdelta req => (handleLastRequestAsDelta lib persistedState req).1

/-- The untyped deployment the persister means to persist for a snapshot: version and
feature tags by the schema downgrade rule, and the serialized resources. -/
def cloudSnapshotPersister.untypedDeployment (lib : Libraries) (p : cloudSnapshotPersister)
    (snapshot : Snapshot) : UntypedDeployment :=
  { Version := (schemaFor p.schemaV4 snapshot.features).1
    Features := (schemaFor p.schemaV4 snapshot.features).2
    Deployment := lib.marshalDeployment (SerializeDeployment snapshot) }

/-- The loop of `testDiffStack`: marshal each deployment with version 3, compute a diff
whenever the diff state says it should, then mark the deployment saved.  Returns,
for each diff computed, the baseline it was computed against
(`dds.lastSavedDeployment.raw`), the diff and the new JSON. -/
def testDiffStackLoop (lib : Libraries) (dds : deploymentDiffState) :
    List DeploymentV3 → List (RawMessage × deploymentDiff × RawMessage)
  | [] => []
  | s :: rest =>
    let json := deploymentDiffState.MarshalDeployment lib s 3 []
    if dds.ShouldDiff json then
      (dds.lastSavedDeployment.getD [], dds.Diff lib json, json)
        :: testDiffStackLoop lib (dds.Saved json) rest
    else testDiffStackLoop lib (dds.Saved json) rest

/-- The test `testDiffStack`: the loop from a fresh diff state with cutoff 0.  The test
asserts of each record that applying the edits of the diff to the baseline gives the
new JSON. -/
def testDiffStack (lib : Libraries) (snaps : List DeploymentV3) :
    List (RawMessage × deploymentDiff × RawMessage) :=
  testDiffStackLoop lib (newDeploymentDiffState 0) snaps

/-- A sample text diff: one edit that replaces the whole old text. -/
def sampleComputeEdits (before after : RawMessage) : List TextEdit :=
  [{ Start := 0, End := before.length, NewText := after }]

/-- A sample application of position-based edits, given in order: copy the old text up to
each edit, put the new text of the edit, go on after the edit. -/
def sampleApplyEditsFrom (before : RawMessage) : Nat → List TextEdit → RawMessage
  | last, [] => before.drop last
  | last, edit :: rest =>
    (before.drop last).take (edit.Start - last) ++ edit.NewText
      ++ sampleApplyEditsFrom before edit.End rest

/-- A sample encoding of a resource. -/
def sampleEncodeResource (r : ResourceV3) : RawMessage :=
  r.URN.toList.map Char.toNat ++ [if r.RefreshBeforeUpdate then 1 else 0, 10]

/-- Sample libraries: simple encoders, the whole-text diff and a checksum for the hash. -/
def sampleLibraries : Libraries :=
  { marshalDeployment := fun d => d.Resources.flatMap sampleEncodeResource
    marshalIndent := fun u =>
      [u.Version, 10] ++ (u.Features.flatMap fun f => f.toList.map Char.toNat ++ [10])
        ++ [10] ++ u.Deployment
    marshal := fun u =>
      [u.Version] ++ (u.Features.flatMap fun f => f.toList.map Char.toNat) ++ u.Deployment
    computeEdits := sampleComputeEdits
    applyEdits := fun before edits => sampleApplyEditsFrom before 0 edits
    sha256 := fun raw => [raw.length % 256, raw.sum % 256] }

/-- A sample snapshot of one plain resource. -/
def snapshotOne : Snapshot := { Resources := [{ URN := "urn-1", RefreshBeforeUpdate := false }] }

/-- A sample snapshot of two plain resources. -/
def snapshotTwo : Snapshot :=
  { Resources := [{ URN := "urn-1", RefreshBeforeUpdate := false },
                  { URN := "urn-2", RefreshBeforeUpdate := false }] }

/-- A sample snapshot whose resource uses the version 4 feature. -/
def snapshotV4 : Snapshot := { Resources := [{ URN := "urn-1", RefreshBeforeUpdate := true }] }

end httpstate

namespace deploy

/-! ## Execution order within a chain -/

/-- Tracking a new state only adds warnings to the trace. -/
theorem trackNewState_trace (se : stepExecutor) (step : Step) (ref : StateRef) :
    ∃ es, (se.trackNewState step ref).trace = se.trace ++ es := by
  refine ⟨(markAdditionalSecretOutputs step.URN (se.states ref).AdditionalSecretOutputs
    (se.states ref).Outputs []).2, ?_⟩
  simp only [stepExecutor.trackNewState]
  repeat' split
  all_goals rfl

/-- Recording an applied step only adds to the trace. -/
theorem recordApplied_trace (se : stepExecutor) (step : Step) :
    ∃ es, (se.recordApplied step).trace = se.trace ++ es := by
  simp only [stepExecutor.recordApplied]
  split
  · split
    · split
      · obtain ⟨es, h⟩ := trackNewState_trace
          { se with pendingNews := Store se.pendingNews step.URN step } step ‹_›
        exact ⟨es, h⟩
      · exact trackNewState_trace se step _
    · split
      · exact ⟨[], by simp⟩
      · exact ⟨[], by simp⟩
  · split
    · exact ⟨[], by simp⟩
    · exact ⟨[], by simp⟩

/-- The post-step event only adds to the trace. -/
theorem postStep_trace (se : stepExecutor) (events : Option Events) (payload : Payload)
    (step : Step) : ∃ es, (se.postStep events payload step).1.trace = se.trace ++ es := by
  simp only [stepExecutor.postStep]
  split
  · split
    · exact ⟨_, rfl⟩
    · exact ⟨_, rfl⟩
  · exact ⟨[], by simp⟩

/-- Retiring a step only adds to the trace, and when it returns no error and the callback
of the step is non-nil, the callback is the effect it adds. -/
theorem retire_trace (se : stepExecutor) (step : Step) :
    ∃ es, (se.retire step).1.trace = se.trace ++ es ∧
      (step.Apply.stepComplete = true → Effect.stepComplete step ∈ es) := by
  simp only [stepExecutor.retire]
  by_cases hc : step.Apply.stepComplete = true
  · refine ⟨[Effect.stepComplete step], ?_, fun _ => by simp⟩
    split <;> simp [hc, stepExecutor.emit]
  · refine ⟨[], ?_, fun h => absurd h hc⟩
    split <;> simp [hc]

/-- The body of `continueExecuteStep` starts its effects with the `Apply` of the step and
only adds to the trace, provided the closure for the view steps only adds to the
trace.  When it returns no error for a step that is not a diff step and whose
callback is non-nil, the callback is among the effects after `Apply`. -/
theorem continueExecuteStepWith_trace (se : stepExecutor) (payload : Payload) (step : Step)
    (ev : stepExecutor → stepExecutor × Option Error)
    (hev : ∀ s, ∃ es, (ev s).1.trace = s.trace ++ es) :
    ∃ es, (se.continueExecuteStepWith payload step ev).1.trace
        = se.trace ++ Effect.Apply step :: es ∧
      ((se.continueExecuteStepWith payload step ev).2 = none →
        step.kind ≠ StepKind.DiffStep → step.Apply.stepComplete = true →
        Effect.stepComplete step ∈ es) := by
  unfold stepExecutor.continueExecuteStepWith
  by_cases hk : step.kind = StepKind.DiffStep
  · exact ⟨[], by simp [hk, stepExecutor.emit], fun _ h => absurd hk h⟩
  · simp only [hk, if_false]
    obtain ⟨w1, h1⟩ := recordApplied_trace (se.emit (.Apply step)) step
    generalize (se.emit (.Apply step)).recordApplied step = S1 at h1 ⊢
    have hS1 : S1.trace = se.trace ++ Effect.Apply step :: w1 := by
      rw [h1]; simp [stepExecutor.emit]
    clear h1
    -- the view steps of a delete step
    have hr2 : ∃ w2, (if (decide (step.kind = StepKind.DeleteStep)) = true then ev S1
        else (S1, none)).1.trace = se.trace ++ Effect.Apply step :: w2 := by
      split
      · obtain ⟨w, hw⟩ := hev S1
        exact ⟨w1 ++ w, by rw [hw, hS1]; simp⟩
      · exact ⟨w1, hS1⟩
    obtain ⟨w2, h2⟩ := hr2
    generalize (if (decide (step.kind = StepKind.DeleteStep)) = true then ev S1
        else (S1, none)) = R2 at h2 ⊢
    cases hR2 : R2.2 with
    | some viewErr => exact ⟨w2, h2, fun h => by simp at h⟩
    | none =>
      simp only []
      obtain ⟨w3, h3⟩ := postStep_trace R2.1 se.deployment.events payload step
      generalize R2.1.postStep se.deployment.events payload step = R3 at h3 ⊢
      cases hR3 : R3.2 with
      | some postErr => exact ⟨w2 ++ w3, by rw [h3, h2]; simp, fun h => by simp at h⟩
      | none =>
        simp only []
        have hr4 : ∃ w4, (if (!decide (step.kind = StepKind.DeleteStep)) = true then ev R3.1
            else (R3.1, none)).1.trace = se.trace ++ Effect.Apply step :: w4 := by
          split
          · obtain ⟨w, hw⟩ := hev R3.1
            exact ⟨w2 ++ w3 ++ w, by rw [hw, h3, h2]; simp⟩
          · exact ⟨w2 ++ w3, by rw [h3, h2]; simp⟩
        obtain ⟨w4, h4⟩ := hr4
        generalize (if (!decide (step.kind = StepKind.DeleteStep)) = true then ev R3.1
            else (R3.1, none)) = R4 at h4 ⊢
        cases hR4 : R4.2 with
        | some viewErr => exact ⟨w4, h4, fun h => by simp at h⟩
        | none =>
          simp only []
          obtain ⟨w5, h5, hmem⟩ := retire_trace R4.1 step
          exact ⟨w4 ++ w5, by rw [h5, h4]; simp,
            fun _ _ hc => List.mem_append_right _ (hmem hc)⟩

mutual
/-- Executing a step from `continueExecuteStep` on starts its effects with the `Apply` of
the step and only adds to the trace; see `continueExecuteStepWith_trace`. -/
theorem continueExecuteStep_trace : ∀ (run : StepRun) (se : stepExecutor) (payload : Payload),
    ∃ es, (se.continueExecuteStep payload run).1.trace = se.trace ++ Effect.Apply run.step :: es ∧
      ((se.continueExecuteStep payload run).2 = none →
        run.step.kind ≠ StepKind.DiffStep → run.step.Apply.stepComplete = true →
        Effect.stepComplete run.step ∈ es)
  | .node step views, se, payload => by
    rw [stepExecutor.continueExecuteStep]
    exact continueExecuteStepWith_trace se payload step _ (fun s => by
      obtain ⟨es, h⟩ := viewStepLoop_trace views (s.emit (.ReleaseToken step.URN)) []
      exact ⟨Effect.ReleaseToken step.URN :: es, by simp only [h]; simp [stepExecutor.emit]⟩)
/-- The loop over the released view steps only adds to the trace. -/
theorem viewStepLoop_trace : ∀ (views : List (Payload × StepRun)) (se : stepExecutor)
    (errs : List Error), ∃ es, (se.viewStepLoop errs views).1.trace = se.trace ++ es
  | [], se, errs => ⟨[], by simp [stepExecutor.viewStepLoop]⟩
  | (payload, run) :: rest, se, errs => by
    rw [stepExecutor.viewStepLoop]
    obtain ⟨e1, h1, _⟩ := continueExecuteStep_trace run se payload
    split
    · obtain ⟨e2, h2⟩ := viewStepLoop_trace rest (se.continueExecuteStep payload run).1
        (errs ++ [‹Error›])
      exact ⟨Effect.Apply run.step :: e1 ++ e2, by rw [h2, h1]; simp⟩
    · obtain ⟨e2, h2⟩ := viewStepLoop_trace rest (se.continueExecuteStep payload run).1 errs
      exact ⟨Effect.Apply run.step :: e1 ++ e2, by rw [h2, h1]; simp⟩
end

/-- Executing a step only adds to the trace.  When it returns no error, the `Apply` of the
step is among the added effects, and so is its callback if the step is not a diff
step and the callback is non-nil. -/
theorem executeStep_trace (se : stepExecutor) (run : StepRun) :
    ∃ es, (se.executeStep run).1.trace = se.trace ++ es ∧
      ((se.executeStep run).2 = none →
        Effect.Apply run.step ∈ es ∧
        (run.step.kind ≠ StepKind.DiffStep → run.step.Apply.stepComplete = true →
          Effect.stepComplete run.step ∈ es)) := by
  simp only [stepExecutor.executeStep]
  cases hev : se.deployment.events with
  | none =>
    obtain ⟨es, h, hm⟩ := continueExecuteStep_trace run se none
    exact ⟨Effect.Apply run.step :: es, h, fun hn =>
      ⟨by simp, fun hk hc => List.mem_cons_of_mem _ (hm hn hk hc)⟩⟩
  | some ev =>
    simp only []
    split
    · split
      · exact ⟨[Effect.OnResourceStepPre run.step], rfl, fun h => by simp at h⟩
      · obtain ⟨es, h, hm⟩ := continueExecuteStep_trace run
          (se.emit (.OnResourceStepPre run.step)) (ev.OnResourceStepPre run.step).1
        refine ⟨Effect.OnResourceStepPre run.step :: Effect.Apply run.step :: es,
          by rw [h]; simp [stepExecutor.emit], fun hn => ⟨by simp, fun hk hc => ?_⟩⟩
        exact List.mem_cons_of_mem _ (List.mem_cons_of_mem _ (hm hn hk hc))
    · obtain ⟨es, h, hm⟩ := continueExecuteStep_trace run se none
      exact ⟨Effect.Apply run.step :: es, h, fun hn =>
        ⟨by simp, fun hk hc => List.mem_cons_of_mem _ (hm hn hk hc)⟩⟩

/-- `cancelDueToError` only adds to the trace. -/
theorem cancelDueToError_trace (se : stepExecutor) (err : Error) (step : Option Step) :
    ∃ es, (se.cancelDueToError err step).1.trace = se.trace ++ es := by
  simp only [stepExecutor.cancelDueToError]
  by_cases hi : se.ignoreErrors = true
  · exact ⟨[], by simp [hi]⟩
  · by_cases hc : (if err.AsDeleteProtected = true then true
        else se.deployment.opts.ContinueOnError) = true
    · cases step with
      | none => exact ⟨[], by simp [hi, hc]⟩
      | some st => exact ⟨[Effect.Fail st], by simp [hi, hc, stepExecutor.emit]⟩
    · exact ⟨[Effect.cancel], by simp [hi, hc, stepExecutor.emit]⟩

/-- Executing a chain only adds to the trace. -/
theorem executeChain_trace (c : chain) :
    ∀ se : stepExecutor, ∃ es, (se.executeChain c).1.trace = se.trace ++ es := by
  induction c with
  | nil => intro se; exact ⟨[], by simp [stepExecutor.executeChain]⟩
  | cons run rest ih =>
    intro se
    obtain ⟨e1, h1, _⟩ := executeStep_trace se run
    simp only [stepExecutor.executeChain]
    split_ifs
    · exact ⟨[], by simp⟩
    · split
      · rename_i err _
        obtain ⟨e2, h2⟩ := cancelDueToError_trace (se.executeStep run).1 err (some run.step)
        split
        · exact ⟨e1 ++ e2, by rw [h2, h1]; simp⟩
        · split_ifs
          · exact ⟨e1 ++ e2 ++ [Effect.Errorf run.step.URN err.message],
              by simp [stepExecutor.emit, h2, h1]⟩
          · exact ⟨e1 ++ e2, by rw [h2, h1]; simp⟩
      · obtain ⟨e2, h2⟩ := ih (se.executeStep run).1
        exact ⟨e1 ++ e2, by rw [h2, h1]; simp⟩

/-- A chain that runs to its end hands its executor on to the steps that follow. -/
theorem executeChain_append_of_completes (xs ys : chain) :
    ∀ se : stepExecutor, se.chainCompletes xs = true →
      se.executeChain (xs ++ ys) = (se.executeChain xs).1.executeChain ys := by
  induction xs with
  | nil => intro se _; simp [stepExecutor.executeChain]
  | cons run rest ih =>
    intro se h
    simp only [stepExecutor.chainCompletes] at h
    by_cases hd : se.ctxDone = true
    · simp [hd] at h
    · simp only [hd, if_false] at h
      cases hr : (se.executeStep run).2 with
      | some err => simp [hr] at h
      | none =>
        simp only [hr] at h
        simp only [List.cons_append, stepExecutor.executeChain, hd, if_false, hr]
        exact ih _ h

/-- A chain that stops early ignores the steps that follow. -/
theorem executeChain_append_of_stops (xs ys : chain) :
    ∀ se : stepExecutor, se.chainCompletes xs = false →
      se.executeChain (xs ++ ys) = se.executeChain xs := by
  induction xs with
  | nil => intro se h; simp [stepExecutor.chainCompletes] at h
  | cons run rest ih =>
    intro se h
    simp only [stepExecutor.chainCompletes] at h
    by_cases hd : se.ctxDone = true
    · simp [List.cons_append, stepExecutor.executeChain, hd]
    · simp only [hd, if_false] at h
      cases hr : (se.executeStep run).2 with
      | some err => simp only [List.cons_append, stepExecutor.executeChain, hd, if_false, hr]
      | none =>
        simp only [hr] at h
        simp only [List.cons_append, stepExecutor.executeChain, hd, if_false, hr]
        exact ih _ h

/-- The trace of a chain starts with the trace of each of its initial segments. -/
theorem executeChain_append_trace (se : stepExecutor) (xs ys : chain) :
    ∃ es, (se.executeChain (xs ++ ys)).1.trace = (se.executeChain xs).1.trace ++ es := by
  cases h : se.chainCompletes xs with
  | true =>
    rw [executeChain_append_of_completes xs ys se h]
    exact executeChain_trace ys _
  | false =>
    rw [executeChain_append_of_stops xs ys se h]
    exact ⟨[], by simp⟩

/-- C2: if executing the step at index `i` of a chain returns an error, then whatever the
error policy is, the chain ends there: the run of the chain is the run of the chain
cut after index `i`, so no step at a greater index is applied or has any other
effect.  (`pre` are the steps before index `i`, `post` the steps after it.) -/
theorem C2_chain_aborts_on_first_error (se : stepExecutor) (pre post : chain) (run : StepRun)
    (err : Error) (h : ((se.executeChain pre).1.executeStep run).2 = some err) :
    se.executeChain (pre ++ run :: post) = se.executeChain (pre ++ [run]) := by
  cases hc : se.chainCompletes pre with
  | true =>
    rw [executeChain_append_of_completes pre (run :: post) se hc,
      executeChain_append_of_completes pre [run] se hc]
    simp only [stepExecutor.executeChain, h]
  | false =>
    rw [executeChain_append_of_stops pre (run :: post) se hc,
      executeChain_append_of_stops pre [run] se hc]

/-- C2 on a chain of three steps whose second step fails in `Apply`, with
continue-on-error on: the run is that of the first two steps, the failing step is in
errored-steps, the third step is not applied, the context is not cancelled and
`Errored()` is the error. -/
theorem C2_chain_aborts_on_first_error_witness :
    (((sampleExecutor false true).executeChain
        [sampleRun "a" .CreateStep .OpCreate none]).1.executeStep
      (sampleRun "b" .CreateStep .OpCreate (some (.errorString "boom")))).2
      = some (.StepApplyFailed (.errorString "boom")) ∧
    (sampleExecutor false true).executeChain
        ([sampleRun "a" .CreateStep .OpCreate none]
          ++ sampleRun "b" .CreateStep .OpCreate (some (.errorString "boom"))
            :: [sampleRun "c" .CreateStep .OpCreate none])
      = (sampleExecutor false true).executeChain
        ([sampleRun "a" .CreateStep .OpCreate none]
          ++ [sampleRun "b" .CreateStep .OpCreate (some (.errorString "boom"))]) ∧
    Effect.Apply (sampleStep "c" .CreateStep .OpCreate true none) ∉
      ((sampleExecutor false true).executeChain
        [sampleRun "a" .CreateStep .OpCreate none,
         sampleRun "b" .CreateStep .OpCreate (some (.errorString "boom")),
         sampleRun "c" .CreateStep .OpCreate none]).1.trace :=
  ⟨by decide,
    C2_chain_aborts_on_first_error (sampleExecutor false true)
      [sampleRun "a" .CreateStep .OpCreate none] [sampleRun "c" .CreateStep .OpCreate none]
      (sampleRun "b" .CreateStep .OpCreate (some (.errorString "boom")))
      (.StepApplyFailed (.errorString "boom")) (by decide),
    by decide⟩

/-- C1, as stated, fails for a diff step: in the chain of a diff step whose `Apply` returns
a non-nil callback followed by a create step, the create step is applied although
the callback of the diff step is never invoked. -/
theorem C1_counterexample :
    (sampleStep "d" .DiffStep .OpDiff true none).Apply.stepComplete = true ∧
    Effect.Apply (sampleStep "b" .CreateStep .OpCreate true none) ∈
      ((sampleExecutor false false).executeChain
        [sampleRun "d" .DiffStep .OpDiff none, sampleRun "b" .CreateStep .OpCreate none]).1.trace ∧
    Effect.stepComplete (sampleStep "d" .DiffStep .OpDiff true none) ∉
      ((sampleExecutor false false).executeChain
        [sampleRun "d" .DiffStep .OpDiff none, sampleRun "b" .CreateStep .OpCreate none]).1.trace := by
  decide

/-- C1, amended: in every chain the steps take effect in index order, and for every step
`a` at an index `i` that is not a diff step and whose `Apply` returns a non-nil
callback, the step `b` at index `i + 1` has an effect (its pre-step event, its
`Apply`) only after the `Apply` of `a` and the callback of `a` have been invoked.
Here `ea` are the effects of the chain at index `i`, `eb` those at index `i + 1` and
`rest` those at greater indices (`pre` are the steps before `a`, `post` those after
`b`). -/
theorem C1_steps_in_order (se : stepExecutor) (pre post : chain) (a b : StepRun)
    (hk : a.step.kind ≠ StepKind.DiffStep) (hc : a.step.Apply.stepComplete = true) :
    ∃ ea eb rest : List Effect,
      (se.executeChain (pre ++ [a])).1.trace = (se.executeChain pre).1.trace ++ ea ∧
      (se.executeChain (pre ++ [a, b])).1.trace = (se.executeChain pre).1.trace ++ ea ++ eb ∧
      (se.executeChain (pre ++ a :: b :: post)).1.trace
        = (se.executeChain pre).1.trace ++ ea ++ eb ++ rest ∧
      (eb ≠ [] → Effect.Apply a.step ∈ ea ∧ Effect.stepComplete a.step ∈ ea) := by
  obtain ⟨ea, hea⟩ := executeChain_append_trace se pre [a]
  obtain ⟨eb, heb⟩ := executeChain_append_trace se (pre ++ [a]) [b]
  obtain ⟨rest, hrest⟩ := executeChain_append_trace se (pre ++ [a, b]) post
  have hab : pre ++ [a] ++ [b] = pre ++ [a, b] := by simp
  have habp : pre ++ [a, b] ++ post = pre ++ a :: b :: post := by simp
  rw [hab] at heb
  rw [habp] at hrest
  refine ⟨ea, eb, rest, hea, by rw [heb, hea], by rw [hrest, heb, hea], fun hne => ?_⟩
  -- if the chain stops at or before `a`, the step `b` has no effect
  have hstop : se.executeChain (pre ++ [a, b]) = se.executeChain (pre ++ [a]) → False := by
    intro heq
    rw [heq] at heb
    exact hne (by simpa using heb)
  cases hcp : se.chainCompletes pre with
  | false =>
    exact absurd (by
      rw [executeChain_append_of_stops pre [a, b] se hcp,
        executeChain_append_of_stops pre [a] se hcp]) hstop
  | true =>
    rw [executeChain_append_of_completes pre [a, b] se hcp,
      executeChain_append_of_completes pre [a] se hcp] at hstop
    rw [executeChain_append_of_completes pre [a] se hcp] at hea
    by_cases hd : (se.executeChain pre).1.ctxDone = true
    · exact absurd (by simp only [stepExecutor.executeChain, hd, if_true]) hstop
    · cases hr : ((se.executeChain pre).1.executeStep a).2 with
      | some err =>
        exact absurd (by simp only [stepExecutor.executeChain, hd, if_false, hr]) hstop
      | none =>
        obtain ⟨es, hes, hmem⟩ := executeStep_trace (se.executeChain pre).1 a
        simp only [stepExecutor.executeChain, hd, if_false, hr] at hea
        have : ea = es := List.append_cancel_left (hea.symm.trans hes)
        rw [this]
        exact ⟨(hmem hr).1, (hmem hr).2 hk hc⟩

/-- C1 amended, on a chain of two create steps. -/
theorem C1_steps_in_order_witness :
    (sampleRun "a" .CreateStep .OpCreate none).step.kind ≠ StepKind.DiffStep ∧
    (sampleRun "a" .CreateStep .OpCreate none).step.Apply.stepComplete = true ∧
    ∃ ea eb rest : List Effect,
      ((sampleExecutor false false).executeChain
          ([] ++ [sampleRun "a" .CreateStep .OpCreate none])).1.trace
        = ((sampleExecutor false false).executeChain []).1.trace ++ ea ∧
      ((sampleExecutor false false).executeChain
          ([] ++ [sampleRun "a" .CreateStep .OpCreate none,
            sampleRun "b" .CreateStep .OpCreate none])).1.trace
        = ((sampleExecutor false false).executeChain []).1.trace ++ ea ++ eb ∧
      ((sampleExecutor false false).executeChain
          ([] ++ sampleRun "a" .CreateStep .OpCreate none
            :: sampleRun "b" .CreateStep .OpCreate none :: [])).1.trace
        = ((sampleExecutor false false).executeChain []).1.trace ++ ea ++ eb ++ rest ∧
      (eb ≠ [] → Effect.Apply (sampleRun "a" .CreateStep .OpCreate none).step ∈ ea ∧
        Effect.stepComplete (sampleRun "a" .CreateStep .OpCreate none).step ∈ ea) :=
  ⟨by decide, by decide,
    C1_steps_in_order (sampleExecutor false false) [] []
      (sampleRun "a" .CreateStep .OpCreate none) (sampleRun "b" .CreateStep .OpCreate none)
      (by decide) (by decide)⟩

/-! ## The cancellation policy (`cancelDueToError`) -/

/-- C3: with ignore-errors off, continue-on-error off and an error that neither is nor
wraps a delete-protected error, `cancelDueToError` cancels the deployment context
(its only effect is the call of `cancel`) and leaves errored-steps as it was. -/
theorem C3_cancels_context (se : stepExecutor) (err : Error) (step : Option Step)
    (hi : se.ignoreErrors = false) (hc : se.deployment.opts.ContinueOnError = false)
    (hd : err.AsDeleteProtected = false) :
    (se.cancelDueToError err step).1.ctxDone = true ∧
    (se.cancelDueToError err step).1.trace = se.trace ++ [Effect.cancel] ∧
    (se.cancelDueToError err step).1.erroredSteps = se.erroredSteps ∧
    (se.cancelDueToError err step).2 = Outcome.returned () := by
  simp [stepExecutor.cancelDueToError, stepExecutor.emit, hi, hc, hd]

/-- C3 at a sample executor and a plain error. -/
theorem C3_cancels_context_witness :
    ((sampleExecutor false false).cancelDueToError (.errorString "boom")
        (some (sampleStep "a" .CreateStep .OpCreate true none))).1.ctxDone = true ∧
    ((sampleExecutor false false).cancelDueToError (.errorString "boom")
        (some (sampleStep "a" .CreateStep .OpCreate true none))).1.trace
      = (sampleExecutor false false).trace ++ [Effect.cancel] ∧
    ((sampleExecutor false false).cancelDueToError (.errorString "boom")
        (some (sampleStep "a" .CreateStep .OpCreate true none))).1.erroredSteps
      = (sampleExecutor false false).erroredSteps ∧
    ((sampleExecutor false false).cancelDueToError (.errorString "boom")
        (some (sampleStep "a" .CreateStep .OpCreate true none))).2 = Outcome.returned () :=
  C3_cancels_context (sampleExecutor false false) (.errorString "boom")
    (some (sampleStep "a" .CreateStep .OpCreate true none)) rfl rfl rfl

/-- C4: with ignore-errors off and continue-on-error on, `cancelDueToError` on a step calls
`step.Fail` (and nothing else), appends the step as the last element of errored-steps
with the earlier elements unchanged, leaves the context as it was, and `Errored()`
afterwards is non-nil. -/
theorem C4_continue_on_error (se : stepExecutor) (err : Error) (st : Step)
    (hi : se.ignoreErrors = false) (hc : se.deployment.opts.ContinueOnError = true) :
    (se.cancelDueToError err (some st)).1.trace = se.trace ++ [Effect.Fail st] ∧
    (se.cancelDueToError err (some st)).1.GetErroredSteps = se.erroredSteps ++ [st] ∧
    (se.cancelDueToError err (some st)).1.ctxDone = se.ctxDone ∧
    (se.cancelDueToError err (some st)).1.Errored ≠ none ∧
    (se.cancelDueToError err (some st)).2 = Outcome.returned () := by
  cases hs : se.sawError <;>
    simp [stepExecutor.cancelDueToError, stepExecutor.emit, stepExecutor.GetErroredSteps,
      stepExecutor.Errored, CompletionSource.Reject, CompletionSource.TryResult, hi, hc, hs]

/-- C4 at a sample executor with continue-on-error on. -/
theorem C4_continue_on_error_witness :
    (sampleExecutor false true).ignoreErrors = false ∧
    (sampleExecutor false true).deployment.opts.ContinueOnError = true ∧
    ((sampleExecutor false true).cancelDueToError (.errorString "boom")
        (some (sampleStep "a" .CreateStep .OpCreate true none))).1.GetErroredSteps
      = (sampleExecutor false true).erroredSteps
          ++ [sampleStep "a" .CreateStep .OpCreate true none] :=
  ⟨rfl, rfl, (C4_continue_on_error (sampleExecutor false true) (.errorString "boom")
    (sampleStep "a" .CreateStep .OpCreate true none) rfl rfl).2.1⟩

/-- C5, as stated, fails: with ignore-errors on, a delete-protected error leaves
errored-steps empty, for either value of continue-on-error. -/
theorem C5_counterexample :
    (Error.deleteProtectedError "protected").AsDeleteProtected = true ∧
    ((sampleExecutor true false).cancelDueToError (.deleteProtectedError "protected")
        (some (sampleStep "a" .DeleteStep .OpDelete true none))).1.GetErroredSteps = [] ∧
    ((sampleExecutor true true).cancelDueToError (.deleteProtectedError "protected")
        (some (sampleStep "a" .DeleteStep .OpDelete true none))).1.GetErroredSteps = [] :=
  ⟨rfl, rfl, rfl⟩

/-- C5, amended: with ignore-errors off, for every value of continue-on-error,
`cancelDueToError` on a step with an error that is or wraps a delete-protected error
leaves the context as it was (it does not call `cancel`) and appends the step to
errored-steps. -/
theorem C5_delete_protected_continues (se : stepExecutor) (err : Error) (st : Step)
    (hi : se.ignoreErrors = false) (hd : err.AsDeleteProtected = true) :
    (se.cancelDueToError err (some st)).1.ctxDone = se.ctxDone ∧
    (se.cancelDueToError err (some st)).1.trace = se.trace ++ [Effect.Fail st] ∧
    (se.cancelDueToError err (some st)).1.GetErroredSteps = se.erroredSteps ++ [st] ∧
    (se.cancelDueToError err (some st)).2 = Outcome.returned () := by
  simp [stepExecutor.cancelDueToError, stepExecutor.emit, stepExecutor.GetErroredSteps, hi, hd]

/-- C5 amended, at a sample executor with continue-on-error off and a wrapped
delete-protected error. -/
theorem C5_delete_protected_continues_witness :
    (sampleExecutor false false).ignoreErrors = false ∧
    (Error.StepApplyFailed (.deleteProtectedError "protected")).AsDeleteProtected = true ∧
    ((sampleExecutor false false).cancelDueToError
        (.StepApplyFailed (.deleteProtectedError "protected"))
        (some (sampleStep "a" .DeleteStep .OpDelete true none))).1.ctxDone
      = (sampleExecutor false false).ctxDone :=
  ⟨rfl, rfl, (C5_delete_protected_continues (sampleExecutor false false)
    (.StepApplyFailed (.deleteProtectedError "protected"))
    (sampleStep "a" .DeleteStep .OpDelete true none) rfl rfl).1⟩

/-- C6, as stated, fails: on a fresh executor with ignore-errors on, `Errored()` is nil
before `cancelDueToError` and is the error of the failing step after it. -/
theorem C6_counterexample :
    (sampleExecutor true false).ignoreErrors = true ∧
    (sampleExecutor true false).Errored = none ∧
    ((sampleExecutor true false).cancelDueToError (.errorString "boom")
        (some (sampleStep "a" .OtherStep .OpSame true none))).1.Errored
      = some (.errorString "boom") :=
  ⟨rfl, rfl, rfl⟩

/-- C6, amended: with ignore-errors on, `cancelDueToError` still rejects the error slot
(afterwards `Errored()` is the error already recorded, or else the error of this
call), and it does nothing further: the context is as it was and no collaborator is
called. -/
theorem C6_ignore_errors_records (se : stepExecutor) (err : Error) (step : Option Step)
    (hi : se.ignoreErrors = true) :
    (se.cancelDueToError err step).1.Errored = some (se.sawError.getD err) ∧
    (se.cancelDueToError err step).1.ctxDone = se.ctxDone ∧
    (se.cancelDueToError err step).1.trace = se.trace ∧
    (se.cancelDueToError err step).2 = Outcome.returned () := by
  cases hs : se.sawError <;>
    simp [stepExecutor.cancelDueToError, stepExecutor.Errored, CompletionSource.Reject,
      CompletionSource.TryResult, hi, hs]

/-- C6 amended, at a sample executor with ignore-errors on. -/
theorem C6_ignore_errors_records_witness :
    (sampleExecutor true false).ignoreErrors = true ∧
    ((sampleExecutor true false).cancelDueToError (.errorString "boom") none).1.ctxDone
      = (sampleExecutor true false).ctxDone :=
  ⟨rfl, (C6_ignore_errors_records (sampleExecutor true false) (.errorString "boom") none
    rfl).2.1⟩

/-- After `cancelDueToError` the error slot holds the error it held before, or else the
error of this call. -/
theorem cancelDueToError_sawError (se : stepExecutor) (err : Error) (step : Option Step) :
    (se.cancelDueToError err step).1.sawError = some (se.sawError.getD err) := by
  cases hs : se.sawError <;> cases step <;>
    simp only [stepExecutor.cancelDueToError, stepExecutor.emit, CompletionSource.Reject, hs] <;>
    split_ifs <;> rfl

/-- A sequence of `cancelDueToError` calls keeps an error slot that is already set. -/
theorem cancelAll_sawError_of_set (calls : List (Error × Option Step)) :
    ∀ (se : stepExecutor) (first : Error), se.sawError = some first →
      (se.cancelAll calls).1.sawError = some first := by
  induction calls with
  | nil => intro se first h; simpa [stepExecutor.cancelAll] using h
  | cons c rest ih =>
    intro se first h
    obtain ⟨err, step⟩ := c
    have hc : (se.cancelDueToError err step).1.sawError = some first := by
      rw [cancelDueToError_sawError, h]; rfl
    simp only [stepExecutor.cancelAll]
    split
    · exact hc
    · exact ih _ first hc

/-- C7: on an executor whose error slot is empty, `Errored()` is nil before the first
`cancelDueToError` call, and after any sequence of calls it is the error passed to the
first call: the errors of later calls never replace it. -/
theorem C7_first_error_is_kept (se : stepExecutor) (err : Error) (step : Option Step)
    (later : List (Error × Option Step)) (h : se.Errored = none) :
    (se.cancelAll []).1.Errored = none ∧
    (se.cancelAll ((err, step) :: later)).1.Errored = some err := by
  have hs : se.sawError = none := h
  refine ⟨h, ?_⟩
  have hc : (se.cancelDueToError err step).1.sawError = some err := by
    rw [cancelDueToError_sawError, hs]; rfl
  show ((se.cancelAll ((err, step) :: later)).1.sawError) = some err
  simp only [stepExecutor.cancelAll]
  split
  · exact hc
  · exact cancelAll_sawError_of_set later _ err hc

/-- C7 on a fresh executor and three failing steps. -/
theorem C7_first_error_is_kept_witness :
    (sampleExecutor false true).Errored = none ∧
    ((sampleExecutor false true).cancelAll
      [(.errorString "first", some (sampleStep "a" .CreateStep .OpCreate true none)),
       (.errorString "second", some (sampleStep "b" .CreateStep .OpCreate true none)),
       (.deleteProtectedError "third", none)]).1.Errored = some (.errorString "first") :=
  ⟨rfl, (C7_first_error_is_kept (sampleExecutor false true) (.errorString "first")
    (some (sampleStep "a" .CreateStep .OpCreate true none))
    [(.errorString "second", some (sampleStep "b" .CreateStep .OpCreate true none)),
     (.deleteProtectedError "third", none)] rfl).2⟩

/-- C8: with `ignoreErrors` on, whatever `ContinueOnError` is and whatever the error is,
`cancelDueToError` calls no collaborator (no `step.Fail`, no `cancel`), leaves
errored-steps unchanged and leaves the context as it was. -/
theorem C8_ignore_errors_takes_precedence (se : stepExecutor) (err : Error)
    (step : Option Step) (hi : se.ignoreErrors = true) :
    (se.cancelDueToError err step).1.trace = se.trace ∧
    (se.cancelDueToError err step).1.GetErroredSteps = se.erroredSteps ∧
    (se.cancelDueToError err step).1.ctxDone = se.ctxDone ∧
    (se.cancelDueToError err step).2 = Outcome.returned () := by
  simp [stepExecutor.cancelDueToError, stepExecutor.GetErroredSteps, hi]

/-- C8 with both flags on and a delete-protected error. -/
theorem C8_ignore_errors_takes_precedence_witness :
    (sampleExecutor true true).ignoreErrors = true ∧
    (sampleExecutor true true).deployment.opts.ContinueOnError = true ∧
    ((sampleExecutor true true).cancelDueToError (.deleteProtectedError "protected")
        (some (sampleStep "a" .DeleteStep .OpDelete true none))).1.trace
      = (sampleExecutor true true).trace :=
  ⟨rfl, rfl, (C8_ignore_errors_takes_precedence (sampleExecutor true true)
    (.deleteProtectedError "protected")
    (some (sampleStep "a" .DeleteStep .OpDelete true none)) rfl).1⟩

/-! ## Registering resource outputs: the pending registration -/

/-- `cancelDueToError` does not touch the pending registrations. -/
theorem cancelDueToError_pendingNews (se : stepExecutor) (err : Error) (step : Option Step) :
    (se.cancelDueToError err step).1.pendingNews = se.pendingNews := by
  cases step <;>
    simp only [stepExecutor.cancelDueToError, stepExecutor.emit] <;>
    split_ifs <;> rfl

/-- The after-hooks do not touch the pending registrations. -/
theorem runAfterHooks_pendingNews (se : stepExecutor) (reg : Step) (ref : StateRef) :
    (se.runAfterHooks reg ref).1.pendingNews = se.pendingNews := by
  simp only [stepExecutor.runAfterHooks, stepExecutor.emit]
  split_ifs
  · rfl
  · split <;> rfl
  · rfl
  · rfl

/-- A registration that gets past the assertion and the root-stack stash and does not find
its URN pending returns the not-pending error and changes nothing. -/
theorem register_not_pending (se : stepExecutor) (e : RegisterResourceOutputsEvent)
    (errored finalizingStackOutputs : Bool)
    (hassert : finalizingStackOutputs = true → e.URN.QualifiedType = RootStackType)
    (hstash : ¬ (finalizingStackOutputs = false ∧ e.URN.QualifiedType = RootStackType))
    (hpend : se.pendingNews e.URN = none) :
    se.executeRegisterResourceOutputs e errored finalizingStackOutputs
      = (se, Outcome.returned (some (notPendingError e.URN))) := by
  have h1 : (finalizingStackOutputs && !decide (e.URN.QualifiedType = RootStackType)) = false := by
    cases finalizingStackOutputs <;> simp_all
  have h2 : (!finalizingStackOutputs && decide (e.URN.QualifiedType = RootStackType)) = false := by
    cases finalizingStackOutputs <;> simp_all
  unfold stepExecutor.executeRegisterResourceOutputs
  simp only [h1, h2, hpend]
  rfl

/-- A registration that finds its URN pending deletes exactly that entry, however the call
ends. -/
theorem register_pendingNews_of_found (se : stepExecutor) (e : RegisterResourceOutputsEvent)
    (errored finalizingStackOutputs : Bool) (reg : Step)
    (hassert : finalizingStackOutputs = true → e.URN.QualifiedType = RootStackType)
    (hstash : ¬ (finalizingStackOutputs = false ∧ e.URN.QualifiedType = RootStackType))
    (hpend : se.pendingNews e.URN = some reg) :
    (se.executeRegisterResourceOutputs e errored finalizingStackOutputs).1.pendingNews
      = Delete se.pendingNews e.URN := by
  have h1 : (finalizingStackOutputs && !decide (e.URN.QualifiedType = RootStackType)) = false := by
    cases finalizingStackOutputs <;> simp_all
  have h2 : (!finalizingStackOutputs && decide (e.URN.QualifiedType = RootStackType)) = false := by
    cases finalizingStackOutputs <;> simp_all
  unfold stepExecutor.executeRegisterResourceOutputs
  simp only [h1, h2, hpend]
  repeat' split
  all_goals first
    | contradiction
    | simp only [cancelDueToError_pendingNews, runAfterHooks_pendingNews, stepExecutor.emit]

/-- C9: an output registration that is not stashed as a root-stack event (and meets the
assertion made of a finalizing call) and whose URN has no entry in `pendingNews`
returns the error "cannot complete a resource '<urn>' whose registration isn't
pending"; `pendingNews` and the outputs of every resource state are unchanged. -/
theorem C9_registration_not_pending (se : stepExecutor) (e : RegisterResourceOutputsEvent)
    (errored finalizingStackOutputs : Bool)
    (hassert : finalizingStackOutputs = true → e.URN.QualifiedType = RootStackType)
    (hstash : ¬ (finalizingStackOutputs = false ∧ e.URN.QualifiedType = RootStackType))
    (hpend : se.pendingNews e.URN = none) :
    (se.executeRegisterResourceOutputs e errored finalizingStackOutputs).2
      = Outcome.returned (some (Error.errorString
          ("cannot complete a resource '" ++ e.URN.text
            ++ "' whose registration isn't pending"))) ∧
    (se.executeRegisterResourceOutputs e errored finalizingStackOutputs).1.pendingNews
      = se.pendingNews ∧
    (∀ ref : StateRef,
      ((se.executeRegisterResourceOutputs e errored finalizingStackOutputs).1.states ref).Outputs
        = (se.states ref).Outputs) ∧
    (se.executeRegisterResourceOutputs e errored finalizingStackOutputs).1.trace = se.trace := by
  rw [register_not_pending se e errored finalizingStackOutputs hassert hstash hpend]
  exact ⟨rfl, rfl, fun _ => rfl, rfl⟩

/-- C9 on a fresh executor, where nothing is pending. -/
theorem C9_registration_not_pending_witness :
    (false = true → (sampleEvent "a").URN.QualifiedType = RootStackType) ∧
    ¬ (false = false ∧ (sampleEvent "a").URN.QualifiedType = RootStackType) ∧
    (sampleExecutor false false).pendingNews (sampleEvent "a").URN = none ∧
    ((sampleExecutor false false).executeRegisterResourceOutputs (sampleEvent "a") false false).2
      = Outcome.returned (some (Error.errorString
          "cannot complete a resource 'urn:pulumi:dev::proj::pkg:index:Thing::a' whose registration isn't pending")) :=
  ⟨by decide, by decide, rfl,
    (C9_registration_not_pending (sampleExecutor false false) (sampleEvent "a") false false
      (by decide) (by decide) rfl).1⟩

/-- C10: when `executeRegisterResourceOutputs` finds the URN of the event in `pendingNews`,
then, however the call ends, that entry is gone afterwards and the entries of all
other URNs are as before; and a further registration for the same URN, made on the
resulting executor, returns the not-pending error. -/
theorem C10_pending_entry_removed (se : stepExecutor) (e e2 : RegisterResourceOutputsEvent)
    (errored errored2 finalizingStackOutputs : Bool) (reg : Step)
    (hassert : finalizingStackOutputs = true → e.URN.QualifiedType = RootStackType)
    (hstash : ¬ (finalizingStackOutputs = false ∧ e.URN.QualifiedType = RootStackType))
    (hpend : se.pendingNews e.URN = some reg) (hsame : e2.URN = e.URN) :
    (se.executeRegisterResourceOutputs e errored finalizingStackOutputs).1.pendingNews e.URN
      = none ∧
    (∀ urn : URN, urn ≠ e.URN →
      (se.executeRegisterResourceOutputs e errored finalizingStackOutputs).1.pendingNews urn
        = se.pendingNews urn) ∧
    ((se.executeRegisterResourceOutputs e errored finalizingStackOutputs).1
        |>.executeRegisterResourceOutputs e2 errored2 finalizingStackOutputs).2
      = Outcome.returned (some (Error.errorString
          ("cannot complete a resource '" ++ e.URN.text
            ++ "' whose registration isn't pending"))) := by
  have hdel := register_pendingNews_of_found se e errored finalizingStackOutputs reg
    hassert hstash hpend
  have hgone :
      (se.executeRegisterResourceOutputs e errored finalizingStackOutputs).1.pendingNews e.URN
        = none := by
    rw [hdel]; simp [Delete]
  refine ⟨hgone, ?_, ?_⟩
  · intro urn hne
    rw [hdel]; simp [Delete, hne]
  · rw [register_not_pending _ e2 errored2 finalizingStackOutputs
      (by rw [hsame]; exact hassert) (by rw [hsame]; exact hstash) (by rw [hsame]; exact hgone)]
    simp [notPendingError, hsame]

/-- C10 on the executor that has just executed a create step for the URN: the first
registration removes the pending entry and a second one is refused. -/
theorem C10_pending_entry_removed_witness :
    (false = true → (sampleEvent "a").URN.QualifiedType = RootStackType) ∧
    ¬ (false = false ∧ (sampleEvent "a").URN.QualifiedType = RootStackType) ∧
    ((sampleExecutor false false).executeStep
        (sampleRun "a" .CreateStep .OpCreate none)).1.pendingNews (sampleEvent "a").URN
      = some (sampleStep "a" .CreateStep .OpCreate true none) ∧
    ((((sampleExecutor false false).executeStep (sampleRun "a" .CreateStep .OpCreate none)).1
        |>.executeRegisterResourceOutputs (sampleEvent "a") false false).1
        |>.executeRegisterResourceOutputs (sampleEvent "a") false false).2
      = Outcome.returned (some (Error.errorString
          ("cannot complete a resource '" ++ (sampleEvent "a").URN.text
            ++ "' whose registration isn't pending"))) :=
  ⟨by decide, by decide, by decide,
    (C10_pending_entry_removed
      ((sampleExecutor false false).executeStep (sampleRun "a" .CreateStep .OpCreate none)).1
      (sampleEvent "a") (sampleEvent "a") false false false
      (sampleStep "a" .CreateStep .OpCreate true none)
      (by decide) (by decide) (by decide) rfl).2.2⟩

/-! ## Registering resource outputs: the outputs that are stored -/

/-- `cancelDueToError` does not touch the resource states. -/
theorem cancelDueToError_states (se : stepExecutor) (err : Error) (step : Option Step) :
    (se.cancelDueToError err step).1.states = se.states := by
  cases step <;>
    simp only [stepExecutor.cancelDueToError, stepExecutor.emit] <;>
    split_ifs <;> rfl

/-- The after-hooks do not touch the resource states. -/
theorem runAfterHooks_states (se : stepExecutor) (reg : Step) (ref : StateRef) :
    (se.runAfterHooks reg ref).1.states = se.states := by
  simp only [stepExecutor.runAfterHooks, stepExecutor.emit]
  split_ifs
  · rfl
  · split <;> rfl
  · rfl
  · rfl

/-- A registration that finds its URN pending and is refused by the plan check returns the
error of the check; only the pending entry has changed. -/
theorem register_of_plan_error (se : stepExecutor) (e : RegisterResourceOutputsEvent)
    (errored finalizingStackOutputs : Bool) (reg : Step) (ref : StateRef) (planErr : Error)
    (hassert : finalizingStackOutputs = true → e.URN.QualifiedType = RootStackType)
    (hstash : ¬ (finalizingStackOutputs = false ∧ e.URN.QualifiedType = RootStackType))
    (hpend : se.pendingNews e.URN = some reg) (hnew : reg.New = some ref)
    (hplan : se.checkPlan e.URN (se.oldOuts e.URN)
      (se.registeredOuts e errored finalizingStackOutputs) = some planErr) :
    se.executeRegisterResourceOutputs e errored finalizingStackOutputs
      = ({ se with pendingNews := Delete se.pendingNews e.URN },
          Outcome.returned (some planErr)) := by
  have h1 : (finalizingStackOutputs && !decide (e.URN.QualifiedType = RootStackType)) = false := by
    cases finalizingStackOutputs <;> simp_all
  have h2 : (!finalizingStackOutputs && decide (e.URN.QualifiedType = RootStackType)) = false := by
    cases finalizingStackOutputs <;> simp_all
  unfold stepExecutor.executeRegisterResourceOutputs
  simp only [h1, h2, hpend, hnew, Bool.false_eq_true, ↓reduceIte]
  split
  · rename_i perr heq
    have : some perr = some planErr := heq.symm.trans hplan
    cases this
    rfl
  · rename_i heq
    exact absurd (heq.symm.trans hplan) (by simp)

/-- A registration that finds its URN pending and passes the plan check stores the outputs
in the new state of the pending step, and writes no other state, however it ends. -/
theorem register_states_of_plan_ok (se : stepExecutor) (e : RegisterResourceOutputsEvent)
    (errored finalizingStackOutputs : Bool) (reg : Step) (ref : StateRef)
    (hassert : finalizingStackOutputs = true → e.URN.QualifiedType = RootStackType)
    (hstash : ¬ (finalizingStackOutputs = false ∧ e.URN.QualifiedType = RootStackType))
    (hpend : se.pendingNews e.URN = some reg) (hnew : reg.New = some ref)
    (hplan : se.checkPlan e.URN (se.oldOuts e.URN)
      (se.registeredOuts e errored finalizingStackOutputs) = none) :
    (se.executeRegisterResourceOutputs e errored finalizingStackOutputs).1.states
      = fun r => if r = ref then
          { se.states ref with Outputs := se.registeredOuts e errored finalizingStackOutputs }
        else se.states r := by
  have h1 : (finalizingStackOutputs && !decide (e.URN.QualifiedType = RootStackType)) = false := by
    cases finalizingStackOutputs <;> simp_all
  have h2 : (!finalizingStackOutputs && decide (e.URN.QualifiedType = RootStackType)) = false := by
    cases finalizingStackOutputs <;> simp_all
  unfold stepExecutor.executeRegisterResourceOutputs
  simp only [h1, h2, hpend, hnew, Bool.false_eq_true, ↓reduceIte]
  generalize hO : (if (finalizingStackOutputs && errored) = true then _ else e.Outputs) = outs
  have hR : se.registeredOuts e errored finalizingStackOutputs = outs := hO
  rw [hR] at hplan ⊢
  split
  · rename_i perr heq
    exact absurd (heq.symm.trans hplan) (by simp)
  · repeat' split
    all_goals first
      | contradiction
      | simp only [cancelDueToError_states, runAfterHooks_states, stepExecutor.emit]

/-- C11: a registration that finds its URN pending, is not in finalization-with-error mode
and passes the plan check leaves the outputs of the new state of the pending step
equal to the outputs of the event, however the call ends afterwards; a key that the
event does not have is absent, whether or not it was present before. -/
theorem C11_outputs_overwritten (se : stepExecutor) (e : RegisterResourceOutputsEvent)
    (errored finalizingStackOutputs : Bool) (reg : Step) (ref : StateRef)
    (hassert : finalizingStackOutputs = true → e.URN.QualifiedType = RootStackType)
    (hstash : ¬ (finalizingStackOutputs = false ∧ e.URN.QualifiedType = RootStackType))
    (hpend : se.pendingNews e.URN = some reg) (hnew : reg.New = some ref)
    (hmode : ¬ (finalizingStackOutputs = true ∧ errored = true))
    (hplan : se.checkPlan e.URN (se.oldOuts e.URN) e.Outputs = none) :
    ((se.executeRegisterResourceOutputs e errored finalizingStackOutputs).1.states ref).Outputs
      = e.Outputs ∧
    (∀ k : PropertyKey, e.Outputs k = none →
      ((se.executeRegisterResourceOutputs e errored finalizingStackOutputs).1.states
        ref).Outputs k = none) := by
  have hR : se.registeredOuts e errored finalizingStackOutputs = e.Outputs := by
    unfold stepExecutor.registeredOuts
    cases finalizingStackOutputs <;> cases errored <;> simp_all
  have hs := register_states_of_plan_ok se e errored finalizingStackOutputs reg ref
    hassert hstash hpend hnew (by rw [hR]; exact hplan)
  have hout :
      ((se.executeRegisterResourceOutputs e errored finalizingStackOutputs).1.states ref).Outputs
        = e.Outputs := by
    rw [hs, hR]; simp
  exact ⟨hout, fun k hk => by rw [hout]; exact hk⟩

/-- C11 on a pending update step whose new state has the output `stale`: after the
registration the new state has exactly the outputs of the event, `stale` is gone. -/
theorem C11_outputs_overwritten_witness :
    (false = true → (outputsEvent (sampleURN "a")).URN.QualifiedType = RootStackType) ∧
    ¬ (false = false ∧ (outputsEvent (sampleURN "a")).URN.QualifiedType = RootStackType) ∧
    (pendingExecutor (sampleURN "a") (sampleDeployment false) false).pendingNews
        (outputsEvent (sampleURN "a")).URN = some (pendingStep (sampleURN "a")) ∧
    (pendingStep (sampleURN "a")).New = some 0 ∧
    ((pendingExecutor (sampleURN "a") (sampleDeployment false) false).states 0).Outputs "stale"
      = some (.plain "s") ∧
    (((pendingExecutor (sampleURN "a") (sampleDeployment false) false).executeRegisterResourceOutputs
        (outputsEvent (sampleURN "a")) false false).1.states 0).Outputs "stale" = none :=
  ⟨by decide, by decide, by decide, rfl, by decide,
    (C11_outputs_overwritten (pendingExecutor (sampleURN "a") (sampleDeployment false) false)
      (outputsEvent (sampleURN "a")) false false (pendingStep (sampleURN "a")) 0
      (by decide) (by decide) (by decide) rfl (by decide) (by decide)).2 "stale" (by decide)⟩

/-- C12: a registration in finalization-with-error mode that finds its URN pending and
passes the plan check leaves the outputs of the new state equal to the old outputs
overridden by the outputs of the event: a key of the event has the value of the
event, any other key has what the old outputs have for it (nothing if the old outputs
lack it, and the old outputs are empty when the deployment has no old state for the
URN); no state other than the new state is written, so the outputs of a distinct old
state are as before. -/
theorem C12_outputs_merged (se : stepExecutor) (e : RegisterResourceOutputsEvent)
    (reg : Step) (ref : StateRef)
    (hroot : e.URN.QualifiedType = RootStackType)
    (hpend : se.pendingNews e.URN = some reg) (hnew : reg.New = some ref)
    (hplan : se.checkPlan e.URN (se.oldOuts e.URN)
      ((se.oldOuts e.URN).Copy.assignAll e.Outputs) = none) :
    (∀ (k : PropertyKey) (v : PropertyValue), e.Outputs k = some v →
      ((se.executeRegisterResourceOutputs e true true).1.states ref).Outputs k = some v) ∧
    (∀ k : PropertyKey, e.Outputs k = none →
      ((se.executeRegisterResourceOutputs e true true).1.states ref).Outputs k
        = se.oldOuts e.URN k) ∧
    (∀ old : StateRef, se.deployment.Olds e.URN = some old →
      se.oldOuts e.URN = (se.states old).Outputs) ∧
    (se.deployment.Olds e.URN = none → ∀ k : PropertyKey, se.oldOuts e.URN k = none) ∧
    (∀ r : StateRef, r ≠ ref →
      (se.executeRegisterResourceOutputs e true true).1.states r = se.states r) := by
  have hR : se.registeredOuts e true true = (se.oldOuts e.URN).Copy.assignAll e.Outputs := rfl
  have hs := register_states_of_plan_ok se e true true reg ref
    (fun _ => hroot) (by simp) hpend hnew (by rw [hR]; exact hplan)
  refine ⟨?_, ?_, ?_, ?_, ?_⟩
  · intro k v hk
    rw [hs, hR]; simp [PropertyMap.assignAll, hk]
  · intro k hk
    rw [hs, hR]; simp [PropertyMap.assignAll, PropertyMap.Copy, hk]
  · intro old hold
    simp [stepExecutor.oldOuts, hold]
  · intro hold k
    simp [stepExecutor.oldOuts, hold, PropertyMap.empty]
  · intro r hr
    rw [hs]; simp [hr]

/-- C12 on the root stack resource: the old state has `kept` and `both`, the event has
`both` and `fresh`; afterwards the new state has the old `kept`, the new `both` and
`fresh`, and not its earlier `stale`, and the old state still has the old `both`. -/
theorem C12_outputs_merged_witness :
    (outputsEvent stackURN).URN.QualifiedType = RootStackType ∧
    (pendingExecutor stackURN (sampleDeployment false) false).pendingNews
        (outputsEvent stackURN).URN = some (pendingStep stackURN) ∧
    (((pendingExecutor stackURN (sampleDeployment false) false).executeRegisterResourceOutputs
        (outputsEvent stackURN) true true).1.states 0).Outputs "both" = some (.plain "new") ∧
    (((pendingExecutor stackURN (sampleDeployment false) false).executeRegisterResourceOutputs
        (outputsEvent stackURN) true true).1.states 0).Outputs "kept" = some (.plain "k") ∧
    (((pendingExecutor stackURN (sampleDeployment false) false).executeRegisterResourceOutputs
        (outputsEvent stackURN) true true).1.states 0).Outputs "stale" = none ∧
    (((pendingExecutor stackURN (sampleDeployment false) false).executeRegisterResourceOutputs
        (outputsEvent stackURN) true true).1.states 1).Outputs "both" = some (.plain "old") :=
  ⟨rfl, by decide,
    (C12_outputs_merged (pendingExecutor stackURN (sampleDeployment false) false)
      (outputsEvent stackURN) (pendingStep stackURN) 0 rfl (by decide) rfl (by decide)).1
      "both" (.plain "new") (by decide),
    by decide, by decide, by decide⟩

/-- C13: when the deployment has a plan and a registration reaches the plan check (it finds
its URN pending), the call returns the error "no plan for resource <urn>" if the plan
has no resource plan for the URN, and returns the error of `checkOutputs(old outputs,
new outputs)` wrapped with the text "resource violates plan: " if that check fails;
if the check succeeds the plan check yields no error and the call goes on to store
the outputs. -/
theorem C13_plan_check (se : stepExecutor) (e : RegisterResourceOutputsEvent)
    (errored finalizingStackOutputs : Bool) (reg : Step) (ref : StateRef) (plan : Plan)
    (hassert : finalizingStackOutputs = true → e.URN.QualifiedType = RootStackType)
    (hstash : ¬ (finalizingStackOutputs = false ∧ e.URN.QualifiedType = RootStackType))
    (hpend : se.pendingNews e.URN = some reg) (hnew : reg.New = some ref)
    (hhas : se.deployment.plan = some plan) :
    (plan.ResourcePlans e.URN = none →
      (se.executeRegisterResourceOutputs e errored finalizingStackOutputs).2
        = Outcome.returned (some (Error.errorString ("no plan for resource " ++ e.URN.text)))) ∧
    (∀ (resourcePlan : ResourcePlan) (err : Error),
      plan.ResourcePlans e.URN = some resourcePlan →
      resourcePlan.checkOutputs (se.oldOuts e.URN)
        (se.registeredOuts e errored finalizingStackOutputs) = some err →
      (se.executeRegisterResourceOutputs e errored finalizingStackOutputs).2
        = Outcome.returned (some (Error.wrapError "resource violates plan: " err))) ∧
    (∀ resourcePlan : ResourcePlan,
      plan.ResourcePlans e.URN = some resourcePlan →
      resourcePlan.checkOutputs (se.oldOuts e.URN)
        (se.registeredOuts e errored finalizingStackOutputs) = none →
      se.checkPlan e.URN (se.oldOuts e.URN)
        (se.registeredOuts e errored finalizingStackOutputs) = none ∧
      ((se.executeRegisterResourceOutputs e errored finalizingStackOutputs).1.states ref).Outputs
        = se.registeredOuts e errored finalizingStackOutputs) := by
  refine ⟨?_, ?_, ?_⟩
  · intro hnone
    rw [register_of_plan_error se e errored finalizingStackOutputs reg ref
      (Error.errorString ("no plan for resource " ++ e.URN.text))
      hassert hstash hpend hnew (by simp [stepExecutor.checkPlan, hhas, hnone])]
  · intro resourcePlan err hrp hcheck
    rw [register_of_plan_error se e errored finalizingStackOutputs reg ref
      (Error.wrapError "resource violates plan: " err)
      hassert hstash hpend hnew (by simp [stepExecutor.checkPlan, hhas, hrp, hcheck])]
  · intro resourcePlan hrp hcheck
    have hplan : se.checkPlan e.URN (se.oldOuts e.URN)
        (se.registeredOuts e errored finalizingStackOutputs) = none := by
      simp [stepExecutor.checkPlan, hhas, hrp, hcheck]
    refine ⟨hplan, ?_⟩
    rw [register_states_of_plan_ok se e errored finalizingStackOutputs reg ref
      hassert hstash hpend hnew hplan]
    simp

/-- C13 on a deployment whose plan rejects the outputs of the pending resource. -/
theorem C13_plan_check_witness :
    (false = true → (outputsEvent (sampleURN "a")).URN.QualifiedType = RootStackType) ∧
    ¬ (false = false ∧ (outputsEvent (sampleURN "a")).URN.QualifiedType = RootStackType) ∧
    (pendingExecutor (sampleURN "a")
      { sampleDeployment false with plan := some (samplePlan (sampleURN "a") true) }
      false).pendingNews (outputsEvent (sampleURN "a")).URN = some (pendingStep (sampleURN "a")) ∧
    ((pendingExecutor (sampleURN "a")
      { sampleDeployment false with plan := some (samplePlan (sampleURN "a") true) }
      false).executeRegisterResourceOutputs (outputsEvent (sampleURN "a")) false false).2
      = Outcome.returned (some (Error.wrapError "resource violates plan: "
          (.errorString "mismatch"))) :=
  ⟨by decide, by decide, by decide,
    (C13_plan_check
      (pendingExecutor (sampleURN "a")
        { sampleDeployment false with plan := some (samplePlan (sampleURN "a") true) } false)
      (outputsEvent (sampleURN "a")) false false (pendingStep (sampleURN "a")) 0
      (samplePlan (sampleURN "a") true) (by decide) (by decide) (by decide) rfl rfl).2.1
      { checkOutputs := fun _ _ => if true then some (.errorString "mismatch") else none
        Outputs := PropertyMap.empty
        OutputDiff := none }
      (.errorString "mismatch") (by simp [samplePlan, outputsEvent]) rfl⟩

/-- C15: for an event whose URN has the root-stack type, a call with
`finalizingStackOutputs` false stores the event in `stackOutputsEvent`, calls the
`Done` of the event (and no other collaborator), returns nil, and changes neither
`pendingNews` nor any resource state, whether or not the URN is pending. -/
theorem C15_root_stack_event_stashed (se : stepExecutor) (e : RegisterResourceOutputsEvent)
    (errored : Bool) (hroot : e.URN.QualifiedType = RootStackType) :
    (se.executeRegisterResourceOutputs e errored false).1.stackOutputsEvent = some e ∧
    (se.executeRegisterResourceOutputs e errored false).1.trace
      = se.trace ++ [Effect.Done e.URN] ∧
    (se.executeRegisterResourceOutputs e errored false).2 = Outcome.returned none ∧
    (se.executeRegisterResourceOutputs e errored false).1.pendingNews = se.pendingNews ∧
    (se.executeRegisterResourceOutputs e errored false).1.states = se.states := by
  unfold stepExecutor.executeRegisterResourceOutputs
  simp [hroot, stepExecutor.emit]

/-- C15 on an executor in which the root stack URN is pending: the entry stays. -/
theorem C15_root_stack_event_stashed_witness :
    (outputsEvent stackURN).URN.QualifiedType = RootStackType ∧
    ((pendingExecutor stackURN (sampleDeployment false) false).executeRegisterResourceOutputs
        (outputsEvent stackURN) false false).1.pendingNews
      = (pendingExecutor stackURN (sampleDeployment false) false).pendingNews :=
  ⟨rfl, (C15_root_stack_event_stashed (pendingExecutor stackURN (sampleDeployment false) false)
    (outputsEvent stackURN) false rfl).2.2.2.1⟩

/-! ## Registering resource outputs: the event sink -/

/-- A registration that finds its URN pending and passes the plan check is the run of its
remaining stages: store the outputs, run the after-hooks, notify the event sink. -/
theorem register_stages (se : stepExecutor) (e : RegisterResourceOutputsEvent)
    (errored finalizingStackOutputs : Bool) (reg : Step) (ref : StateRef)
    (hassert : finalizingStackOutputs = true → e.URN.QualifiedType = RootStackType)
    (hstash : ¬ (finalizingStackOutputs = false ∧ e.URN.QualifiedType = RootStackType))
    (hpend : se.pendingNews e.URN = some reg) (hnew : reg.New = some ref)
    (hplan : se.checkPlan e.URN (se.oldOuts e.URN)
      (se.registeredOuts e errored finalizingStackOutputs) = none) :
    se.executeRegisterResourceOutputs e errored finalizingStackOutputs
      = match ({ se with pendingNews := Delete se.pendingNews e.URN }.storeOutputs e.URN ref
            (se.oldOuts e.URN) (se.registeredOuts e errored finalizingStackOutputs)).2 with
        | some genErr =>
          (({ se with pendingNews := Delete se.pendingNews e.URN }.storeOutputs e.URN ref
            (se.oldOuts e.URN) (se.registeredOuts e errored finalizingStackOutputs)).1,
            Outcome.returned (some genErr))
        | none =>
          match ((({ se with pendingNews := Delete se.pendingNews e.URN }.storeOutputs e.URN ref
              (se.oldOuts e.URN) (se.registeredOuts e errored finalizingStackOutputs)).1
              ).runAfterHooks reg ref).2 with
          | .panicked msg =>
            (((({ se with pendingNews := Delete se.pendingNews e.URN }.storeOutputs e.URN ref
              (se.oldOuts e.URN) (se.registeredOuts e errored finalizingStackOutputs)).1
              ).runAfterHooks reg ref).1, Outcome.panicked msg)
          | .returned (some hookErr) =>
            (((({ se with pendingNews := Delete se.pendingNews e.URN }.storeOutputs e.URN ref
              (se.oldOuts e.URN) (se.registeredOuts e errored finalizingStackOutputs)).1
              ).runAfterHooks reg ref).1, Outcome.returned (some hookErr))
          | .returned none =>
            ((({ se with pendingNews := Delete se.pendingNews e.URN }.storeOutputs e.URN ref
              (se.oldOuts e.URN) (se.registeredOuts e errored finalizingStackOutputs)).1
              ).runAfterHooks reg ref).1.notifyOutputs e reg finalizingStackOutputs := by
  have h1 : (finalizingStackOutputs && !decide (e.URN.QualifiedType = RootStackType)) = false := by
    cases finalizingStackOutputs <;> simp_all
  have h2 : (!finalizingStackOutputs && decide (e.URN.QualifiedType = RootStackType)) = false := by
    cases finalizingStackOutputs <;> simp_all
  unfold stepExecutor.executeRegisterResourceOutputs
  simp only [h1, h2, hpend, hnew, Bool.false_eq_true, ↓reduceIte]
  split
  · rename_i perr heq
    exact absurd (heq.symm.trans hplan) (by simp)
  · rfl

/-- A registration that finds a pending step without a new state panics after deleting the
pending entry. -/
theorem register_new_nil (se : stepExecutor) (e : RegisterResourceOutputsEvent)
    (errored finalizingStackOutputs : Bool) (reg : Step)
    (hassert : finalizingStackOutputs = true → e.URN.QualifiedType = RootStackType)
    (hstash : ¬ (finalizingStackOutputs = false ∧ e.URN.QualifiedType = RootStackType))
    (hpend : se.pendingNews e.URN = some reg) (hnew : reg.New = none) :
    se.executeRegisterResourceOutputs e errored finalizingStackOutputs
      = ({ se with pendingNews := Delete se.pendingNews e.URN },
          Outcome.panicked "invalid memory address or nil pointer dereference") := by
  have h1 : (finalizingStackOutputs && !decide (e.URN.QualifiedType = RootStackType)) = false := by
    cases finalizingStackOutputs <;> simp_all
  have h2 : (!finalizingStackOutputs && decide (e.URN.QualifiedType = RootStackType)) = false := by
    cases finalizingStackOutputs <;> simp_all
  unfold stepExecutor.executeRegisterResourceOutputs
  simp only [h1, h2, hpend, hnew, Bool.false_eq_true, ↓reduceIte]

/-- Storing the outputs calls no collaborator and keeps the event sink, the options and the
error policy of the executor. -/
theorem storeOutputs_frame (se : stepExecutor) (urn : URN) (ref : StateRef)
    (oldOuts outs : PropertyMap) :
    (se.storeOutputs urn ref oldOuts outs).1.trace = se.trace ∧
    (se.storeOutputs urn ref oldOuts outs).1.deployment.events = se.deployment.events ∧
    (se.storeOutputs urn ref oldOuts outs).1.deployment.opts = se.deployment.opts ∧
    (se.storeOutputs urn ref oldOuts outs).1.ignoreErrors = se.ignoreErrors ∧
    (se.storeOutputs urn ref oldOuts outs).1.ctxDone = se.ctxDone ∧
    (se.storeOutputs urn ref oldOuts outs).1.sawError = se.sawError ∧
    (se.storeOutputs urn ref oldOuts outs).1.erroredSteps = se.erroredSteps := by
  simp only [stepExecutor.storeOutputs]
  split
  · split <;> exact ⟨rfl, rfl, rfl, rfl, rfl, rfl, rfl⟩
  · exact ⟨rfl, rfl, rfl, rfl, rfl, rfl, rfl⟩

/-- The after-hooks only add `RunHooks` calls to the trace and keep the deployment and the
error policy of the executor. -/
theorem runAfterHooks_frame (se : stepExecutor) (reg : Step) (ref : StateRef) :
    (∃ hs, (se.runAfterHooks reg ref).1.trace = se.trace ++ hs ∧
      ∀ x ∈ hs, ∃ hook urn, x = Effect.RunHooks hook urn) ∧
    (se.runAfterHooks reg ref).1.deployment = se.deployment ∧
    (se.runAfterHooks reg ref).1.ignoreErrors = se.ignoreErrors ∧
    (se.runAfterHooks reg ref).1.ctxDone = se.ctxDone ∧
    (se.runAfterHooks reg ref).1.sawError = se.sawError ∧
    (se.runAfterHooks reg ref).1.erroredSteps = se.erroredSteps := by
  simp only [stepExecutor.runAfterHooks, stepExecutor.emit]
  split_ifs
  · exact ⟨⟨[_], rfl, fun x hx => ⟨_, _, by simpa using hx⟩⟩, rfl, rfl, rfl, rfl, rfl⟩
  · split
    · exact ⟨⟨[], by simp, fun x hx => by simp at hx⟩, rfl, rfl, rfl, rfl, rfl⟩
    · exact ⟨⟨[_], rfl, fun x hx => ⟨_, _, by simpa using hx⟩⟩, rfl, rfl, rfl, rfl, rfl⟩
  · exact ⟨⟨[], by simp, fun x hx => by simp at hx⟩, rfl, rfl, rfl, rfl, rfl⟩
  · exact ⟨⟨[], by simp, fun x hx => by simp at hx⟩, rfl, rfl, rfl, rfl, rfl⟩

/-- The two ways the notification of the event sink goes: either the sink is absent or
returns nil, and the call returns nil having called at most `OnResourceOutputs` and
`Done`; or the sink returns an error, which is reported and handed to
`cancelDueToError` with a nil step. -/
theorem notifyOutputs_cases (se : stepExecutor) (e : RegisterResourceOutputsEvent) (reg : Step)
    (finalizingStackOutputs : Bool) :
    (∃ tail, (se.notifyOutputs e reg finalizingStackOutputs).1.trace = se.trace ++ tail ∧
      ∀ s, Effect.OnResourceOutputs s ∈ tail →
        ∃ ev, se.deployment.events = some ev ∧ ev.OnResourceOutputs s = none) ∨
    (∃ ev eventerr, se.deployment.events = some ev ∧ ev.OnResourceOutputs reg = some eventerr ∧
      se.notifyOutputs e reg finalizingStackOutputs
        = match (((se.emit (.OnResourceOutputs reg)).emit (.Errorf reg.URN
              ("resource complete event returned an error: " ++ eventerr.message))
              ).cancelDueToError eventerr none).2 with
          | .panicked msg =>
            ((((se.emit (.OnResourceOutputs reg)).emit (.Errorf reg.URN
              ("resource complete event returned an error: " ++ eventerr.message))
              ).cancelDueToError eventerr none).1, Outcome.panicked msg)
          | .returned _ =>
            ((((se.emit (.OnResourceOutputs reg)).emit (.Errorf reg.URN
              ("resource complete event returned an error: " ++ eventerr.message))
              ).cancelDueToError eventerr none).1, Outcome.returned none)) := by
  unfold stepExecutor.notifyOutputs
  cases hev : se.deployment.events with
  | none =>
    left
    simp only []
    split
    · exact ⟨[Effect.Done e.URN], rfl, fun s hs => by simp at hs⟩
    · exact ⟨[], by simp, fun s hs => by simp at hs⟩
  | some ev =>
    cases hso : ev.OnResourceOutputs reg with
    | none =>
      left
      simp only [hso]
      split
      · refine ⟨[Effect.OnResourceOutputs reg, Effect.Done e.URN],
          by simp [stepExecutor.emit], fun s hs => ?_⟩
        have : s = reg := by simpa using hs
        exact ⟨ev, rfl, by rw [this]; exact hso⟩
      · refine ⟨[Effect.OnResourceOutputs reg], by simp [stepExecutor.emit], fun s hs => ?_⟩
        have : s = reg := by simpa using hs
        exact ⟨ev, rfl, by rw [this]; exact hso⟩
    | some eventerr =>
      right
      refine ⟨ev, eventerr, rfl, hso, ?_⟩
      simp only [hso]
      rfl

/-- `cancelDueToError` with a nil step adds nothing to the trace, or only the call of
`cancel`. -/
theorem cancelDueToError_nil_trace (se : stepExecutor) (err : Error) :
    (se.cancelDueToError err none).1.trace = se.trace ∨
    (se.cancelDueToError err none).1.trace = se.trace ++ [Effect.cancel] := by
  simp only [stepExecutor.cancelDueToError]
  by_cases hi : se.ignoreErrors = true
  · left; simp [hi]
  · by_cases hc : (if err.AsDeleteProtected = true then true
        else se.deployment.opts.ContinueOnError) = true
    · left; simp [hi, hc]
    · right; simp [hi, hc, stepExecutor.emit]

/-- The statement of `register_sink_call` for a call that passes the assertion and is not
stashed. -/
theorem register_sink_call_reached (se : stepExecutor) (e : RegisterResourceOutputsEvent)
    (errored finalizingStackOutputs : Bool) (sink : Events) (reg : Step) (eventerr : Error)
    (es : List Effect)
    (hsink : se.deployment.events = some sink)
    (htrace : (se.executeRegisterResourceOutputs e errored finalizingStackOutputs).1.trace
      = se.trace ++ es)
    (hcall : Effect.OnResourceOutputs reg ∈ es)
    (herr : sink.OnResourceOutputs reg = some eventerr)
    (hassert : finalizingStackOutputs = true → e.URN.QualifiedType = RootStackType)
    (hstash : ¬ (finalizingStackOutputs = false ∧ e.URN.QualifiedType = RootStackType)) :
    ∃ (S : stepExecutor) (hs : List Effect),
      (∀ x ∈ hs, ∃ hook urn, x = Effect.RunHooks hook urn) ∧
      S.trace = se.trace ++ hs ++ [Effect.OnResourceOutputs reg, Effect.Errorf reg.URN
        ("resource complete event returned an error: " ++ eventerr.message)] ∧
      S.ignoreErrors = se.ignoreErrors ∧ S.ctxDone = se.ctxDone ∧
      S.deployment.opts = se.deployment.opts ∧ S.sawError = se.sawError ∧
      S.erroredSteps = se.erroredSteps ∧
      se.executeRegisterResourceOutputs e errored finalizingStackOutputs
        = match (S.cancelDueToError eventerr none).2 with
          | .panicked msg => ((S.cancelDueToError eventerr none).1, Outcome.panicked msg)
          | .returned _ => ((S.cancelDueToError eventerr none).1, Outcome.returned none) := by
  -- a call that adds no effect cannot have called the sink
  have hempty : (se.executeRegisterResourceOutputs e errored finalizingStackOutputs).1.trace
      = se.trace → False := by
    intro h
    rw [h] at htrace
    have : es = [] := by simpa using htrace
    rw [this] at hcall
    simp at hcall
  cases hp : se.pendingNews e.URN with
  | none =>
    exfalso; apply hempty
    rw [register_not_pending se e errored finalizingStackOutputs hassert hstash hp]
  | some pending =>
    cases hn : pending.New with
    | none =>
      exfalso; apply hempty
      rw [register_new_nil se e errored finalizingStackOutputs pending hassert hstash hp hn]
    | some ref =>
      cases hpl : se.checkPlan e.URN (se.oldOuts e.URN)
          (se.registeredOuts e errored finalizingStackOutputs) with
      | some planErr =>
        exfalso; apply hempty
        rw [register_of_plan_error se e errored finalizingStackOutputs pending ref planErr
          hassert hstash hp hn hpl]
      | none =>
        have hst := register_stages se e errored finalizingStackOutputs pending ref
          hassert hstash hp hn hpl
        obtain ⟨ht1, hev1, hop1, hi1, hc1, hs1, he1⟩ := storeOutputs_frame
          { se with pendingNews := Delete se.pendingNews e.URN } e.URN ref (se.oldOuts e.URN)
          (se.registeredOuts e errored finalizingStackOutputs)
        generalize ({ se with pendingNews := Delete se.pendingNews e.URN }.storeOutputs e.URN ref
          (se.oldOuts e.URN) (se.registeredOuts e errored finalizingStackOutputs)) = s1
          at hst ht1 hev1 hop1 hi1 hc1 hs1 he1
        cases hs12 : s1.2 with
        | some genErr =>
          exfalso; apply hempty
          rw [hst]; simp only [hs12]; exact ht1
        | none =>
          simp only [hs12] at hst
          obtain ⟨⟨hs, ht2, hhooks⟩, hd2, hi2, hc2, hs2, he2⟩ :=
            runAfterHooks_frame s1.1 pending ref
          -- the hooks do not call the sink
          have hnohook : (s1.1.runAfterHooks pending ref).1.trace
              = (se.executeRegisterResourceOutputs e errored finalizingStackOutputs).1.trace
              → False := by
            intro h
            rw [← h, ht2, ht1] at htrace
            have : es = hs := by
              have := List.append_cancel_left htrace
              exact this.symm
            rw [this] at hcall
            obtain ⟨hook, urn, hx⟩ := hhooks _ hcall
            cases hx
          generalize s1.1.runAfterHooks pending ref = s2 at hst ht2 hd2 hi2 hc2 hs2 he2 hnohook
          cases hs22 : s2.2 with
          | panicked msg =>
            exfalso; apply hnohook
            rw [hst]; simp only [hs22]
          | returned hookRes =>
            cases hookRes with
            | some hookErr =>
              exfalso; apply hnohook
              rw [hst]; simp only [hs22]
            | none =>
              simp only [hs22] at hst
              have hev2 : s2.1.deployment.events = some sink := by
                rw [hd2, hev1]; exact hsink
              rcases notifyOutputs_cases s2.1 e pending finalizingStackOutputs with
                ⟨tail, htail, hben⟩ | ⟨ev, everr, hev, hso, hnot⟩
              · -- the sink returned nil for every step it was called for
                exfalso
                rw [hst, htail, ht2, ht1] at htrace
                have hes : es = hs ++ tail := by
                  have := List.append_cancel_left (by simpa using htrace : se.trace ++ (hs ++ tail)
                    = se.trace ++ es)
                  exact this.symm
                rw [hes] at hcall
                rcases List.mem_append.mp hcall with hin | hin
                · obtain ⟨hook, urn, hx⟩ := hhooks _ hin
                  cases hx
                · obtain ⟨ev, hev, hnone⟩ := hben reg hin
                  rw [hev2] at hev
                  cases hev
                  rw [herr] at hnone
                  cases hnone
              · -- the sink returned an error for the pending step
                rw [hev2] at hev
                cases hev
                -- the step the sink was called for is the pending step
                have hreg : reg = pending := by
                  rw [hst, hnot] at htrace
                  have hct := cancelDueToError_nil_trace
                    ((s2.1.emit (.OnResourceOutputs pending)).emit (.Errorf pending.URN
                      ("resource complete event returned an error: " ++ everr.message))) everr
                  have htr : ∀ x : stepExecutor × Outcome (Option Error),
                      (x = (match (((s2.1.emit (.OnResourceOutputs pending)).emit
                          (.Errorf pending.URN
                            ("resource complete event returned an error: " ++ everr.message))
                          ).cancelDueToError everr none).2 with
                        | .panicked msg =>
                          ((((s2.1.emit (.OnResourceOutputs pending)).emit (.Errorf pending.URN
                            ("resource complete event returned an error: " ++ everr.message))
                            ).cancelDueToError everr none).1, Outcome.panicked msg)
                        | .returned _ =>
                          ((((s2.1.emit (.OnResourceOutputs pending)).emit (.Errorf pending.URN
                            ("resource complete event returned an error: " ++ everr.message))
                            ).cancelDueToError everr none).1, Outcome.returned none))) →
                      x.1.trace = (((s2.1.emit (.OnResourceOutputs pending)).emit
                          (.Errorf pending.URN
                            ("resource complete event returned an error: " ++ everr.message))
                          ).cancelDueToError everr none).1.trace := by
                    intro x hx
                    rw [hx]; split <;> rfl
                  rw [htr _ rfl] at htrace
                  rcases hct with hct | hct <;>
                    rw [hct] at htrace <;>
                    simp only [stepExecutor.emit, ht2, ht1, List.append_assoc] at htrace <;>
                    have hes := (List.append_cancel_left htrace).symm <;>
                    rw [hes] at hcall <;>
                    simp only [List.mem_append, List.mem_cons, List.mem_singleton,
                      Effect.OnResourceOutputs.injEq, List.not_mem_nil, or_false, false_or]
                      at hcall
                  all_goals
                    rcases hcall with hin | hin
                    · obtain ⟨hook, urn, hx⟩ := hhooks _ hin
                      cases hx
                    · rcases hin with hin | hin
                      · exact hin
                      · simp at hin
                subst hreg
                rw [herr] at hso
                cases hso
                refine ⟨(s2.1.emit (.OnResourceOutputs reg)).emit (.Errorf reg.URN
                  ("resource complete event returned an error: " ++ eventerr.message)), hs,
                  hhooks, ?_, ?_, ?_, ?_, ?_, ?_, ?_⟩
                · simp [stepExecutor.emit, ht2, ht1]
                · show s2.1.ignoreErrors = se.ignoreErrors
                  rw [hi2, hi1]
                · show s2.1.ctxDone = se.ctxDone
                  rw [hc2, hc1]
                · show s2.1.deployment.opts = se.deployment.opts
                  rw [hd2, hop1]
                · show s2.1.sawError = se.sawError
                  rw [hs2, hs1]
                · show s2.1.erroredSteps = se.erroredSteps
                  rw [he2, he1]
                · rw [hst, hnot]

/-- If, during a registration, the event sink is called for a step and returns an error
for it, then the registration ends with `cancelDueToError` for that error and a nil
step, called on an executor `S` that differs from the initial one in stored outputs
and pending entry only, and whose trace is the initial one followed by calls of the
hooks, the call of the sink and the report of the error. -/
theorem register_sink_call (se : stepExecutor) (e : RegisterResourceOutputsEvent)
    (errored finalizingStackOutputs : Bool) (sink : Events) (reg : Step) (eventerr : Error)
    (es : List Effect)
    (hsink : se.deployment.events = some sink)
    (htrace : (se.executeRegisterResourceOutputs e errored finalizingStackOutputs).1.trace
      = se.trace ++ es)
    (hcall : Effect.OnResourceOutputs reg ∈ es)
    (herr : sink.OnResourceOutputs reg = some eventerr) :
    ∃ (S : stepExecutor) (hs : List Effect),
      (∀ x ∈ hs, ∃ hook urn, x = Effect.RunHooks hook urn) ∧
      S.trace = se.trace ++ hs ++ [Effect.OnResourceOutputs reg, Effect.Errorf reg.URN
        ("resource complete event returned an error: " ++ eventerr.message)] ∧
      S.ignoreErrors = se.ignoreErrors ∧ S.ctxDone = se.ctxDone ∧
      S.deployment.opts = se.deployment.opts ∧ S.sawError = se.sawError ∧
      S.erroredSteps = se.erroredSteps ∧
      se.executeRegisterResourceOutputs e errored finalizingStackOutputs
        = match (S.cancelDueToError eventerr none).2 with
          | .panicked msg => ((S.cancelDueToError eventerr none).1, Outcome.panicked msg)
          | .returned _ => ((S.cancelDueToError eventerr none).1, Outcome.returned none) := by
  by_cases hfin : finalizingStackOutputs = true
  · by_cases hroot : e.URN.QualifiedType = RootStackType
    · exact register_sink_call_reached se e errored finalizingStackOutputs sink reg eventerr es
        hsink htrace hcall herr (fun _ => hroot) (by simp [hfin])
    · -- the assertion of a finalizing call fails before any effect
      exfalso
      have hres : (se.executeRegisterResourceOutputs e errored finalizingStackOutputs).1.trace
          = se.trace := by
        unfold stepExecutor.executeRegisterResourceOutputs
        simp [hfin, hroot]
      rw [hres] at htrace
      have : es = [] := by simpa using htrace
      rw [this] at hcall
      simp at hcall
  · by_cases hroot : e.URN.QualifiedType = RootStackType
    · -- the event is stashed: the only effect is `Done`
      exfalso
      have hf : finalizingStackOutputs = false := by simpa using hfin
      have hres : (se.executeRegisterResourceOutputs e errored finalizingStackOutputs).1.trace
          = se.trace ++ [Effect.Done e.URN] := by
        unfold stepExecutor.executeRegisterResourceOutputs
        simp [hf, hroot, stepExecutor.emit]
      rw [hres] at htrace
      have : es = [Effect.Done e.URN] := (List.append_cancel_left htrace).symm
      rw [this] at hcall
      simp at hcall
    · exact register_sink_call_reached se e errored finalizingStackOutputs sink reg eventerr es
        hsink htrace hcall herr (fun h => absurd h hfin) (fun h => hroot h.2)

/-- With ignore-errors on, `cancelDueToError` calls no collaborator, keeps the context and
returns. -/
theorem cancelDueToError_of_ignore (se : stepExecutor) (err : Error) (step : Option Step)
    (hi : se.ignoreErrors = true) :
    (se.cancelDueToError err step).1.trace = se.trace ∧
    (se.cancelDueToError err step).1.ctxDone = se.ctxDone ∧
    (se.cancelDueToError err step).2 = Outcome.returned () := by
  simp [stepExecutor.cancelDueToError, hi]

/-- With both error-policy flags off and an error that is not delete-protected,
`cancelDueToError` cancels the context, which is its only effect, and returns. -/
theorem cancelDueToError_of_cancel (se : stepExecutor) (err : Error) (step : Option Step)
    (hi : se.ignoreErrors = false) (hc : se.deployment.opts.ContinueOnError = false)
    (hd : err.AsDeleteProtected = false) :
    (se.cancelDueToError err step).1.trace = se.trace ++ [Effect.cancel] ∧
    (se.cancelDueToError err step).1.ctxDone = true ∧
    (se.cancelDueToError err step).2 = Outcome.returned () := by
  simp [stepExecutor.cancelDueToError, stepExecutor.emit, hi, hc, hd]

/-- C14, as stated, fails: with ignore-errors on, a registration whose event sink returns
an error returns nil and reports the error, but the deployment is not cancelled. -/
theorem C14_counterexample :
    failingSink.OnResourceOutputs (pendingStep (sampleURN "a")) = some (.errorString "sink failed") ∧
    ((pendingExecutor (sampleURN "a") { sampleDeployment false with events := some failingSink }
        true).executeRegisterResourceOutputs (outputsEvent (sampleURN "a")) false false).2
      = Outcome.returned none ∧
    Effect.OnResourceOutputs (pendingStep (sampleURN "a")) ∈
      ((pendingExecutor (sampleURN "a") { sampleDeployment false with events := some failingSink }
        true).executeRegisterResourceOutputs (outputsEvent (sampleURN "a")) false false).1.trace ∧
    ((pendingExecutor (sampleURN "a") { sampleDeployment false with events := some failingSink }
        true).executeRegisterResourceOutputs (outputsEvent (sampleURN "a")) false false).1.ctxDone
      = false ∧
    Effect.cancel ∉
      ((pendingExecutor (sampleURN "a") { sampleDeployment false with events := some failingSink }
        true).executeRegisterResourceOutputs (outputsEvent (sampleURN "a")) false false).1.trace := by
  decide

/-- C14, amended: whenever, during a registration, the event sink's `OnResourceOutputs` is
called for a step and returns an error, the error is reported through the diagnostic
sink (`es` are the effects of the call).  With ignore-errors on the call returns nil
and the deployment is not cancelled.  With ignore-errors off, continue-on-error off
and an error that neither is nor wraps a delete-protected error, the call returns nil
and the deployment is cancelled. -/
theorem C14_sink_error_reported (se : stepExecutor) (e : RegisterResourceOutputsEvent)
    (errored finalizingStackOutputs : Bool) (sink : Events) (reg : Step) (eventerr : Error)
    (es : List Effect)
    (hsink : se.deployment.events = some sink)
    (htrace : (se.executeRegisterResourceOutputs e errored finalizingStackOutputs).1.trace
      = se.trace ++ es)
    (hcall : Effect.OnResourceOutputs reg ∈ es)
    (herr : sink.OnResourceOutputs reg = some eventerr) :
    Effect.Errorf reg.URN ("resource complete event returned an error: " ++ eventerr.message)
      ∈ es ∧
    (se.ignoreErrors = true →
      (se.executeRegisterResourceOutputs e errored finalizingStackOutputs).2
        = Outcome.returned none ∧
      (se.executeRegisterResourceOutputs e errored finalizingStackOutputs).1.ctxDone
        = se.ctxDone ∧
      Effect.cancel ∉ es) ∧
    (se.ignoreErrors = false → se.deployment.opts.ContinueOnError = false →
      eventerr.AsDeleteProtected = false →
      (se.executeRegisterResourceOutputs e errored finalizingStackOutputs).2
        = Outcome.returned none ∧
      (se.executeRegisterResourceOutputs e errored finalizingStackOutputs).1.ctxDone = true ∧
      Effect.cancel ∈ es) := by
  obtain ⟨S, hs, hhooks, hS, hi, hc, hop, -, -, hres⟩ := register_sink_call se e errored
    finalizingStackOutputs sink reg eventerr es hsink htrace hcall herr
  -- the effects of the call are those up to `S` and those of `cancelDueToError`
  have hfin : (se.executeRegisterResourceOutputs e errored finalizingStackOutputs).1
      = (S.cancelDueToError eventerr none).1 := by
    rw [hres]; split <;> rfl
  have hnocancel : Effect.cancel ∉ hs := by
    intro hin
    obtain ⟨hook, urn, hx⟩ := hhooks _ hin
    cases hx
  refine ⟨?_, ?_, ?_⟩
  · obtain ⟨ce, hce⟩ := cancelDueToError_trace S eventerr none
    rw [hfin, hce, hS] at htrace
    have hes := (List.append_cancel_left (by simpa using htrace :
      se.trace ++ (hs ++ ([Effect.OnResourceOutputs reg, Effect.Errorf reg.URN
        ("resource complete event returned an error: " ++ eventerr.message)] ++ ce))
      = se.trace ++ es)).symm
    rw [hes]
    simp
  · intro hign
    obtain ⟨h1, h3, h4⟩ := cancelDueToError_of_ignore S eventerr none (by rw [hi]; exact hign)
    rw [hfin, h1, hS] at htrace
    have hes := (List.append_cancel_left (by simpa using htrace :
      se.trace ++ (hs ++ [Effect.OnResourceOutputs reg, Effect.Errorf reg.URN
        ("resource complete event returned an error: " ++ eventerr.message)])
      = se.trace ++ es)).symm
    refine ⟨by rw [hres, h4], by rw [hfin, h3, hc], ?_⟩
    rw [hes]
    simpa using hnocancel
  · intro hign hcont hdp
    obtain ⟨h2, h1, h4⟩ := cancelDueToError_of_cancel S eventerr none
      (by rw [hi]; exact hign) (by rw [hop]; exact hcont) hdp
    rw [hfin, h2, hS] at htrace
    have hes := (List.append_cancel_left (by simpa using htrace :
      se.trace ++ (hs ++ ([Effect.OnResourceOutputs reg, Effect.Errorf reg.URN
        ("resource complete event returned an error: " ++ eventerr.message)]
        ++ [Effect.cancel]))
      = se.trace ++ es)).symm
    refine ⟨by rw [hres, h4], by rw [hfin, h1], ?_⟩
    rw [hes]
    simp

/-- C14 amended, on an executor with both error-policy flags off whose event sink fails:
the registration returns nil and the deployment is cancelled. -/
theorem C14_sink_error_reported_witness :
    (pendingExecutor (sampleURN "a") { sampleDeployment false with events := some failingSink }
      false).deployment.events = some failingSink ∧
    ((pendingExecutor (sampleURN "a") { sampleDeployment false with events := some failingSink }
        false).executeRegisterResourceOutputs (outputsEvent (sampleURN "a")) false false).1.trace
      = (pendingExecutor (sampleURN "a")
          { sampleDeployment false with events := some failingSink } false).trace
        ++ [Effect.OnResourceOutputs (pendingStep (sampleURN "a")),
            Effect.Errorf (sampleURN "a")
              "resource complete event returned an error: sink failed",
            Effect.cancel] ∧
    failingSink.OnResourceOutputs (pendingStep (sampleURN "a"))
      = some (.errorString "sink failed") ∧
    ((pendingExecutor (sampleURN "a") { sampleDeployment false with events := some failingSink }
        false).executeRegisterResourceOutputs (outputsEvent (sampleURN "a")) false false).1.ctxDone
      = true :=
  ⟨rfl, by decide, rfl,
    ((C14_sink_error_reported
      (pendingExecutor (sampleURN "a") { sampleDeployment false with events := some failingSink }
        false)
      (outputsEvent (sampleURN "a")) false false failingSink (pendingStep (sampleURN "a"))
      (.errorString "sink failed")
      [Effect.OnResourceOutputs (pendingStep (sampleURN "a")),
        Effect.Errorf (sampleURN "a") "resource complete event returned an error: sink failed",
        Effect.cancel]
      rfl (by decide) (by decide) rfl).2.2 rfl rfl rfl).2.1⟩

/-! ## The pending registration of an applied step -/

/-- Tracking a new state does not touch the pending registrations. -/
theorem trackNewState_pendingNews (se : stepExecutor) (step : Step) (ref : StateRef) :
    (se.trackNewState step ref).pendingNews = se.pendingNews := by
  simp only [stepExecutor.trackNewState]
  repeat' split
  all_goals rfl

/-- Recording an applied step stores it as pending exactly when its `Apply` returned no
error and it is logical with a new state. -/
theorem recordApplied_pendingNews (se : stepExecutor) (step : Step) :
    (se.recordApplied step).pendingNews
      = if (step.Apply.err.isNone && step.Logical && step.New.isSome) = true then
          Store se.pendingNews step.URN step
        else se.pendingNews := by
  simp only [stepExecutor.recordApplied]
  split
  · split
    · rw [trackNewState_pendingNews]; split <;> rfl
    · split <;> rfl
  · split <;> rfl

/-- The post-step event does not touch the pending registrations. -/
theorem postStep_pendingNews (se : stepExecutor) (events : Option Events) (payload : Payload)
    (step : Step) : (se.postStep events payload step).1.pendingNews = se.pendingNews := by
  simp only [stepExecutor.postStep]
  split
  · split <;> rfl
  · rfl

/-- Retiring a step does not touch the pending registrations. -/
theorem retire_pendingNews (se : stepExecutor) (step : Step) :
    (se.retire step).1.pendingNews = se.pendingNews := by
  simp only [stepExecutor.retire]
  split <;> split <;> rfl

/-- The pending entry of a URN after the body of `continueExecuteStep`, when the closure for
the view steps leaves that entry alone: it is the entry after the step was recorded,
and for a diff step the entry from before. -/
theorem continueExecuteStepWith_pendingNews (se : stepExecutor) (payload : Payload)
    (step : Step) (ev : stepExecutor → stepExecutor × Option Error) (urn : URN)
    (hev : ∀ s, (ev s).1.pendingNews urn = s.pendingNews urn) :
    (se.continueExecuteStepWith payload step ev).1.pendingNews urn
      = if step.kind = StepKind.DiffStep then se.pendingNews urn
        else (se.recordApplied step).pendingNews urn := by
  unfold stepExecutor.continueExecuteStepWith
  by_cases hk : step.kind = StepKind.DiffStep
  · simp [hk, stepExecutor.emit]
  · simp only [hk, if_false]
    have h1 : ((se.emit (.Apply step)).recordApplied step).pendingNews urn
        = (se.recordApplied step).pendingNews urn := by
      rw [recordApplied_pendingNews, recordApplied_pendingNews]; rfl
    rw [← h1]
    generalize (se.emit (.Apply step)).recordApplied step = S1
    have hr2 : (if (decide (step.kind = StepKind.DeleteStep)) = true then ev S1
        else (S1, none)).1.pendingNews urn = S1.pendingNews urn := by
      split
      · exact hev S1
      · rfl
    generalize (if (decide (step.kind = StepKind.DeleteStep)) = true then ev S1
        else (S1, none)) = R2 at hr2 ⊢
    cases hR2 : R2.2 with
    | some viewErr => exact hr2
    | none =>
      simp only []
      have h3 := postStep_pendingNews R2.1 se.deployment.events payload step
      generalize R2.1.postStep se.deployment.events payload step = R3 at h3 ⊢
      cases hR3 : R3.2 with
      | some postErr => simp only []; rw [h3]; exact hr2
      | none =>
        simp only []
        have hr4 : (if (!decide (step.kind = StepKind.DeleteStep)) = true then ev R3.1
            else (R3.1, none)).1.pendingNews urn = S1.pendingNews urn := by
          split
          · rw [hev R3.1, h3]; exact hr2
          · show R3.1.pendingNews urn = _
            rw [h3]; exact hr2
        generalize (if (!decide (step.kind = StepKind.DeleteStep)) = true then ev R3.1
            else (R3.1, none)) = R4 at hr4 ⊢
        cases hR4 : R4.2 with
        | some viewErr => exact hr4
        | none =>
          simp only []
          rw [retire_pendingNews]
          exact hr4

mutual
/-- A step that does not mention a URN, view steps included, leaves the pending entry of
that URN alone. -/
theorem continueExecuteStep_pendingNews_frame (urn : URN) :
    ∀ (run : StepRun) (se : stepExecutor) (payload : Payload), run.mentions urn = false →
      (se.continueExecuteStep payload run).1.pendingNews urn = se.pendingNews urn
  | .node step views, se, payload, h => by
    rw [StepRun.mentions] at h
    have hne : step.URN ≠ urn := by
      intro heq; simp [heq] at h
    have hviews : StepRun.anyMentions urn views = false := by
      cases hv : StepRun.anyMentions urn views
      · rfl
      · simp [hv] at h
    rw [stepExecutor.continueExecuteStep]
    rw [continueExecuteStepWith_pendingNews se payload step _ urn (fun s => by
      exact viewStepLoop_pendingNews_frame urn views (s.emit (.ReleaseToken step.URN)) [] hviews)]
    split
    · rfl
    · rw [recordApplied_pendingNews]
      split
      · simp [Store, Ne.symm hne]
      · rfl
/-- View steps that do not mention a URN leave the pending entry of that URN alone. -/
theorem viewStepLoop_pendingNews_frame (urn : URN) :
    ∀ (views : List (Payload × StepRun)) (se : stepExecutor) (errs : List Error),
      StepRun.anyMentions urn views = false →
      (se.viewStepLoop errs views).1.pendingNews urn = se.pendingNews urn
  | [], se, errs, _ => by simp [stepExecutor.viewStepLoop]
  | (payload, run) :: rest, se, errs, h => by
    rw [StepRun.anyMentions] at h
    have hrun : run.mentions urn = false := by
      cases hv : run.mentions urn
      · rfl
      · simp [hv] at h
    have hrest : StepRun.anyMentions urn rest = false := by
      cases hv : StepRun.anyMentions urn rest
      · rfl
      · simp [hv] at h
    rw [stepExecutor.viewStepLoop]
    have h1 := continueExecuteStep_pendingNews_frame urn run se payload hrun
    split
    · rw [viewStepLoop_pendingNews_frame urn rest _ _ hrest, h1]
    · rw [viewStepLoop_pendingNews_frame urn rest _ _ hrest, h1]
end

/-- Executing a step that does not mention a URN leaves the pending entry of that URN
alone. -/
theorem executeStep_pendingNews_frame (urn : URN) (se : stepExecutor) (run : StepRun)
    (h : run.mentions urn = false) :
    (se.executeStep run).1.pendingNews urn = se.pendingNews urn := by
  simp only [stepExecutor.executeStep]
  cases hev : se.deployment.events with
  | none => exact continueExecuteStep_pendingNews_frame urn run se none h
  | some ev =>
    simp only []
    split
    · split
      · rfl
      · rw [continueExecuteStep_pendingNews_frame urn run _ _ h]; rfl
    · exact continueExecuteStep_pendingNews_frame urn run se none h

/-- Executing a chain none of whose steps mentions a URN leaves the pending entry of that
URN alone. -/
theorem executeChain_pendingNews_frame (urn : URN) (c : chain) :
    ∀ se : stepExecutor, c.any (fun run => run.mentions urn) = false →
      (se.executeChain c).1.pendingNews urn = se.pendingNews urn := by
  induction c with
  | nil => intro se _; simp [stepExecutor.executeChain]
  | cons run rest ih =>
    intro se h
    simp only [List.any_cons, Bool.or_eq_false_iff] at h
    have h1 := executeStep_pendingNews_frame urn se run h.1
    simp only [stepExecutor.executeChain]
    split_ifs
    · rfl
    · split
      · rename_i err _
        have h2 := cancelDueToError_pendingNews (se.executeStep run).1 err (some run.step)
        split
        · rw [h2, h1]
        · split_ifs
          · show (((se.executeStep run).1.cancelDueToError err (some run.step)).1).pendingNews urn
              = _
            rw [h2, h1]
          · rw [h2, h1]
      · rw [ih _ h.2, h1]

/-- A registration for another URN leaves the pending entry of a URN alone. -/
theorem register_pendingNews_frame (urn : URN) (se : stepExecutor)
    (e : RegisterResourceOutputsEvent) (errored finalizingStackOutputs : Bool)
    (h : e.URN ≠ urn) :
    (se.executeRegisterResourceOutputs e errored finalizingStackOutputs).1.pendingNews urn
      = se.pendingNews urn := by
  by_cases hfin : finalizingStackOutputs = true <;>
    by_cases hroot : e.URN.QualifiedType = RootStackType
  · -- a finalizing call for the root stack
    cases hp : se.pendingNews e.URN with
    | none =>
      rw [register_not_pending se e errored finalizingStackOutputs (fun _ => hroot)
        (by simp [hfin]) hp]
    | some reg =>
      rw [register_pendingNews_of_found se e errored finalizingStackOutputs reg
        (fun _ => hroot) (by simp [hfin]) hp]
      simp [Delete, Ne.symm h]
  · -- the assertion of a finalizing call fails
    unfold stepExecutor.executeRegisterResourceOutputs
    simp [hfin, hroot]
  · -- the event is stashed
    have hf : finalizingStackOutputs = false := by simpa using hfin
    unfold stepExecutor.executeRegisterResourceOutputs
    simp [hf, hroot, stepExecutor.emit]
  · cases hp : se.pendingNews e.URN with
    | none =>
      rw [register_not_pending se e errored finalizingStackOutputs (fun h => absurd h hfin)
        (fun h => hroot h.2) hp]
    | some reg =>
      rw [register_pendingNews_of_found se e errored finalizingStackOutputs reg
        (fun h => absurd h hfin) (fun h => hroot h.2) hp]
      simp [Delete, Ne.symm h]

/-- Operations that do not concern a URN leave the pending entry of that URN alone. -/
theorem runOperations_pendingNews_frame (urn : URN) (ops : List Operation) :
    ∀ se : stepExecutor, (∀ op ∈ ops, op.mentions urn = false) →
      (se.runOperations ops).pendingNews urn = se.pendingNews urn := by
  induction ops with
  | nil => intro se _; rfl
  | cons op rest ih =>
    intro se h
    have hop := h op (by simp)
    have hrest : ∀ o ∈ rest, o.mentions urn = false := fun o ho => h o (by simp [ho])
    simp only [stepExecutor.runOperations]
    rw [ih _ hrest]
    cases op with
    | chain steps =>
      exact executeChain_pendingNews_frame urn steps se hop
    | register e errored finalizingStackOutputs =>
      have hne : e.URN ≠ urn := by
        intro heq
        simp [Operation.mentions, heq] at hop
      exact register_pendingNews_frame urn se e errored finalizingStackOutputs hne

/-- C20, as stated, fails: a logical create step with a new state whose `Apply` returns an
error has no entry in `pendingNews` after `continueExecuteStep`. -/
theorem C20_counterexample :
    (sampleStep "a" .CreateStep .OpCreate true (some (.errorString "boom"))).Logical = true ∧
    (sampleStep "a" .CreateStep .OpCreate true (some (.errorString "boom"))).New = some 0 ∧
    (sampleStep "a" .CreateStep .OpCreate true (some (.errorString "boom"))).Op
      ≠ StepOp.OpReplace ∧
    Effect.Apply (sampleStep "a" .CreateStep .OpCreate true (some (.errorString "boom"))) ∈
      ((sampleExecutor false false).continueExecuteStep none
        (sampleRun "a" .CreateStep .OpCreate (some (.errorString "boom")))).1.trace ∧
    ((sampleExecutor false false).continueExecuteStep none
        (sampleRun "a" .CreateStep .OpCreate (some (.errorString "boom")))).1.pendingNews
      (sampleURN "a") = none := by
  decide

/-- C20, amended: for every logical step `s` with a new state that is not a diff step, once
`continueExecuteStep` has called `s.Apply` and it has returned without an error,
`pendingNews` holds an entry for `s.URN` mapping to `s` (here: when
`continueExecuteStep` returns, provided no view step released for `s` has the same
URN), and the entry stays there through every sequence of chains and output
registrations that concern other URNs only, that is, until the matching output
registration. -/
theorem C20_pending_entry_published (se : stepExecutor) (payload : Payload) (s : Step)
    (views : List (Payload × StepRun)) (ref : StateRef) (ops : List Operation)
    (hk : s.kind ≠ StepKind.DiffStep) (hl : s.Logical = true) (hn : s.New = some ref)
    (he : s.Apply.err = none)
    (hviews : StepRun.anyMentions s.URN views = false)
    (hops : ∀ op ∈ ops, op.mentions s.URN = false) :
    (se.continueExecuteStep payload (.node s views)).1.pendingNews s.URN = some s ∧
    ((se.continueExecuteStep payload (.node s views)).1.runOperations ops).pendingNews s.URN
      = some s := by
  have h1 : (se.continueExecuteStep payload (.node s views)).1.pendingNews s.URN = some s := by
    rw [stepExecutor.continueExecuteStep]
    rw [continueExecuteStepWith_pendingNews se payload s _ s.URN (fun x => by
      exact viewStepLoop_pendingNews_frame s.URN views (x.emit (.ReleaseToken s.URN)) [] hviews)]
    rw [if_neg hk, recordApplied_pendingNews]
    simp [hl, hn, he, Store]
  exact ⟨h1, by rw [runOperations_pendingNews_frame s.URN ops _ hops]; exact h1⟩

/-- C20 amended, on a create step for `a` followed by a chain for `b` and a registration
for `b`: the entry for `a` is still there. -/
theorem C20_pending_entry_published_witness :
    (sampleStep "a" .CreateStep .OpCreate true none).kind ≠ StepKind.DiffStep ∧
    (sampleStep "a" .CreateStep .OpCreate true none).Logical = true ∧
    (sampleStep "a" .CreateStep .OpCreate true none).Apply.err = none ∧
    (∀ op ∈ [Operation.chain [sampleRun "b" .CreateStep .OpCreate none],
        Operation.register (sampleEvent "b") false false],
      op.mentions (sampleStep "a" .CreateStep .OpCreate true none).URN = false) ∧
    (((sampleExecutor false false).continueExecuteStep none
        (.node (sampleStep "a" .CreateStep .OpCreate true none) [])).1.runOperations
      [Operation.chain [sampleRun "b" .CreateStep .OpCreate none],
        Operation.register (sampleEvent "b") false false]).pendingNews
      (sampleStep "a" .CreateStep .OpCreate true none).URN
      = some (sampleStep "a" .CreateStep .OpCreate true none) :=
  ⟨by decide, rfl, rfl, by decide,
    (C20_pending_entry_published (sampleExecutor false false) none
      (sampleStep "a" .CreateStep .OpCreate true none) [] 0
      [Operation.chain [sampleRun "b" .CreateStep .OpCreate none],
        Operation.register (sampleEvent "b") false false]
      (by decide) rfl rfl rfl rfl (by decide)).2⟩

/-! ## What `continueExecuteStep` publishes and returns -/

/-- `continueExecuteStep` is its body run with the closure `executeViewSteps`. -/
theorem continueExecuteStep_eq (se : stepExecutor) (payload : Payload) (step : Step)
    (views : List (Payload × StepRun)) :
    se.continueExecuteStep payload (.node step views)
      = se.continueExecuteStepWith payload step (fun x => x.executeViewSteps step.URN views) := by
  rw [stepExecutor.continueExecuteStep]
  rfl

/-- C21, as stated, fails: a logical step with a new state whose operation is Replace and
whose `Apply` returns no error adds an entry to `pendingNews`. -/
theorem C21_counterexample :
    (sampleStep "a" .OtherStep .OpReplace true none).Op = StepOp.OpReplace ∧
    (sampleExecutor false false).pendingNews (sampleURN "a") = none ∧
    ((sampleExecutor false false).continueExecuteStep none
        (sampleRun "a" .OtherStep .OpReplace none)).1.pendingNews (sampleURN "a")
      = some (sampleStep "a" .OtherStep .OpReplace true none) := by
  decide

/-- C21, amended: `continueExecuteStep` publishes a pending-output entry for a step if and
only if the step is not a diff step, its `Apply` returned no error, and it is logical
with a new state; the operation is not tested, so a Replace step adds an entry under
these conditions too.  Otherwise the entry of the URN is what it was.  (The view
steps released for the step are taken to have other URNs.) -/
theorem C21_pending_entry_condition (se : stepExecutor) (payload : Payload) (s : Step)
    (views : List (Payload × StepRun))
    (hviews : StepRun.anyMentions s.URN views = false) :
    (se.continueExecuteStep payload (.node s views)).1.pendingNews s.URN
      = if s.kind ≠ StepKind.DiffStep ∧ s.Apply.err = none ∧ s.Logical = true ∧ s.New ≠ none
        then some s else se.pendingNews s.URN := by
  rw [stepExecutor.continueExecuteStep]
  rw [continueExecuteStepWith_pendingNews se payload s _ s.URN (fun x => by
    exact viewStepLoop_pendingNews_frame s.URN views (x.emit (.ReleaseToken s.URN)) [] hviews)]
  by_cases hk : s.kind = StepKind.DiffStep
  · simp [hk]
  · rw [if_neg hk, recordApplied_pendingNews]
    cases he : s.Apply.err <;> cases hl : s.Logical <;> cases hn : s.New <;>
      simp [hk, Store]

/-- C21 amended, on a Replace step: the entry is published. -/
theorem C21_pending_entry_condition_witness :
    StepRun.anyMentions (sampleStep "a" .OtherStep .OpReplace true none).URN [] = false ∧
    ((sampleExecutor false false).continueExecuteStep none
        (.node (sampleStep "a" .OtherStep .OpReplace true none) [])).1.pendingNews
        (sampleStep "a" .OtherStep .OpReplace true none).URN
      = if (sampleStep "a" .OtherStep .OpReplace true none).kind ≠ StepKind.DiffStep ∧
            (sampleStep "a" .OtherStep .OpReplace true none).Apply.err = none ∧
            (sampleStep "a" .OtherStep .OpReplace true none).Logical = true ∧
            (sampleStep "a" .OtherStep .OpReplace true none).New ≠ none
        then some (sampleStep "a" .OtherStep .OpReplace true none)
        else (sampleExecutor false false).pendingNews
          (sampleStep "a" .OtherStep .OpReplace true none).URN :=
  ⟨rfl, C21_pending_entry_condition (sampleExecutor false false) none
    (sampleStep "a" .OtherStep .OpReplace true none) [] rfl⟩

/-- Tracking a new state keeps the event sink of the deployment. -/
theorem trackNewState_events (se : stepExecutor) (step : Step) (ref : StateRef) :
    (se.trackNewState step ref).deployment.events = se.deployment.events := by
  simp only [stepExecutor.trackNewState]
  repeat' split
  all_goals rfl

/-- Recording an applied step keeps the event sink of the deployment. -/
theorem recordApplied_events (se : stepExecutor) (step : Step) :
    (se.recordApplied step).deployment.events = se.deployment.events := by
  simp only [stepExecutor.recordApplied]
  split
  · split
    · rw [trackNewState_events]; split <;> rfl
    · split <;> rfl
  · split <;> rfl

/-- The post-step event keeps the event sink of the deployment. -/
theorem postStep_events (se : stepExecutor) (events : Option Events) (payload : Payload)
    (step : Step) :
    (se.postStep events payload step).1.deployment.events = se.deployment.events := by
  simp only [stepExecutor.postStep]
  split
  · split <;> rfl
  · rfl

/-- The post-step event returns no error when there is no sink or the sink returns none. -/
theorem postStep_of_ok (se : stepExecutor) (events : Option Events) (payload : Payload)
    (step : Step)
    (hpost : ∀ sink, events = some sink →
      sink.OnResourceStepPost payload step step.Apply.status step.Apply.err = none) :
    (se.postStep events payload step).2 = none := by
  simp only [stepExecutor.postStep]
  cases events with
  | none => rfl
  | some sink => simp only [hpost sink rfl]

/-- When neither the view steps nor the post-step event return an error, the body of
`continueExecuteStep` returns, for a step that is not a diff step, the error of
`Apply` inside the sentinel, or nil. -/
theorem continueExecuteStepWith_error_of_ok (se : stepExecutor) (payload : Payload)
    (step : Step) (ev : stepExecutor → stepExecutor × Option Error)
    (hk : step.kind ≠ StepKind.DiffStep)
    (hev : ∀ x, x.deployment.events = se.deployment.events → (ev x).2 = none)
    (hpost : ∀ sink, se.deployment.events = some sink →
      sink.OnResourceStepPost payload step step.Apply.status step.Apply.err = none) :
    (se.continueExecuteStepWith payload step ev).2
      = step.Apply.err.map Error.StepApplyFailed := by
  unfold stepExecutor.continueExecuteStepWith
  simp only [hk, if_false]
  have hS1 : ((se.emit (.Apply step)).recordApplied step).deployment.events
      = se.deployment.events := by
    rw [recordApplied_events]; rfl
  generalize (se.emit (.Apply step)).recordApplied step = S1 at hS1 ⊢
  have hretire : ∀ x : stepExecutor,
      (x.retire step).2 = step.Apply.err.map Error.StepApplyFailed := by
    intro x
    simp only [stepExecutor.retire]
    cases step.Apply.err <;> rfl
  by_cases hd : step.kind = StepKind.DeleteStep
  · simp only [hd, decide_True, if_true, Bool.not_true, Bool.false_eq_true, if_false]
    simp only [hev S1 hS1]
    simp only [postStep_of_ok (ev S1).1 se.deployment.events payload step hpost]
    exact hretire _
  · simp only [hd, decide_False, Bool.false_eq_true, if_false, Bool.not_false, if_true]
    simp only [postStep_of_ok S1 se.deployment.events payload step hpost]
    have h3 : (S1.postStep se.deployment.events payload step).1.deployment.events
        = se.deployment.events := by
      rw [postStep_events, hS1]
    simp only [hev _ h3]
    exact hretire _

/-- C22, as stated, fails for a diff step: its `Apply` returns an error and
`continueExecuteStep` returns nil. -/
theorem C22_counterexample :
    (sampleStep "d" .DiffStep .OpDiff true (some (.errorString "boom"))).Apply.err
      = some (.errorString "boom") ∧
    ((sampleExecutor false false).continueExecuteStep none
        (sampleRun "d" .DiffStep .OpDiff (some (.errorString "boom")))).2 = none := by
  decide

/-- C22, amended: for every step that is not a diff step, if `Apply` returns a non-nil
error `e`, and neither the view steps released for the step nor `OnResourceStepPost`
return an error, then `continueExecuteStep` returns the sentinel `StepApplyFailed`
wrapping `e`, and `Unwrap` on that sentinel yields `e`.  (What the view steps return
depends on the executor only through the event sink.) -/
theorem C22_apply_error_in_sentinel (se : stepExecutor) (payload : Payload) (s : Step)
    (views : List (Payload × StepRun)) (e : Error)
    (hk : s.kind ≠ StepKind.DiffStep) (he : s.Apply.err = some e)
    (hviews : ∀ x : stepExecutor, x.deployment.events = se.deployment.events →
      (x.executeViewSteps s.URN views).2 = none)
    (hpost : ∀ sink, se.deployment.events = some sink →
      sink.OnResourceStepPost payload s s.Apply.status (some e) = none) :
    (se.continueExecuteStep payload (.node s views)).2 = some (Error.StepApplyFailed e) ∧
    (Error.StepApplyFailed e).Unwrap = some e := by
  refine ⟨?_, rfl⟩
  rw [continueExecuteStep_eq,
    continueExecuteStepWith_error_of_ok se payload s _ hk hviews (by rw [he]; exact hpost), he]
  rfl

/-- C22 amended, on a create step without view steps and without an event sink whose
`Apply` fails. -/
theorem C22_apply_error_in_sentinel_witness :
    (sampleStep "a" .CreateStep .OpCreate true (some (.errorString "boom"))).kind
      ≠ StepKind.DiffStep ∧
    (sampleStep "a" .CreateStep .OpCreate true (some (.errorString "boom"))).Apply.err
      = some (.errorString "boom") ∧
    (∀ x : stepExecutor, x.deployment.events = (sampleExecutor false false).deployment.events →
      (x.executeViewSteps
        (sampleStep "a" .CreateStep .OpCreate true (some (.errorString "boom"))).URN []).2
        = none) ∧
    ((sampleExecutor false false).continueExecuteStep none
        (.node (sampleStep "a" .CreateStep .OpCreate true (some (.errorString "boom"))) [])).2
      = some (Error.StepApplyFailed (.errorString "boom")) ∧
    (Error.StepApplyFailed (.errorString "boom")).Unwrap = some (.errorString "boom") :=
  ⟨by decide, rfl, fun _ _ => rfl,
    C22_apply_error_in_sentinel (sampleExecutor false false) none
      (sampleStep "a" .CreateStep .OpCreate true (some (.errorString "boom"))) []
      (.errorString "boom") (by decide) rfl (fun _ _ => rfl) (fun _ h => nomatch h)⟩

/-! ## The effects of `continueExecuteStep`, phase by phase -/

/-- The warnings of the loop over the additional secret outputs: one for each `id`. -/
theorem markAdditionalSecretOutputs_warnings (urn : URN) (ks : List PropertyKey) :
    ∀ (outs : PropertyMap) (acc : List Effect),
      (markAdditionalSecretOutputs urn ks outs acc).2
        = acc ++ (ks.filter (fun k => k = "id")).map (fun _ => idSecretWarning urn) := by
  induction ks with
  | nil => intro outs acc; simp [markAdditionalSecretOutputs]
  | cons k rest ih =>
    intro outs acc
    rw [markAdditionalSecretOutputs]
    by_cases hk : k = "id"
    · simp only [hk, if_true]
      rw [ih]
      simp [idSecretWarning]
    · simp only [hk, if_false]
      have hf : (k :: rest).filter (fun k => k = "id") = rest.filter (fun k => k = "id") := by
        simp [List.filter_cons, hk]
      rw [hf]
      split
      · split
        · exact ih _ _
        · exact ih _ _
      · exact ih _ _

/-- Tracking a new state adds to the trace one warning for each `id` among the additional
secret outputs. -/
theorem trackNewState_trace_exact (se : stepExecutor) (step : Step) (ref : StateRef) :
    (se.trackNewState step ref).trace
      = se.trace ++ ((se.states ref).AdditionalSecretOutputs.filter (fun k => k = "id")).map
          (fun _ => idSecretWarning step.URN) := by
  have hw := markAdditionalSecretOutputs_warnings step.URN
    (se.states ref).AdditionalSecretOutputs (se.states ref).Outputs []
  simp only [List.nil_append] at hw
  rw [← hw]
  simp only [stepExecutor.trackNewState]
  repeat' split
  all_goals rfl

/-- Recording an applied step adds only `id` warnings to the trace. -/
theorem recordApplied_trace_exact (se : stepExecutor) (step : Step) :
    ∃ ws, (se.recordApplied step).trace = se.trace ++ ws ∧
      ∀ w ∈ ws, w = idSecretWarning step.URN := by
  have hnil : ∀ x : stepExecutor, ∃ ws, x.trace = x.trace ++ ws ∧
      ∀ w ∈ ws, w = idSecretWarning step.URN := fun x => ⟨[], by simp, by simp⟩
  simp only [stepExecutor.recordApplied]
  split
  · split
    · split
      · rw [trackNewState_trace_exact]
        exact ⟨_, rfl, by simp⟩
      · rw [trackNewState_trace_exact]
        exact ⟨_, rfl, by simp⟩
    · split
      · exact ⟨[], by simp, by simp⟩
      · exact ⟨[], by simp, by simp⟩
  · split
    · exact ⟨[], by simp, by simp⟩
    · exact ⟨[], by simp, by simp⟩

/-- The executor after `Apply`: the trace has the `Apply` of the step and then only `id`
warnings. -/
theorem afterApply_trace (se : stepExecutor) (step : Step) :
    ∃ ws, (se.afterApply step).trace = se.trace ++ Effect.Apply step :: ws ∧
      ∀ w ∈ ws, w = idSecretWarning step.URN := by
  obtain ⟨ws, h, hw⟩ := recordApplied_trace_exact (se.emit (.Apply step)) step
  exact ⟨ws, by rw [stepExecutor.afterApply, h]; simp [stepExecutor.emit], hw⟩

/-- The post-step event with an event sink: the call is recorded and its error wrapped. -/
theorem postStep_of_sink (se : stepExecutor) (sink : Events) (payload : Payload) (step : Step) :
    se.postStep (some sink) payload step
      = (se.emit (.OnResourceStepPost payload step step.Apply.status step.Apply.err),
          (sink.OnResourceStepPost payload step step.Apply.status step.Apply.err).map
            (Error.wrapError "post-step event returned an error: ")) := by
  simp only [stepExecutor.postStep]
  split <;> simp_all

/-- The trace after retiring a step: the callback of the step, if it is non-nil. -/
theorem retire_trace_exact (se : stepExecutor) (step : Step) :
    (se.retire step).1.trace
      = se.trace ++ (if step.Apply.stepComplete = true then [Effect.stepComplete step] else []) := by
  simp only [stepExecutor.retire]
  by_cases hc : step.Apply.stepComplete = true
  · split <;> simp [hc, stepExecutor.emit]
  · split <;> simp [hc]

/-- The body of `continueExecuteStep` on a delete step: view steps, post-step event,
retirement. -/
theorem continueExecuteStepWith_delete (se : stepExecutor) (payload : Payload) (step : Step)
    (ev : stepExecutor → stepExecutor × Option Error) (hd : step.kind = StepKind.DeleteStep) :
    se.continueExecuteStepWith payload step ev
      = match (ev (se.afterApply step)).2 with
        | some viewErr => ((ev (se.afterApply step)).1, some viewErr)
        | none =>
          match ((ev (se.afterApply step)).1.postStep se.deployment.events payload step).2 with
          | some postErr =>
            (((ev (se.afterApply step)).1.postStep se.deployment.events payload step).1,
              some postErr)
          | none =>
            ((ev (se.afterApply step)).1.postStep se.deployment.events payload step).1.retire
              step := by
  unfold stepExecutor.continueExecuteStepWith stepExecutor.afterApply
  simp only [hd, decide_True, if_true, Bool.not_true, Bool.false_eq_true, if_false,
    reduceCtorEq]

/-- The body of `continueExecuteStep` on a step that is neither a diff step nor a delete
step: post-step event, view steps, retirement. -/
theorem continueExecuteStepWith_other (se : stepExecutor) (payload : Payload) (step : Step)
    (ev : stepExecutor → stepExecutor × Option Error) (hk : step.kind ≠ StepKind.DiffStep)
    (hd : step.kind ≠ StepKind.DeleteStep) :
    se.continueExecuteStepWith payload step ev
      = match ((se.afterApply step).postStep se.deployment.events payload step).2 with
        | some postErr =>
          (((se.afterApply step).postStep se.deployment.events payload step).1, some postErr)
        | none =>
          match (ev ((se.afterApply step).postStep se.deployment.events payload step).1).2 with
          | some viewErr =>
            ((ev ((se.afterApply step).postStep se.deployment.events payload step).1).1,
              some viewErr)
          | none =>
            (ev ((se.afterApply step).postStep se.deployment.events payload step).1).1.retire
              step := by
  unfold stepExecutor.continueExecuteStepWith stepExecutor.afterApply
  simp only [hk, hd, decide_False, if_true, Bool.not_false, Bool.false_eq_true, if_false]

/-- Nothing added is only effects with any property. -/
theorem addsOnly_refl (P : Effect → Prop) (x : stepExecutor) : stepExecutor.addsOnly P x x :=
  ⟨[], by simp, by simp⟩

/-- Effects with a property, added one call after the other. -/
theorem addsOnly_trans (P : Effect → Prop) (x y z : stepExecutor)
    (h1 : stepExecutor.addsOnly P x y) (h2 : stepExecutor.addsOnly P y z) :
    stepExecutor.addsOnly P x z := by
  obtain ⟨e1, t1, p1⟩ := h1
  obtain ⟨e2, t2, p2⟩ := h2
  refine ⟨e1 ++ e2, by rw [t2, t1]; simp, ?_⟩
  intro e he
  rcases List.mem_append.mp he with h | h
  · exact p1 e h
  · exact p2 e h

/-- One effect with a property. -/
theorem addsOnly_emit (P : Effect → Prop) (x : stepExecutor) (e : Effect) (h : P e) :
    stepExecutor.addsOnly P x (x.emit e) :=
  ⟨[e], rfl, by simpa using h⟩

/-- The body of `continueExecuteStep` adds only effects with a property that its own
effects have and the effects of the view steps have. -/
theorem continueExecuteStepWith_addsOnly (P : Effect → Prop) (se : stepExecutor)
    (payload : Payload) (step : Step) (ev : stepExecutor → stepExecutor × Option Error)
    (hApply : P (.Apply step)) (hWarn : P (idSecretWarning step.URN))
    (hPost : P (.OnResourceStepPost payload step step.Apply.status step.Apply.err))
    (hComplete : P (.stepComplete step))
    (hev : ∀ x, stepExecutor.addsOnly P x (ev x).1) :
    stepExecutor.addsOnly P se (se.continueExecuteStepWith payload step ev).1 := by
  have hA : stepExecutor.addsOnly P se (se.afterApply step) := by
    obtain ⟨ws, hws, hw⟩ := afterApply_trace se step
    refine ⟨Effect.Apply step :: ws, hws, ?_⟩
    intro e he
    rcases List.mem_cons.mp he with h | h
    · rw [h]; exact hApply
    · rw [hw e h]; exact hWarn
  have hP : ∀ x : stepExecutor,
      stepExecutor.addsOnly P x (x.postStep se.deployment.events payload step).1 := by
    intro x
    cases se.deployment.events with
    | none => exact addsOnly_refl P x
    | some sink => rw [postStep_of_sink]; exact addsOnly_emit P x _ hPost
  have hR : ∀ x : stepExecutor, stepExecutor.addsOnly P x (x.retire step).1 := by
    intro x
    refine ⟨_, retire_trace_exact x step, ?_⟩
    intro e he
    split at he
    · rw [List.mem_singleton.mp he]; exact hComplete
    · simp at he
  by_cases hk : step.kind = StepKind.DiffStep
  · unfold stepExecutor.continueExecuteStepWith
    simp only [hk, if_true]
    exact addsOnly_emit P se _ hApply
  · by_cases hd : step.kind = StepKind.DeleteStep
    · rw [continueExecuteStepWith_delete se payload step ev hd]
      have h2 := addsOnly_trans P _ _ _ hA (hev (se.afterApply step))
      have h3 := addsOnly_trans P _ _ _ h2 (hP (ev (se.afterApply step)).1)
      have h4 := addsOnly_trans P _ _ _ h3
        (hR ((ev (se.afterApply step)).1.postStep se.deployment.events payload step).1)
      split
      · exact h2
      · split
        · exact h3
        · exact h4
    · rw [continueExecuteStepWith_other se payload step ev hk hd]
      have h2 := addsOnly_trans P _ _ _ hA (hP (se.afterApply step))
      have h3 := addsOnly_trans P _ _ _ h2
        (hev ((se.afterApply step).postStep se.deployment.events payload step).1)
      have h4 := addsOnly_trans P _ _ _ h3
        (hR (ev ((se.afterApply step).postStep se.deployment.events payload step).1).1)
      split
      · exact h2
      · split
        · exact h3
        · exact h4

mutual
/-- A step that does not mention a URN, view steps included, adds neither the post-step
event nor the completion callback of a step with that URN. -/
theorem continueExecuteStep_retires (urn : URN) :
    ∀ (run : StepRun) (se : stepExecutor) (payload : Payload), run.mentions urn = false →
      stepExecutor.addsOnly (fun e => e.retires urn = false) se
        (se.continueExecuteStep payload run).1
  | .node step views, se, payload, h => by
    rw [StepRun.mentions] at h
    have hne : step.URN ≠ urn := by
      intro heq; simp [heq] at h
    have hviews : StepRun.anyMentions urn views = false := by
      cases hv : StepRun.anyMentions urn views
      · rfl
      · simp [hv] at h
    rw [stepExecutor.continueExecuteStep]
    exact continueExecuteStepWith_addsOnly _ se payload step _ rfl rfl
      (by simp [Effect.retires, hne]) (by simp [Effect.retires, hne]) (fun x =>
        addsOnly_trans _ _ _ _ (addsOnly_emit _ x (.ReleaseToken step.URN) rfl)
          (viewStepLoop_retires urn views (x.emit (.ReleaseToken step.URN)) [] hviews))
/-- View steps that do not mention a URN add neither the post-step event nor the
completion callback of a step with that URN. -/
theorem viewStepLoop_retires (urn : URN) :
    ∀ (views : List (Payload × StepRun)) (se : stepExecutor) (errs : List Error),
      StepRun.anyMentions urn views = false →
      stepExecutor.addsOnly (fun e => e.retires urn = false) se (se.viewStepLoop errs views).1
  | [], se, errs, _ => by
    rw [stepExecutor.viewStepLoop]
    exact addsOnly_refl _ se
  | (payload, run) :: rest, se, errs, h => by
    rw [StepRun.anyMentions] at h
    have hrun : run.mentions urn = false := by
      cases hv : run.mentions urn
      · rfl
      · simp [hv] at h
    have hrest : StepRun.anyMentions urn rest = false := by
      cases hv : StepRun.anyMentions urn rest
      · rfl
      · simp [hv] at h
    rw [stepExecutor.viewStepLoop]
    have h1 := continueExecuteStep_retires urn run se payload hrun
    split
    · exact addsOnly_trans _ _ _ _ h1 (viewStepLoop_retires urn rest _ _ hrest)
    · exact addsOnly_trans _ _ _ _ h1 (viewStepLoop_retires urn rest _ _ hrest)
end

/-! ## A failing post-step event -/

/-- The view steps of a step with another URN than theirs add neither its post-step event
nor its completion callback. -/
theorem executeViewSteps_retires (urn : URN) (se : stepExecutor)
    (views : List (Payload × StepRun)) (h : StepRun.anyMentions urn views = false) :
    stepExecutor.addsOnly (fun e => e.retires urn = false) se
      (se.executeViewSteps urn views).1 :=
  addsOnly_trans _ _ _ _ (addsOnly_emit _ se (.ReleaseToken urn) rfl)
    (viewStepLoop_retires urn views (se.emit (.ReleaseToken urn)) [] h)

/-- Recording an applied step adds neither a post-step event nor a completion callback. -/
theorem afterApply_retires (urn : URN) (se : stepExecutor) (step : Step) :
    stepExecutor.addsOnly (fun e => e.retires urn = false) se (se.afterApply step) := by
  obtain ⟨ws, hws, hw⟩ := afterApply_trace se step
  refine ⟨Effect.Apply step :: ws, hws, ?_⟩
  intro e he
  rcases List.mem_cons.mp he with h | h
  · rw [h]; rfl
  · rw [hw e h]; rfl

/-- C23: if `OnResourceStepPost` returns an error `e` for a step (so the step is not a diff
step, there is an event sink, and the view steps of a delete step, which run first,
returned no error), then `continueExecuteStep` returns the error
"post-step event returned an error: " wrapping `e`; the post-step event is the last
effect of the call and no effect before it is the completion callback of the step
(the view steps of a delete step are taken to have other URNs); and a chain whose
step is executed by this call runs no further step: its run is that of the chain cut
after the step. -/
theorem C23_post_step_error_is_fatal (se : stepExecutor) (payload : Payload) (s : Step)
    (views : List (Payload × StepRun)) (sink : Events) (e : Error)
    (hk : s.kind ≠ StepKind.DiffStep)
    (hsink : se.deployment.events = some sink)
    (hpost : sink.OnResourceStepPost payload s s.Apply.status s.Apply.err = some e)
    (hviews : s.kind = StepKind.DeleteStep →
      ((se.afterApply s).executeViewSteps s.URN views).2 = none)
    (hown : s.kind = StepKind.DeleteStep → StepRun.anyMentions s.URN views = false) :
    (se.continueExecuteStep payload (.node s views)).2
      = some (.wrapError "post-step event returned an error: " e) ∧
    (∃ es, (se.continueExecuteStep payload (.node s views)).1.trace
        = se.trace ++ es
          ++ [Effect.OnResourceStepPost payload s s.Apply.status s.Apply.err] ∧
      ∀ x ∈ es, x.retires s.URN = false) ∧
    (∀ (se0 : stepExecutor) (rest : chain), se0.ctxDone = false →
      se0.executeStep (.node s views) = se.continueExecuteStep payload (.node s views) →
      se0.executeChain (.node s views :: rest) = se0.executeChain [.node s views]) := by
  have key : ∃ X : stepExecutor,
      stepExecutor.addsOnly (fun x => x.retires s.URN = false) se X ∧
      se.continueExecuteStep payload (.node s views)
        = (X.emit (.OnResourceStepPost payload s s.Apply.status s.Apply.err),
            some (.wrapError "post-step event returned an error: " e)) := by
    rw [continueExecuteStep_eq]
    by_cases hd : s.kind = StepKind.DeleteStep
    · refine ⟨((se.afterApply s).executeViewSteps s.URN views).1,
        addsOnly_trans _ _ _ _ (afterApply_retires s.URN se s)
          (executeViewSteps_retires s.URN _ views (hown hd)), ?_⟩
      rw [continueExecuteStepWith_delete se payload s _ hd]
      simp only [hviews hd, hsink, postStep_of_sink, hpost, Option.map_some']
    · refine ⟨se.afterApply s, afterApply_retires s.URN se s, ?_⟩
      rw [continueExecuteStepWith_other se payload s _ hk hd]
      simp only [hsink, postStep_of_sink, hpost, Option.map_some']
  obtain ⟨X, ⟨es, hes, hret⟩, hX⟩ := key
  refine ⟨by rw [hX], ⟨es, by rw [hX]; simp [stepExecutor.emit, hes], hret⟩, ?_⟩
  intro se0 rest hctx hstep
  have h2 : (se0.executeStep (.node s views)).2
      = some (.wrapError "post-step event returned an error: " e) := by
    rw [hstep, hX]
  simp only [stepExecutor.executeChain, hctx, Bool.false_eq_true, if_false, h2]

/-- C23 on a chain of two create steps with an event sink whose post-step event fails: the
first step returns the wrapped error, its callback is not invoked, and the second
step is not applied. -/
theorem C23_post_step_error_is_fatal_witness :
    (sampleStep "a" .CreateStep .OpCreate true none).kind ≠ StepKind.DiffStep ∧
    ((sinkExecutor failingPostSink).emit
        (.OnResourceStepPre (sampleStep "a" .CreateStep .OpCreate true none))).deployment.events
      = some failingPostSink ∧
    failingPostSink.OnResourceStepPost (some 7) (sampleStep "a" .CreateStep .OpCreate true none)
        (sampleStep "a" .CreateStep .OpCreate true none).Apply.status
        (sampleStep "a" .CreateStep .OpCreate true none).Apply.err
      = some (.errorString "snapshot failed") ∧
    (sinkExecutor failingPostSink).ctxDone = false ∧
    (((sinkExecutor failingPostSink).emit
        (.OnResourceStepPre (sampleStep "a" .CreateStep .OpCreate true none))).continueExecuteStep
        (some 7) (.node (sampleStep "a" .CreateStep .OpCreate true none) [])).2
      = some (.wrapError "post-step event returned an error: "
          (.errorString "snapshot failed")) ∧
    (sinkExecutor failingPostSink).executeChain
        (.node (sampleStep "a" .CreateStep .OpCreate true none) []
          :: [sampleRun "b" .CreateStep .OpCreate none])
      = (sinkExecutor failingPostSink).executeChain
        [.node (sampleStep "a" .CreateStep .OpCreate true none) []] ∧
    Effect.stepComplete (sampleStep "a" .CreateStep .OpCreate true none) ∉
      ((sinkExecutor failingPostSink).executeChain
        [sampleRun "a" .CreateStep .OpCreate none,
          sampleRun "b" .CreateStep .OpCreate none]).1.trace ∧
    Effect.Apply (sampleStep "b" .CreateStep .OpCreate true none) ∉
      ((sinkExecutor failingPostSink).executeChain
        [sampleRun "a" .CreateStep .OpCreate none,
          sampleRun "b" .CreateStep .OpCreate none]).1.trace :=
  ⟨by decide, rfl, rfl, rfl,
    (C23_post_step_error_is_fatal
      ((sinkExecutor failingPostSink).emit
        (.OnResourceStepPre (sampleStep "a" .CreateStep .OpCreate true none)))
      (some 7) (sampleStep "a" .CreateStep .OpCreate true none) [] failingPostSink
      (.errorString "snapshot failed") (by decide) rfl rfl
      (fun h => absurd h (by decide)) (fun h => absurd h (by decide))).1,
    (C23_post_step_error_is_fatal
      ((sinkExecutor failingPostSink).emit
        (.OnResourceStepPre (sampleStep "a" .CreateStep .OpCreate true none)))
      (some 7) (sampleStep "a" .CreateStep .OpCreate true none) [] failingPostSink
      (.errorString "snapshot failed") (by decide) rfl rfl
      (fun h => absurd h (by decide)) (fun h => absurd h (by decide))).2.2
      (sinkExecutor failingPostSink) [sampleRun "b" .CreateStep .OpCreate none] rfl rfl,
    by decide, by decide⟩

/-! ## View steps: order and position -/

/-- The effects a step adds, from `continueExecuteStep` on, begin with its `Apply`. -/
theorem continueExecuteStep_effectsSince (se : stepExecutor) (payload : Payload) (run : StepRun) :
    ∃ es, (se.continueExecuteStep payload run).1.effectsSince se = Effect.Apply run.step :: es ∧
      (se.continueExecuteStep payload run).1.trace
        = se.trace ++ (se.continueExecuteStep payload run).1.effectsSince se := by
  obtain ⟨es, h, _⟩ := continueExecuteStep_trace run se payload
  have hd : (se.continueExecuteStep payload run).1.effectsSince se = Effect.Apply run.step :: es := by
    rw [stepExecutor.effectsSince, h, List.drop_left]
  exact ⟨es, hd, by rw [hd, h]⟩

/-- The loop over the released view steps runs them as the spec says: its trace is extended
by the effects of the view steps in order, and the errors it collects are the errors
the view steps returned, in order. -/
theorem viewStepLoop_outcomes : ∀ (views : List (Payload × StepRun)) (se : stepExecutor)
    (errs : List Error),
    (se.viewStepLoop errs views).1.trace = se.trace ++ se.viewStepEffects views ∧
    (se.viewStepLoop errs views).2 = errs ++ (se.viewStepOutcomes views).filterMap Prod.snd := by
  intro views
  induction views with
  | nil =>
    intro se errs
    simp [stepExecutor.viewStepLoop, stepExecutor.viewStepEffects,
      stepExecutor.viewStepOutcomes]
  | cons v rest ih =>
    intro se errs
    obtain ⟨payload, run⟩ := v
    obtain ⟨es, _, ht⟩ := continueExecuteStep_effectsSince se payload run
    rw [stepExecutor.viewStepLoop]
    simp only [stepExecutor.viewStepEffects, stepExecutor.viewStepOutcomes, List.map_cons,
      List.flatten_cons, List.filterMap_cons]
    cases hr : (se.continueExecuteStep payload run).2 with
    | some err =>
      simp only []
      obtain ⟨h1, h2⟩ := ih (se.continueExecuteStep payload run).1 (errs ++ [err])
      refine ⟨?_, ?_⟩
      · rw [h1, ht]; simp [stepExecutor.viewStepEffects]
      · rw [h2]; simp
    | none =>
      simp only []
      obtain ⟨h1, h2⟩ := ih (se.continueExecuteStep payload run).1 errs
      refine ⟨?_, ?_⟩
      · rw [h1, ht]; simp [stepExecutor.viewStepEffects]
      · rw [h2]

/-- One outcome for each released view step, in the order of release: the effects of a view
step begin with its `Apply`. -/
theorem viewStepOutcomes_heads : ∀ (views : List (Payload × StepRun)) (se : stepExecutor),
    (se.viewStepOutcomes views).map (fun o => o.1.head?)
      = views.map (fun v => some (Effect.Apply v.2.step)) := by
  intro views
  induction views with
  | nil => intro se; rfl
  | cons v rest ih =>
    intro se
    obtain ⟨payload, run⟩ := v
    obtain ⟨es, hd, _⟩ := continueExecuteStep_effectsSince se payload run
    simp only [stepExecutor.viewStepOutcomes, List.map_cons, hd, List.head?_cons, ih]

/-- The closure `executeViewSteps`: the call of `ReleaseToken`, then the effects of the view
steps in order; the error is the join of the errors they returned. -/
theorem executeViewSteps_outcomes (se : stepExecutor) (urn : URN)
    (views : List (Payload × StepRun)) :
    (se.executeViewSteps urn views).1.trace
      = se.trace ++ Effect.ReleaseToken urn
          :: (se.emit (.ReleaseToken urn)).viewStepEffects views ∧
    (se.executeViewSteps urn views).2
      = errorsJoin (((se.emit (.ReleaseToken urn)).viewStepOutcomes views).filterMap Prod.snd) := by
  obtain ⟨h1, h2⟩ := viewStepLoop_outcomes views (se.emit (.ReleaseToken urn)) []
  refine ⟨?_, ?_⟩
  · simp only [stepExecutor.executeViewSteps, h1]
    simp [stepExecutor.emit]
  · simp only [stepExecutor.executeViewSteps, h2, List.nil_append]

/-- The trace after one more effect. -/
theorem emit_trace (se : stepExecutor) (e : Effect) : (se.emit e).trace = se.trace ++ [e] := rfl

/-- C24: with an event sink and a step that is not a diff step.  For a delete step whose
view steps return no error, the trace of `continueExecuteStep` is the trace after
`Apply`, then `ReleaseToken` and the effects of all released view steps, and only
then `OnResourceStepPost` for the step.  For every other step for which
`OnResourceStepPost` returns no error, it is the trace after `Apply`, then
`OnResourceStepPost` for the step, and only then `ReleaseToken` and the effects of
the released view steps.  The trace after `Apply` has the `Apply` of the step and
warnings only.  In both cases the view steps run in the order in which
`ReleaseToken` returned them, each through `continueExecuteStep` with its own
payload: there is one outcome for each, in that order, beginning with its `Apply`. -/
theorem C24_view_steps_order (se : stepExecutor) (payload : Payload) (s : Step)
    (views : List (Payload × StepRun)) (sink : Events)
    (hk : s.kind ≠ StepKind.DiffStep) (hsink : se.deployment.events = some sink) :
    (s.kind = StepKind.DeleteStep →
      ((se.afterApply s).executeViewSteps s.URN views).2 = none →
      ∃ tail, (se.continueExecuteStep payload (.node s views)).1.trace
        = (se.afterApply s).trace
          ++ Effect.ReleaseToken s.URN
            :: ((se.afterApply s).emit (.ReleaseToken s.URN)).viewStepEffects views
          ++ Effect.OnResourceStepPost payload s s.Apply.status s.Apply.err :: tail) ∧
    (s.kind ≠ StepKind.DeleteStep →
      sink.OnResourceStepPost payload s s.Apply.status s.Apply.err = none →
      ∃ tail, (se.continueExecuteStep payload (.node s views)).1.trace
        = (se.afterApply s).trace
          ++ Effect.OnResourceStepPost payload s s.Apply.status s.Apply.err
            :: Effect.ReleaseToken s.URN
            :: (((se.afterApply s).emit
                  (.OnResourceStepPost payload s s.Apply.status s.Apply.err)).emit
                  (.ReleaseToken s.URN)).viewStepEffects views
          ++ tail) ∧
    (∃ ws, (se.afterApply s).trace = se.trace ++ Effect.Apply s :: ws ∧
      ∀ w ∈ ws, w = idSecretWarning s.URN) ∧
    (∀ x : stepExecutor,
      (x.viewStepOutcomes views).map (fun o => o.1.head?)
        = views.map (fun v => some (Effect.Apply v.2.step))) := by
  refine ⟨?_, ?_, afterApply_trace se s, viewStepOutcomes_heads views⟩
  · intro hd hv
    obtain ⟨ht, _⟩ := executeViewSteps_outcomes (se.afterApply s) s.URN views
    rw [continueExecuteStep_eq, continueExecuteStepWith_delete se payload s _ hd]
    simp only [hv, hsink, postStep_of_sink]
    cases hp : sink.OnResourceStepPost payload s s.Apply.status s.Apply.err with
    | some postErr =>
      refine ⟨[], ?_⟩
      simp only [Option.map_some', emit_trace, ht]
    | none =>
      simp only [Option.map_none']
      refine ⟨if s.Apply.stepComplete = true then [Effect.stepComplete s] else [], ?_⟩
      rw [retire_trace_exact, emit_trace, ht]
      simp
  · intro hd hp
    rw [continueExecuteStep_eq, continueExecuteStepWith_other se payload s _ hk hd]
    simp only [hsink, postStep_of_sink, hp, Option.map_none']
    obtain ⟨ht, _⟩ := executeViewSteps_outcomes
      ((se.afterApply s).emit (.OnResourceStepPost payload s s.Apply.status s.Apply.err))
      s.URN views
    cases hv : (((se.afterApply s).emit
        (.OnResourceStepPost payload s s.Apply.status s.Apply.err)).executeViewSteps s.URN
        views).2 with
    | some viewErr =>
      refine ⟨[], ?_⟩
      simp only [ht, emit_trace]
      simp
    | none =>
      simp only []
      refine ⟨if s.Apply.stepComplete = true then [Effect.stepComplete s] else [], ?_⟩
      rw [retire_trace_exact, ht, emit_trace]
      simp

/-- C24 on a delete step and on a create step with two released view steps and an event
sink that never fails: the whole traces, and what the theorem says of them. -/
theorem C24_view_steps_order_witness :
    (sampleStep "a" .DeleteStep .OpDelete true none).kind ≠ StepKind.DiffStep ∧
    (sinkExecutor quietSink).deployment.events = some quietSink ∧
    ((sinkExecutor quietSink).continueExecuteStep (some 7)
        (.node (sampleStep "a" .DeleteStep .OpDelete true none) sampleViews)).1.trace
      = [.Apply (sampleStep "a" .DeleteStep .OpDelete true none),
          .ReleaseToken (sampleURN "a"),
          .Apply (sampleStep "v1" .CreateStep .OpCreate true none),
          .OnResourceStepPost (some 1) (sampleStep "v1" .CreateStep .OpCreate true none) 0 none,
          .ReleaseToken (sampleURN "v1"),
          .stepComplete (sampleStep "v1" .CreateStep .OpCreate true none),
          .Apply (sampleStep "v2" .CreateStep .OpCreate true none),
          .OnResourceStepPost (some 2) (sampleStep "v2" .CreateStep .OpCreate true none) 0 none,
          .ReleaseToken (sampleURN "v2"),
          .stepComplete (sampleStep "v2" .CreateStep .OpCreate true none),
          .OnResourceStepPost (some 7) (sampleStep "a" .DeleteStep .OpDelete true none) 0 none,
          .stepComplete (sampleStep "a" .DeleteStep .OpDelete true none)] ∧
    ((sinkExecutor quietSink).continueExecuteStep (some 7)
        (.node (sampleStep "a" .CreateStep .OpCreate true none) sampleViews)).1.trace
      = [.Apply (sampleStep "a" .CreateStep .OpCreate true none),
          .OnResourceStepPost (some 7) (sampleStep "a" .CreateStep .OpCreate true none) 0 none,
          .ReleaseToken (sampleURN "a"),
          .Apply (sampleStep "v1" .CreateStep .OpCreate true none),
          .OnResourceStepPost (some 1) (sampleStep "v1" .CreateStep .OpCreate true none) 0 none,
          .ReleaseToken (sampleURN "v1"),
          .stepComplete (sampleStep "v1" .CreateStep .OpCreate true none),
          .Apply (sampleStep "v2" .CreateStep .OpCreate true none),
          .OnResourceStepPost (some 2) (sampleStep "v2" .CreateStep .OpCreate true none) 0 none,
          .ReleaseToken (sampleURN "v2"),
          .stepComplete (sampleStep "v2" .CreateStep .OpCreate true none),
          .stepComplete (sampleStep "a" .CreateStep .OpCreate true none)] ∧
    (∃ tail, ((sinkExecutor quietSink).continueExecuteStep (some 7)
        (.node (sampleStep "a" .DeleteStep .OpDelete true none) sampleViews)).1.trace
      = ((sinkExecutor quietSink).afterApply
            (sampleStep "a" .DeleteStep .OpDelete true none)).trace
        ++ Effect.ReleaseToken (sampleStep "a" .DeleteStep .OpDelete true none).URN
          :: (((sinkExecutor quietSink).afterApply
                (sampleStep "a" .DeleteStep .OpDelete true none)).emit
                (.ReleaseToken
                  (sampleStep "a" .DeleteStep .OpDelete true none).URN)).viewStepEffects
              sampleViews
        ++ Effect.OnResourceStepPost (some 7) (sampleStep "a" .DeleteStep .OpDelete true none)
            (sampleStep "a" .DeleteStep .OpDelete true none).Apply.status
            (sampleStep "a" .DeleteStep .OpDelete true none).Apply.err :: tail) :=
  ⟨by decide, rfl, by decide, by decide,
    (C24_view_steps_order (sinkExecutor quietSink) (some 7)
      (sampleStep "a" .DeleteStep .OpDelete true none) sampleViews quietSink
      (by decide) rfl).1 rfl (by decide)⟩

/-! ## A delete step whose view steps fail -/

/-- C30: for a delete step whose released view steps return at least one error,
`continueExecuteStep` returns the join of the errors the view steps returned, in
order; its trace is the trace after `Apply`, then `ReleaseToken` and the effects of
every released view step (there is one outcome for each view step, beginning with
its `Apply`, so the loop does not stop at the first failure), and nothing after
them; so, the view steps having other URNs, the call adds neither the
`OnResourceStepPost` nor the `stepComplete` of the delete step. -/
theorem C30_view_step_errors_joined (se : stepExecutor) (payload : Payload) (s : Step)
    (views : List (Payload × StepRun))
    (hd : s.kind = StepKind.DeleteStep)
    (herr : (((se.afterApply s).emit (.ReleaseToken s.URN)).viewStepOutcomes views).filterMap
      Prod.snd ≠ []) :
    (se.continueExecuteStep payload (.node s views)).2
      = some (.joinError
          ((((se.afterApply s).emit (.ReleaseToken s.URN)).viewStepOutcomes views).filterMap
            Prod.snd)) ∧
    (se.continueExecuteStep payload (.node s views)).1.trace
      = (se.afterApply s).trace
        ++ Effect.ReleaseToken s.URN
          :: ((se.afterApply s).emit (.ReleaseToken s.URN)).viewStepEffects views ∧
    ((((se.afterApply s).emit (.ReleaseToken s.URN)).viewStepOutcomes views).map
        (fun o => o.1.head?)
      = views.map (fun v => some (Effect.Apply v.2.step))) ∧
    (StepRun.anyMentions s.URN views = false →
      stepExecutor.addsOnly (fun x => x.retires s.URN = false) se
        (se.continueExecuteStep payload (.node s views)).1) := by
  obtain ⟨ht, he⟩ := executeViewSteps_outcomes (se.afterApply s) s.URN views
  have hjoin : ((se.afterApply s).executeViewSteps s.URN views).2
      = some (.joinError
          ((((se.afterApply s).emit (.ReleaseToken s.URN)).viewStepOutcomes views).filterMap
            Prod.snd)) := by
    rw [he]
    generalize (((se.afterApply s).emit (.ReleaseToken s.URN)).viewStepOutcomes views).filterMap
      Prod.snd = errs at herr ⊢
    cases errs with
    | nil => exact absurd rfl herr
    | cons e rest => rfl
  have hres : se.continueExecuteStep payload (.node s views)
      = (((se.afterApply s).executeViewSteps s.URN views).1,
          some (.joinError
            ((((se.afterApply s).emit (.ReleaseToken s.URN)).viewStepOutcomes views).filterMap
              Prod.snd))) := by
    rw [continueExecuteStep_eq, continueExecuteStepWith_delete se payload s _ hd]
    simp only [hjoin]
  refine ⟨by rw [hres], by rw [hres]; exact ht, viewStepOutcomes_heads views _, ?_⟩
  intro hown
  rw [hres]
  exact addsOnly_trans _ _ _ _ (afterApply_retires s.URN se s)
    (executeViewSteps_retires s.URN _ views hown)

/-- C30 on a delete step with two view steps of which the first fails, with an event sink:
the error is the join of the one error, the second view step is applied all the same,
and the trace ends without the post-step event and the callback of the delete step. -/
theorem C30_view_step_errors_joined_witness :
    (sampleStep "a" .DeleteStep .OpDelete true none).kind = StepKind.DeleteStep ∧
    ((((sinkExecutor quietSink).afterApply
        (sampleStep "a" .DeleteStep .OpDelete true none)).emit
        (.ReleaseToken (sampleStep "a" .DeleteStep .OpDelete true none).URN)).viewStepOutcomes
        failingViews).filterMap Prod.snd
      = [.StepApplyFailed (.errorString "boom")] ∧
    ((sinkExecutor quietSink).continueExecuteStep (some 7)
        (.node (sampleStep "a" .DeleteStep .OpDelete true none) failingViews)).1.trace
      = [.Apply (sampleStep "a" .DeleteStep .OpDelete true none),
          .ReleaseToken (sampleURN "a"),
          .Apply (sampleStep "v1" .DeleteStep .OpDelete true (some (.errorString "boom"))),
          .ReleaseToken (sampleURN "v1"),
          .OnResourceStepPost (some 1)
            (sampleStep "v1" .DeleteStep .OpDelete true (some (.errorString "boom"))) 0
            (some (.errorString "boom")),
          .stepComplete (sampleStep "v1" .DeleteStep .OpDelete true (some (.errorString "boom"))),
          .Apply (sampleStep "v2" .DeleteStep .OpDelete true none),
          .ReleaseToken (sampleURN "v2"),
          .OnResourceStepPost (some 2) (sampleStep "v2" .DeleteStep .OpDelete true none) 0 none,
          .stepComplete (sampleStep "v2" .DeleteStep .OpDelete true none)] ∧
    ((sinkExecutor quietSink).continueExecuteStep (some 7)
        (.node (sampleStep "a" .DeleteStep .OpDelete true none) failingViews)).2
      = some (.joinError
          (((((sinkExecutor quietSink).afterApply
              (sampleStep "a" .DeleteStep .OpDelete true none)).emit
              (.ReleaseToken
                (sampleStep "a" .DeleteStep .OpDelete true none).URN)).viewStepOutcomes
              failingViews).filterMap Prod.snd)) :=
  ⟨rfl, by decide, by decide,
    (C30_view_step_errors_joined (sinkExecutor quietSink) (some 7)
      (sampleStep "a" .DeleteStep .OpDelete true none) failingViews rfl (by decide)).1⟩

/-! ## Secret outputs of the new state -/

/-- A value made secret is secret. -/
theorem IsSecret_MakeSecret (v : PropertyValue) : (MakeSecret v).IsSecret = true := rfl

/-- A secured value is secret. -/
theorem IsSecret_secure (v : PropertyValue) : (secure v).IsSecret = true := by
  unfold secure
  split
  · assumption
  · rfl

/-- Securing a secret value leaves it as it is. -/
theorem secure_of_secret (v : PropertyValue) (h : v.IsSecret = true) : secure v = v := by
  simp [secure, h]

/-- The outputs after the loop over the additional secret outputs: a listed key other than
`id` that is present is made secret, every other entry stays. -/
theorem markAdditionalSecretOutputs_outputs (urn : URN) (ks : List PropertyKey) :
    ∀ (outs : PropertyMap) (acc : List Effect) (k : PropertyKey),
      (markAdditionalSecretOutputs urn ks outs acc).1 k
        = if k ∈ ks ∧ k ≠ "id" then (outs k).map secure else outs k := by
  induction ks with
  | nil => intro outs acc k; simp [markAdditionalSecretOutputs]
  | cons k0 rest ih =>
    intro outs acc k
    rw [markAdditionalSecretOutputs]
    by_cases hid : k0 = "id"
    · simp only [hid, if_true]
      rw [ih]
      by_cases hk : k = "id"
      · simp [hk]
      · simp [hk]
    · simp only [hid, if_false]
      cases ho : outs k0 with
      | none =>
        simp only []
        rw [ih]
        by_cases hk : k = k0
        · subst hk; simp [ho]
        · simp [hk]
      | some v =>
        simp only []
        by_cases hs : v.IsSecret = true
        · simp only [hs, Bool.not_true, Bool.false_eq_true, if_false]
          rw [ih]
          by_cases hk : k = k0
          · subst hk; simp [ho, hid, secure, hs]
          · simp [hk]
        · have hs2 : v.IsSecret = false := by simpa using hs
          simp only [hs2, Bool.not_false, if_true]
          rw [ih]
          by_cases hk : k = k0
          · subst hk
            have h1 : secure (MakeSecret v) = MakeSecret v :=
              secure_of_secret _ (IsSecret_MakeSecret v)
            have h2 : secure v = MakeSecret v := by simp [secure, hs2]
            simp [ho, hid, PropertyMap.set, h1, h2]
          · simp [hk, PropertyMap.set]

/-- The heap after tracking a new state is the heap after the two marking loops. -/
theorem trackNewState_states (se : stepExecutor) (step : Step) (ref : StateRef) :
    (se.trackNewState step ref).states = trackedStates se.states step.URN ref := by
  simp only [stepExecutor.trackNewState, trackedStates]
  repeat' split
  all_goals rfl

/-- An output after the loop over the secret inputs is secret if it was, or if its
same-named input is secret. -/
theorem markLeakedInputSecrets_secret (inputs outs : PropertyMap) (k : PropertyKey)
    (out : PropertyValue) (h : markLeakedInputSecrets inputs outs k = some out) :
    (∀ o, outs k = some o → o.IsSecret = true → out.IsSecret = true) ∧
    (∀ inp, inputs k = some inp → inp.IsSecret = true → out.IsSecret = true) := by
  unfold markLeakedInputSecrets at h
  cases ho : outs k with
  | none => simp [ho] at h
  | some o =>
    simp only [ho] at h
    by_cases hs : o.IsSecret = true
    · simp only [hs, Bool.not_true, Bool.false_eq_true, if_false, Option.some.injEq] at h
      subst h
      exact ⟨fun _ _ _ => hs, fun _ _ _ => hs⟩
    · have hs2 : o.IsSecret = false := by simpa using hs
      simp only [hs2, Bool.not_false, if_true] at h
      cases hi : inputs k with
      | none =>
        simp only [hi, Option.some.injEq] at h
        subst h
        exact ⟨fun o2 ho2 hsec => by
          rw [Option.some.inj ho2] at hs2; rw [hs2] at hsec; exact absurd hsec (by decide),
          fun inp hinp _ => by simp at hinp⟩
      | some inp =>
        simp only [hi] at h
        by_cases hsi : inp.IsSecret = true
        · simp only [hsi, if_true, Option.some.injEq] at h
          subst h
          exact ⟨fun _ _ _ => rfl, fun _ _ _ => rfl⟩
        · have hsi2 : inp.IsSecret = false := by simpa using hsi
          simp only [hsi2, Bool.false_eq_true, if_false, Option.some.injEq] at h
          subst h
          exact ⟨fun o2 ho2 hsec => by
            rw [Option.some.inj ho2] at hs2; rw [hs2] at hsec; exact absurd hsec (by decide),
            fun inp2 hinp2 hsec => by
              rw [Option.some.inj hinp2] at hsi; exact absurd hsec hsi⟩

/-- The marking loops secure the outputs of the state they run on. -/
theorem trackedStates_secured (states : StateRef → State) (urn : URN) (ref : StateRef) :
    (trackedStates states urn ref ref).secured := by
  simp only [trackedStates, if_true]
  refine ⟨?_, ?_⟩
  · intro k v hid hk hv
    simp only at hk hv
    obtain ⟨h1, _⟩ := markLeakedInputSecrets_secret _ _ k v hv
    have hm := markAdditionalSecretOutputs_outputs urn
      (states ref).AdditionalSecretOutputs (states ref).Outputs [] k
    rw [if_pos ⟨hk, hid⟩] at hm
    cases ho : (states ref).Outputs k with
    | none =>
      rw [ho] at hm
      unfold markLeakedInputSecrets at hv
      simp [hm] at hv
    | some u =>
      rw [ho] at hm
      exact h1 (secure u) hm (IsSecret_secure u)
  · intro k out inp hout hinp hsec
    simp only at hout hinp
    exact (markLeakedInputSecrets_secret _ _ k out hout).2 inp hinp hsec

/-- The marking loops leave every other state as it is. -/
theorem trackedStates_other (states : StateRef → State) (urn : URN) (ref r : StateRef)
    (h : r ≠ ref) : trackedStates states urn ref r = states r := by
  simp [trackedStates, h]

/-! ## Properties of the heap that every step keeps -/

/-- The heap after recording an applied step: the marking loops on the new state, unless
the step has no new state or is a replace. -/
theorem recordApplied_states (se : stepExecutor) (step : Step) :
    (se.recordApplied step).states
      = match step.New with
        | some ref =>
          if step.Op ≠ StepOp.OpReplace then trackedStates se.states step.URN ref
          else se.states
        | none => se.states := by
  cases hn : step.New with
  | none =>
    simp only [stepExecutor.recordApplied, hn]
    split <;> rfl
  | some ref =>
    by_cases hop : step.Op = StepOp.OpReplace
    · simp only [stepExecutor.recordApplied, hn, hop, ne_eq, not_true_eq_false, if_false]
      split <;> rfl
    · simp only [stepExecutor.recordApplied, hn, hop, ne_eq, not_false_eq_true, if_true,
        trackNewState_states]
      split <;> rfl

/-- The post-step event keeps the heap. -/
theorem postStep_states (se : stepExecutor) (events : Option Events) (payload : Payload)
    (step : Step) : (se.postStep events payload step).1.states = se.states := by
  simp only [stepExecutor.postStep]
  split
  · split <;> rfl
  · rfl

/-- Retiring a step keeps the heap. -/
theorem retire_states (se : stepExecutor) (step : Step) :
    (se.retire step).1.states = se.states := by
  simp only [stepExecutor.retire]
  split <;> split <;> rfl

/-- A property of the heap that the marking loops keep holds after `Apply` if it held
before. -/
theorem afterApply_states_inv (Q : (StateRef → State) → Prop)
    (hQ : ∀ states urn ref, Q states → Q (trackedStates states urn ref))
    (se : stepExecutor) (step : Step) (h : Q se.states) : Q (se.afterApply step).states := by
  rw [stepExecutor.afterApply, recordApplied_states]
  split
  · split
    · exact hQ _ _ _ h
    · exact h
  · exact h

/-- A property of the heap that the view steps keep and that holds after `Apply` holds
when the body of `continueExecuteStep` ends, for a step that is not a diff step. -/
theorem continueExecuteStepWith_states_inv (Q : (StateRef → State) → Prop)
    (se : stepExecutor) (payload : Payload) (step : Step)
    (ev : stepExecutor → stepExecutor × Option Error)
    (hev : ∀ x, Q x.states → Q (ev x).1.states)
    (hk : step.kind ≠ StepKind.DiffStep) (h : Q (se.afterApply step).states) :
    Q (se.continueExecuteStepWith payload step ev).1.states := by
  by_cases hd : step.kind = StepKind.DeleteStep
  · rw [continueExecuteStepWith_delete se payload step ev hd]
    have h2 := hev _ h
    split
    · exact h2
    · split
      · simp only [postStep_states]; exact h2
      · simp only [retire_states, postStep_states]; exact h2
  · rw [continueExecuteStepWith_other se payload step ev hk hd]
    have h2 : Q ((se.afterApply step).postStep se.deployment.events payload step).1.states := by
      rw [postStep_states]; exact h
    split
    · exact h2
    · split
      · exact hev _ h2
      · simp only [retire_states]; exact hev _ h2

mutual
/-- A property of the heap that the marking loops keep is kept by `continueExecuteStep`,
view steps included. -/
theorem continueExecuteStep_states_inv (Q : (StateRef → State) → Prop)
    (hQ : ∀ states urn ref, Q states → Q (trackedStates states urn ref)) :
    ∀ (run : StepRun) (se : stepExecutor) (payload : Payload), Q se.states →
      Q (se.continueExecuteStep payload run).1.states
  | .node step views, se, payload, h => by
    rw [stepExecutor.continueExecuteStep]
    by_cases hk : step.kind = StepKind.DiffStep
    · unfold stepExecutor.continueExecuteStepWith
      simp only [hk, if_true]
      exact h
    · exact continueExecuteStepWith_states_inv Q se payload step _
        (fun x hx => viewStepLoop_states_inv Q hQ views (x.emit (.ReleaseToken step.URN)) [] hx)
        hk (afterApply_states_inv Q hQ se step h)
/-- A property of the heap that the marking loops keep is kept by the view steps. -/
theorem viewStepLoop_states_inv (Q : (StateRef → State) → Prop)
    (hQ : ∀ states urn ref, Q states → Q (trackedStates states urn ref)) :
    ∀ (views : List (Payload × StepRun)) (se : stepExecutor) (errs : List Error),
      Q se.states → Q (se.viewStepLoop errs views).1.states
  | [], se, errs, h => by
    rw [stepExecutor.viewStepLoop]
    exact h
  | (payload, run) :: rest, se, errs, h => by
    rw [stepExecutor.viewStepLoop]
    have h1 := continueExecuteStep_states_inv Q hQ run se payload h
    split
    · exact viewStepLoop_states_inv Q hQ rest _ _ h1
    · exact viewStepLoop_states_inv Q hQ rest _ _ h1
end

/-! ## Secret outputs after a step -/

/-- C25, as stated, fails for a diff step: it has a new state and its operation is not
Replace, yet after `continueExecuteStep` the output `password`, listed in the
additional secret outputs, is not secret, and neither is the output `token`, whose
input is secret. -/
theorem C25_counterexample :
    (sampleStep "a" .DiffStep .OpDiff true none).New = some 0 ∧
    (sampleStep "a" .DiffStep .OpDiff true none).Op ≠ StepOp.OpReplace ∧
    "password" ∈ (((secretsExecutor none).continueExecuteStep none
        (sampleRun "a" .DiffStep .OpDiff none)).1.states 0).AdditionalSecretOutputs ∧
    (((secretsExecutor none).continueExecuteStep none
        (sampleRun "a" .DiffStep .OpDiff none)).1.states 0).Outputs "password"
      = some (.plain "p") ∧
    (((secretsExecutor none).continueExecuteStep none
        (sampleRun "a" .DiffStep .OpDiff none)).1.states 0).Inputs "token"
      = some (.secret (.plain "t")) ∧
    (((secretsExecutor none).continueExecuteStep none
        (sampleRun "a" .DiffStep .OpDiff none)).1.states 0).Outputs "token"
      = some (.plain "t") ∧
    (PropertyValue.plain "p").IsSecret = false ∧ (PropertyValue.plain "t").IsSecret = false := by
  decide

/-- C25, amended: after `continueExecuteStep` on a step that is not a diff step, with a new
state and an operation that is not Replace, every key other than `id` that is listed
in the additional secret outputs of the new state and present in its outputs maps to
a secret value, and every output whose same-named input is secret is secret. -/
theorem C25_outputs_secured (se : stepExecutor) (payload : Payload) (s : Step)
    (views : List (Payload × StepRun)) (ref : StateRef)
    (hk : s.kind ≠ StepKind.DiffStep) (hn : s.New = some ref)
    (hop : s.Op ≠ StepOp.OpReplace) :
    (∀ k v, k ≠ "id" →
      k ∈ ((se.continueExecuteStep payload (.node s views)).1.states ref).AdditionalSecretOutputs →
      ((se.continueExecuteStep payload (.node s views)).1.states ref).Outputs k = some v →
      v.IsSecret = true) ∧
    (∀ k out inp,
      ((se.continueExecuteStep payload (.node s views)).1.states ref).Outputs k = some out →
      ((se.continueExecuteStep payload (.node s views)).1.states ref).Inputs k = some inp →
      inp.IsSecret = true → out.IsSecret = true) := by
  have hQ : ∀ (states : StateRef → State) (urn : URN) (r : StateRef),
      (states ref).secured → (trackedStates states urn r ref).secured := by
    intro states urn r h
    by_cases hr : ref = r
    · subst hr; exact trackedStates_secured states urn ref
    · rw [trackedStates_other states urn r ref hr]; exact h
  have hA : ((se.afterApply s).states ref).secured := by
    rw [stepExecutor.afterApply, recordApplied_states, hn]
    simp only [hop, ne_eq, not_false_eq_true, if_true]
    exact trackedStates_secured _ _ _
  have hres : ((se.continueExecuteStep payload (.node s views)).1.states ref).secured := by
    rw [stepExecutor.continueExecuteStep]
    exact continueExecuteStepWith_states_inv (fun st => (st ref).secured) se payload s _
      (fun x hx => viewStepLoop_states_inv (fun st => (st ref).secured) hQ views
        (x.emit (.ReleaseToken s.URN)) [] hx) hk hA
  exact hres

/-- C25 amended, on a create step: `password` and `token` are secret afterwards, `plain`
is as it was. -/
theorem C25_outputs_secured_witness :
    (sampleStep "a" .CreateStep .OpCreate true none).kind ≠ StepKind.DiffStep ∧
    (sampleStep "a" .CreateStep .OpCreate true none).New = some 0 ∧
    (sampleStep "a" .CreateStep .OpCreate true none).Op ≠ StepOp.OpReplace ∧
    (((secretsExecutor none).continueExecuteStep none
        (.node (sampleStep "a" .CreateStep .OpCreate true none) [])).1.states 0).Outputs
        "password" = some (.secret (.plain "p")) ∧
    (((secretsExecutor none).continueExecuteStep none
        (.node (sampleStep "a" .CreateStep .OpCreate true none) [])).1.states 0).Outputs
        "token" = some (.secret (.plain "t")) ∧
    (((secretsExecutor none).continueExecuteStep none
        (.node (sampleStep "a" .CreateStep .OpCreate true none) [])).1.states 0).Outputs
        "plain" = some (.plain "x") ∧
    (∀ k v, k ≠ "id" →
      k ∈ (((secretsExecutor none).continueExecuteStep none
        (.node (sampleStep "a" .CreateStep .OpCreate true none) [])).1.states
          0).AdditionalSecretOutputs →
      (((secretsExecutor none).continueExecuteStep none
        (.node (sampleStep "a" .CreateStep .OpCreate true none) [])).1.states 0).Outputs k
        = some v →
      v.IsSecret = true) :=
  ⟨by decide, rfl, by decide, by decide, by decide, by decide,
    (C25_outputs_secured (secretsExecutor none) none
      (sampleStep "a" .CreateStep .OpCreate true none) [] 0 (by decide) rfl (by decide)).1⟩

/-! ## The `id` output -/

/-- Recording an applied step with a new state that is not a replace adds one warning for
each `id` among the additional secret outputs of the new state. -/
theorem recordApplied_trace_of_new (se : stepExecutor) (step : Step) (ref : StateRef)
    (hn : step.New = some ref) (hop : step.Op ≠ StepOp.OpReplace) :
    (se.recordApplied step).trace
      = se.trace ++ ((se.states ref).AdditionalSecretOutputs.filter (fun k => k = "id")).map
          (fun _ => idSecretWarning step.URN) := by
  simp only [stepExecutor.recordApplied, hn, hop, ne_eq, not_false_eq_true, if_true]
  split <;> rw [trackNewState_trace_exact]

/-- After `Apply`, the trace of a step that is not a diff step only grows. -/
theorem continueExecuteStep_trace_afterApply (se : stepExecutor) (payload : Payload) (s : Step)
    (views : List (Payload × StepRun)) (hk : s.kind ≠ StepKind.DiffStep) :
    stepExecutor.addsOnly (fun _ => True) (se.afterApply s)
      (se.continueExecuteStep payload (.node s views)).1 := by
  have hev : ∀ x : stepExecutor,
      stepExecutor.addsOnly (fun _ => True) x (x.executeViewSteps s.URN views).1 :=
    fun x => ⟨_, (executeViewSteps_outcomes x s.URN views).1, fun _ _ => trivial⟩
  have hP : ∀ x : stepExecutor, stepExecutor.addsOnly (fun _ => True) x
      (x.postStep se.deployment.events payload s).1 := by
    intro x
    obtain ⟨es, h⟩ := postStep_trace x se.deployment.events payload s
    exact ⟨es, h, fun _ _ => trivial⟩
  have hR : ∀ x : stepExecutor, stepExecutor.addsOnly (fun _ => True) x (x.retire s).1 :=
    fun x => ⟨_, retire_trace_exact x s, fun _ _ => trivial⟩
  rw [continueExecuteStep_eq]
  by_cases hd : s.kind = StepKind.DeleteStep
  · rw [continueExecuteStepWith_delete se payload s _ hd]
    have h2 := hev (se.afterApply s)
    have h3 := addsOnly_trans _ _ _ _ h2
      (hP ((se.afterApply s).executeViewSteps s.URN views).1)
    have h4 := addsOnly_trans _ _ _ _ h3 (hR
      (((se.afterApply s).executeViewSteps s.URN views).1.postStep se.deployment.events
        payload s).1)
    split
    · exact h2
    · split
      · exact h3
      · exact h4
  · rw [continueExecuteStepWith_other se payload s _ hk hd]
    have h2 := hP (se.afterApply s)
    have h3 := addsOnly_trans _ _ _ _ h2
      (hev ((se.afterApply s).postStep se.deployment.events payload s).1)
    have h4 := addsOnly_trans _ _ _ _ h3 (hR
      ((((se.afterApply s).postStep se.deployment.events payload s).1).executeViewSteps
        s.URN views).1)
    split
    · exact h2
    · split
      · exact h3
      · exact h4

/-- The marking loops leave the inputs of every state as they are. -/
theorem trackedStates_Inputs (states : StateRef → State) (urn : URN) (ref r : StateRef) :
    (trackedStates states urn ref r).Inputs = (states r).Inputs := by
  by_cases h : r = ref
  · subst h; simp [trackedStates]
  · rw [trackedStates_other states urn ref r h]

/-- The marking loops leave the output `id` of a state as it is, unless its input `id` is
secret. -/
theorem trackedStates_id (states : StateRef → State) (urn : URN) (ref r : StateRef)
    (hin : ∀ inp, (states r).Inputs "id" = some inp → inp.IsSecret = false) :
    (trackedStates states urn ref r).Outputs "id" = (states r).Outputs "id" := by
  by_cases h : r = ref
  · subst h
    have hm := markAdditionalSecretOutputs_outputs urn (states r).AdditionalSecretOutputs
      (states r).Outputs [] "id"
    simp only [ne_eq, not_true_eq_false, and_false, if_false] at hm
    simp only [trackedStates, if_true, markLeakedInputSecrets, hm]
    cases ho : (states r).Outputs "id" with
    | none => rfl
    | some out =>
      simp only []
      split
      · cases hi : (states r).Inputs "id" with
        | none => rfl
        | some inp => simp [hin inp hi]
      · rfl
  · rw [trackedStates_other states urn ref r h]

/-- C26, as stated, fails.  A step whose operation is Replace has a new state that lists
`id` among its additional secret outputs, and `continueExecuteStep` emits no warning
(its effects are the `Apply`, `ReleaseToken` and the callback).  And for a create
step whose new state has a secret input `id`, the output `id` is secret after the
step, so it is not what it was. -/
theorem C26_counterexample :
    (sampleStep "a" .OtherStep .OpReplace true none).New = some 0 ∧
    "id" ∈ ((secretsExecutor none).states 0).AdditionalSecretOutputs ∧
    ((secretsExecutor none).continueExecuteStep none
        (sampleRun "a" .OtherStep .OpReplace none)).1.trace
      = [.Apply (sampleStep "a" .OtherStep .OpReplace true none),
          .ReleaseToken (sampleURN "a"),
          .stepComplete (sampleStep "a" .OtherStep .OpReplace true none)] ∧
    (sampleStep "a" .CreateStep .OpCreate true none).New = some 0 ∧
    "id" ∈ ((secretsExecutor (some (.secret (.plain "i")))).states 0).AdditionalSecretOutputs ∧
    ((secretsExecutor (some (.secret (.plain "i")))).states 0).Outputs "id"
      = some (.plain "i") ∧
    (((secretsExecutor (some (.secret (.plain "i")))).continueExecuteStep none
        (sampleRun "a" .CreateStep .OpCreate none)).1.states 0).Outputs "id"
      = some (.secret (.plain "i")) := by
  decide

/-- C26, amended: for every step that is not a diff step, with a new state and an operation
that is not Replace, when `id` is listed in the additional secret outputs of the new
state, `continueExecuteStep` emits the warning that `id` cannot be made secret; and
when the input `id` of the new state is not secret, the output `id` after the step
is what it was before. -/
theorem C26_id_not_made_secret (se : stepExecutor) (payload : Payload) (s : Step)
    (views : List (Payload × StepRun)) (ref : StateRef)
    (hk : s.kind ≠ StepKind.DiffStep) (hn : s.New = some ref)
    (hop : s.Op ≠ StepOp.OpReplace)
    (hid : "id" ∈ (se.states ref).AdditionalSecretOutputs)
    (hin : ∀ inp, (se.states ref).Inputs "id" = some inp → inp.IsSecret = false) :
    (∃ es, (se.continueExecuteStep payload (.node s views)).1.trace = se.trace ++ es ∧
      idSecretWarning s.URN ∈ es) ∧
    ((se.continueExecuteStep payload (.node s views)).1.states ref).Outputs "id"
      = (se.states ref).Outputs "id" := by
  refine ⟨?_, ?_⟩
  · obtain ⟨es, hes, _⟩ := continueExecuteStep_trace_afterApply se payload s views hk
    have hA : (se.afterApply s).trace
        = se.trace ++ Effect.Apply s
          :: ((se.states ref).AdditionalSecretOutputs.filter (fun k => k = "id")).map
              (fun _ => idSecretWarning s.URN) := by
      rw [stepExecutor.afterApply, recordApplied_trace_of_new _ s ref hn hop]
      simp [stepExecutor.emit]
    refine ⟨Effect.Apply s
      :: ((se.states ref).AdditionalSecretOutputs.filter (fun k => k = "id")).map
          (fun _ => idSecretWarning s.URN) ++ es, by rw [hes, hA]; simp, ?_⟩
    apply List.mem_cons_of_mem
    apply List.mem_append_left
    rw [List.mem_map]
    exact ⟨"id", by simp [List.mem_filter, hid], rfl⟩
  · have hQ : ∀ (states : StateRef → State) (urn : URN) (r : StateRef),
        ((states ref).Outputs "id" = (se.states ref).Outputs "id" ∧
          (states ref).Inputs = (se.states ref).Inputs) →
        ((trackedStates states urn r ref).Outputs "id" = (se.states ref).Outputs "id" ∧
          (trackedStates states urn r ref).Inputs = (se.states ref).Inputs) := by
      intro states urn r h
      refine ⟨?_, by rw [trackedStates_Inputs]; exact h.2⟩
      rw [trackedStates_id states urn r ref (by rw [h.2]; exact hin)]
      exact h.1
    exact (continueExecuteStep_states_inv
      (fun st => (st ref).Outputs "id" = (se.states ref).Outputs "id" ∧
        (st ref).Inputs = (se.states ref).Inputs) hQ (.node s views) se payload ⟨rfl, rfl⟩).1

/-- C26 amended, on a create step whose new state has no input `id`: the warning is
emitted and the output `id` is unchanged. -/
theorem C26_id_not_made_secret_witness :
    (sampleStep "a" .CreateStep .OpCreate true none).kind ≠ StepKind.DiffStep ∧
    (sampleStep "a" .CreateStep .OpCreate true none).New = some 0 ∧
    (sampleStep "a" .CreateStep .OpCreate true none).Op ≠ StepOp.OpReplace ∧
    "id" ∈ ((secretsExecutor none).states 0).AdditionalSecretOutputs ∧
    (∀ inp, ((secretsExecutor none).states 0).Inputs "id" = some inp → inp.IsSecret = false) ∧
    ((secretsExecutor none).continueExecuteStep none
        (.node (sampleStep "a" .CreateStep .OpCreate true none) [])).1.trace
      = [.Apply (sampleStep "a" .CreateStep .OpCreate true none),
          idSecretWarning (sampleURN "a"),
          .ReleaseToken (sampleURN "a"),
          .stepComplete (sampleStep "a" .CreateStep .OpCreate true none)] ∧
    (((secretsExecutor none).continueExecuteStep none
        (.node (sampleStep "a" .CreateStep .OpCreate true none) [])).1.states 0).Outputs "id"
      = ((secretsExecutor none).states 0).Outputs "id" :=
  ⟨by decide, rfl, by decide, by decide, (fun _ h => nomatch h), by decide,
    (C26_id_not_made_secret (secretsExecutor none) none
      (sampleStep "a" .CreateStep .OpCreate true none) [] 0 (by decide) rfl (by decide)
      (by decide) (fun _ h => nomatch h)).2⟩

/-! ## Diff steps -/

/-- `continueExecuteStep` on a diff step only calls `Apply` and returns nil. -/
theorem continueExecuteStep_of_diff (se : stepExecutor) (payload : Payload) (step : Step)
    (views : List (Payload × StepRun)) (hk : step.kind = StepKind.DiffStep) :
    se.continueExecuteStep payload (.node step views) = (se.emit (.Apply step), none) := by
  rw [continueExecuteStep_eq]
  unfold stepExecutor.continueExecuteStepWith
  simp only [hk, if_true]

/-- C27: for a diff step, `executeStep` calls `Apply` and nothing else (the `Apply` of the
step is the one effect it adds, so there is neither a pre-step nor a post-step
event and no view step is run), returns nil, and leaves `pendingNews`, the `news`
and `reads` maps and the heap of states, the new state of the step included, as they
were. -/
theorem C27_diff_step_only_applies (se : stepExecutor) (run : StepRun)
    (hk : run.step.kind = StepKind.DiffStep) :
    (se.executeStep run).2 = none ∧
    (se.executeStep run).1.trace = se.trace ++ [Effect.Apply run.step] ∧
    (se.executeStep run).1.pendingNews = se.pendingNews ∧
    (se.executeStep run).1.deployment.news = se.deployment.news ∧
    (se.executeStep run).1.deployment.reads = se.deployment.reads ∧
    (se.executeStep run).1.states = se.states := by
  obtain ⟨step, views⟩ := run
  have hk2 : step.kind = StepKind.DiffStep := hk
  have h : se.executeStep (.node step views) = (se.emit (.Apply step), none) := by
    simp only [stepExecutor.executeStep, StepRun.step, hk2, decide_True, Bool.not_true,
      Bool.false_eq_true, if_false]
    cases se.deployment.events with
    | none => exact continueExecuteStep_of_diff se none step views hk2
    | some ev => exact continueExecuteStep_of_diff se none step views hk2
  rw [h]
  exact ⟨rfl, rfl, rfl, rfl, rfl, rfl⟩

/-- C27 on a diff step with a new state, in an executor with an event sink whose post-step
event would fail: the step is applied and nothing else happens. -/
theorem C27_diff_step_only_applies_witness :
    (sampleRun "d" .DiffStep .OpDiff (some (.errorString "boom"))).step.kind
      = StepKind.DiffStep ∧
    (sampleRun "d" .DiffStep .OpDiff (some (.errorString "boom"))).step.New = some 0 ∧
    ((sinkExecutor failingPostSink).executeStep
        (sampleRun "d" .DiffStep .OpDiff (some (.errorString "boom")))).2 = none ∧
    ((sinkExecutor failingPostSink).executeStep
        (sampleRun "d" .DiffStep .OpDiff (some (.errorString "boom")))).1.trace
      = (sinkExecutor failingPostSink).trace
        ++ [Effect.Apply (sampleRun "d" .DiffStep .OpDiff (some (.errorString "boom"))).step] :=
  ⟨rfl, rfl,
    (C27_diff_step_only_applies (sinkExecutor failingPostSink)
      (sampleRun "d" .DiffStep .OpDiff (some (.errorString "boom"))) rfl).1,
    (C27_diff_step_only_applies (sinkExecutor failingPostSink)
      (sampleRun "d" .DiffStep .OpDiff (some (.errorString "boom"))) rfl).2.1⟩

/-! ## Registering resource outputs: a failed plan check and the nil step -/

/-- C29: if a registration reaches the plan check and the check fails (there is a plan and
it has no resource plan for the URN, or its `checkOutputs` fails), then the call
returns the plan error, every resource state, the new state of the pending step
included, has the outputs it had before the call, and the call has invoked no
collaborator at all: not the after-hooks, not `OnResourceOutputs` of the event sink,
not `Done` of the event. -/
theorem C29_plan_error_leaves_outputs (se : stepExecutor) (e : RegisterResourceOutputsEvent)
    (errored finalizingStackOutputs : Bool) (reg : Step) (ref : StateRef) (planErr : Error)
    (hassert : finalizingStackOutputs = true → e.URN.QualifiedType = RootStackType)
    (hstash : ¬ (finalizingStackOutputs = false ∧ e.URN.QualifiedType = RootStackType))
    (hpend : se.pendingNews e.URN = some reg) (hnew : reg.New = some ref)
    (hplan : se.checkPlan e.URN (se.oldOuts e.URN)
      (se.registeredOuts e errored finalizingStackOutputs) = some planErr) :
    (se.executeRegisterResourceOutputs e errored finalizingStackOutputs).2
      = Outcome.returned (some planErr) ∧
    ((se.executeRegisterResourceOutputs e errored finalizingStackOutputs).1.states ref).Outputs
      = (se.states ref).Outputs ∧
    (se.executeRegisterResourceOutputs e errored finalizingStackOutputs).1.states = se.states ∧
    (se.executeRegisterResourceOutputs e errored finalizingStackOutputs).1.trace = se.trace ∧
    (∃ plan, se.deployment.plan = some plan ∧
      ((plan.ResourcePlans e.URN = none ∧
          planErr = .errorString ("no plan for resource " ++ e.URN.text)) ∨
        (∃ resourcePlan err, plan.ResourcePlans e.URN = some resourcePlan ∧
          resourcePlan.checkOutputs (se.oldOuts e.URN)
            (se.registeredOuts e errored finalizingStackOutputs) = some err ∧
          planErr = .wrapError "resource violates plan: " err))) := by
  rw [register_of_plan_error se e errored finalizingStackOutputs reg ref planErr
    hassert hstash hpend hnew hplan]
  refine ⟨rfl, rfl, rfl, rfl, ?_⟩
  unfold stepExecutor.checkPlan at hplan
  cases hp : se.deployment.plan with
  | none => simp [hp] at hplan
  | some plan =>
    refine ⟨plan, rfl, ?_⟩
    simp only [hp] at hplan
    cases hr : plan.ResourcePlans e.URN with
    | none =>
      simp only [hr, Option.some.injEq] at hplan
      exact Or.inl ⟨rfl, hplan.symm⟩
    | some resourcePlan =>
      simp only [hr] at hplan
      cases hc : resourcePlan.checkOutputs (se.oldOuts e.URN)
          (se.registeredOuts e errored finalizingStackOutputs) with
      | none => simp [hc] at hplan
      | some err =>
        simp only [hc, Option.some.injEq] at hplan
        exact Or.inr ⟨resourcePlan, err, rfl, hc, hplan.symm⟩

/-- C29 on a deployment whose plan rejects the outputs of the pending resource: the output
`stale` of the new state is still there, the registered output `fresh` is not, and
the trace is empty. -/
theorem C29_plan_error_leaves_outputs_witness :
    (false = true → (outputsEvent (sampleURN "a")).URN.QualifiedType = RootStackType) ∧
    ¬ (false = false ∧ (outputsEvent (sampleURN "a")).URN.QualifiedType = RootStackType) ∧
    (pendingExecutor (sampleURN "a")
      { sampleDeployment false with plan := some (samplePlan (sampleURN "a") true) }
      false).pendingNews (outputsEvent (sampleURN "a")).URN = some (pendingStep (sampleURN "a")) ∧
    (((pendingExecutor (sampleURN "a")
      { sampleDeployment false with plan := some (samplePlan (sampleURN "a") true) }
      false).executeRegisterResourceOutputs (outputsEvent (sampleURN "a")) false false).1.states
        0).Outputs "stale" = some (.plain "s") ∧
    (((pendingExecutor (sampleURN "a")
      { sampleDeployment false with plan := some (samplePlan (sampleURN "a") true) }
      false).executeRegisterResourceOutputs (outputsEvent (sampleURN "a")) false false).1.states
        0).Outputs "fresh" = none ∧
    ((pendingExecutor (sampleURN "a")
      { sampleDeployment false with plan := some (samplePlan (sampleURN "a") true) }
      false).executeRegisterResourceOutputs (outputsEvent (sampleURN "a")) false false).1.trace
      = (pendingExecutor (sampleURN "a")
      { sampleDeployment false with plan := some (samplePlan (sampleURN "a") true) }
      false).trace :=
  ⟨by decide, by decide, by decide, by decide, by decide,
    (C29_plan_error_leaves_outputs
      (pendingExecutor (sampleURN "a")
        { sampleDeployment false with plan := some (samplePlan (sampleURN "a") true) } false)
      (outputsEvent (sampleURN "a")) false false (pendingStep (sampleURN "a")) 0
      (.wrapError "resource violates plan: " (.errorString "mismatch"))
      (by decide) (by decide) (by decide) rfl (by decide)).2.2.2.1⟩

/-- With ignore-errors off, and continue-on-error on or a delete-protected error,
`cancelDueToError` with a nil step calls `Fail` on nil and panics. -/
theorem cancelDueToError_nil_panics (se : stepExecutor) (err : Error)
    (hi : se.ignoreErrors = false)
    (hc : se.deployment.opts.ContinueOnError = true ∨ err.AsDeleteProtected = true) :
    (se.cancelDueToError err none).2
      = Outcome.panicked "invalid memory address or nil pointer dereference" := by
  rcases hc with hc | hc
  · by_cases hd : err.AsDeleteProtected = true <;>
      simp [stepExecutor.cancelDueToError, hi, hc, hd]
  · simp [stepExecutor.cancelDueToError, hi, hc]

/-- C28 fails on the code: whenever, during a registration, `OnResourceOutputs` of the event
sink is called and returns an error, with ignore-errors off and continue-on-error on
(or a delete-protected error), `executeRegisterResourceOutputs` does not complete:
`cancelDueToError` calls `Fail` on the nil step it was handed and the call panics
with a nil dereference (`es` are the effects of the call). -/
theorem C28_nil_step_dereferenced (se : stepExecutor) (e : RegisterResourceOutputsEvent)
    (errored finalizingStackOutputs : Bool) (sink : Events) (reg : Step) (eventerr : Error)
    (es : List Effect)
    (hsink : se.deployment.events = some sink)
    (htrace : (se.executeRegisterResourceOutputs e errored finalizingStackOutputs).1.trace
      = se.trace ++ es)
    (hcall : Effect.OnResourceOutputs reg ∈ es)
    (herr : sink.OnResourceOutputs reg = some eventerr)
    (hi : se.ignoreErrors = false)
    (hc : se.deployment.opts.ContinueOnError = true ∨ eventerr.AsDeleteProtected = true) :
    (se.executeRegisterResourceOutputs e errored finalizingStackOutputs).2
      = Outcome.panicked "invalid memory address or nil pointer dereference" := by
  obtain ⟨S, hs, -, -, hSi, -, hSo, -, -, hres⟩ := register_sink_call se e errored
    finalizingStackOutputs sink reg eventerr es hsink htrace hcall herr
  have hp := cancelDueToError_nil_panics S eventerr (by rw [hSi]; exact hi)
    (by rw [hSo]; exact hc)
  rw [hres, hp]

/-- C28 at the failing input: continue-on-error on, ignore-errors off, a pending create or
update, and an event sink whose `OnResourceOutputs` fails. -/
theorem C28_nil_step_dereferenced_witness :
    (pendingExecutor (sampleURN "a") { sampleDeployment true with events := some failingSink }
      false).deployment.events = some failingSink ∧
    failingSink.OnResourceOutputs (pendingStep (sampleURN "a"))
      = some (.errorString "sink failed") ∧
    (pendingExecutor (sampleURN "a") { sampleDeployment true with events := some failingSink }
      false).ignoreErrors = false ∧
    (pendingExecutor (sampleURN "a") { sampleDeployment true with events := some failingSink }
      false).deployment.opts.ContinueOnError = true ∧
    ((pendingExecutor (sampleURN "a") { sampleDeployment true with events := some failingSink }
      false).executeRegisterResourceOutputs (outputsEvent (sampleURN "a")) false false).2
      = Outcome.panicked "invalid memory address or nil pointer dereference" :=
  ⟨rfl, rfl, rfl, rfl,
    C28_nil_step_dereferenced
      (pendingExecutor (sampleURN "a") { sampleDeployment true with events := some failingSink }
        false)
      (outputsEvent (sampleURN "a")) false false failingSink (pendingStep (sampleURN "a"))
      (.errorString "sink failed")
      [.OnResourceOutputs (pendingStep (sampleURN "a")),
        .Errorf (sampleURN "a") "resource complete event returned an error: sink failed"]
      rfl (by decide) (by decide) rfl rfl (Or.inl rfl)⟩

end deploy

namespace httpstate

/-! ## The persister: state after a save -/

/-- Without a diff state a save sends the regular checkpoint and leaves the persister as it
is. -/
theorem Save_of_no_diffState (lib : Libraries) (p : cloudSnapshotPersister) (snapshot : Snapshot)
    (response : Option String) (h : p.deploymentDiffState = none) :
    p.Save lib snapshot response
      = (p, Request.checkpoint
          { IsInvalid := false
            Version := (schemaFor p.schemaV4 snapshot.features).1
            Features := (schemaFor p.schemaV4 snapshot.features).2
            Deployment := lib.marshalDeployment (SerializeDeployment snapshot) }, response) := by
  simp only [cloudSnapshotPersister.Save, h]

/-- With a diff state, the persister after a save: the sequence number is one more, the
cutoff is the same, and the baseline is the new JSON if the remote accepted the PATCH
and the old baseline otherwise. -/
theorem Save_diffState (lib : Libraries) (p : cloudSnapshotPersister) (snapshot : Snapshot)
    (response : Option String) (dds : deploymentDiffState)
    (h : p.deploymentDiffState = some dds) :
    (p.Save lib snapshot response).1
      = { p with
          deploymentDiffState := some {
            lastSavedDeployment :=
              if response.isNone then
                some (lib.marshalIndent (p.untypedDeployment lib snapshot))
              else dds.lastSavedDeployment
            sequenceNumber := dds.sequenceNumber + 1
            minimalDiffSize := dds.minimalDiffSize } } := by
  cases response <;>
    simp [cloudSnapshotPersister.Save, h, deploymentDiffState.Saved,
      deploymentDiffState.MarshalDeployment, cloudSnapshotPersister.untypedDeployment]

/-- With a diff state, the request of a save: a delta if the snapshot should be diffed, the
verbatim checkpoint otherwise, with the sequence number of the diff state. -/
theorem Save_request (lib : Libraries) (p : cloudSnapshotPersister) (snapshot : Snapshot)
    (response : Option String) (dds : deploymentDiffState)
    (h : p.deploymentDiffState = some dds) :
    (p.Save lib snapshot response).2.1
      = if dds.ShouldDiff (lib.marshalIndent (p.untypedDeployment lib snapshot)) = true then
          Request.checkpointdelta
            { Version := (schemaFor p.schemaV4 snapshot.features).1
              CheckpointHash :=
                hexLower (lib.sha256 (lib.marshalIndent (p.untypedDeployment lib snapshot)))
              SequenceNumber := dds.sequenceNumber
              DeploymentDelta := lib.computeEdits (dds.lastSavedDeployment.getD [])
                (lib.marshalIndent (p.untypedDeployment lib snapshot)) }
        else
          Request.checkpointverbatim
            { Version := (schemaFor p.schemaV4 snapshot.features).1
              UntypedDeployment := lib.marshalIndent (p.untypedDeployment lib snapshot)
              SequenceNumber := dds.sequenceNumber } := by
  cases response <;>
    simp [cloudSnapshotPersister.Save, h, deploymentDiffState.Diff,
      deploymentDiffState.MarshalDeployment, cloudSnapshotPersister.untypedDeployment]

/-- The saves of an update keep the schema capability; without a diff state none appears. -/
theorem saves_of_no_diffState (lib : Libraries) (history : List (Snapshot × Option String)) :
    ∀ p : cloudSnapshotPersister, p.deploymentDiffState = none →
      (p.saves lib history).1 = p := by
  induction history with
  | nil => intro p _; rfl
  | cons s rest ih =>
    intro p h
    obtain ⟨snapshot, response⟩ := s
    simp only [cloudSnapshotPersister.saves]
    rw [Save_of_no_diffState lib p snapshot response h]
    exact ih p h

/-- The saves of an update on a persister with a diff state: the schema capability and the
cutoff stay, the sequence number advances by the number of saves, and there is a
baseline iff there was one before or one of the saves was accepted. -/
theorem saves_diffState (lib : Libraries) (history : List (Snapshot × Option String)) :
    ∀ (p : cloudSnapshotPersister) (dds : deploymentDiffState),
      p.deploymentDiffState = some dds →
      ∃ dds2, (p.saves lib history).1.deploymentDiffState = some dds2 ∧
        (p.saves lib history).1.schemaV4 = p.schemaV4 ∧
        dds2.minimalDiffSize = dds.minimalDiffSize ∧
        dds2.sequenceNumber = dds.sequenceNumber + history.length ∧
        dds2.lastSavedDeployment.isSome
          = (dds.lastSavedDeployment.isSome || history.any (fun h => h.2.isNone)) := by
  induction history with
  | nil => intro p dds h; exact ⟨dds, h, rfl, rfl, rfl, by simp⟩
  | cons s rest ih =>
    intro p dds h
    obtain ⟨snapshot, response⟩ := s
    simp only [cloudSnapshotPersister.saves]
    have h1 := Save_diffState lib p snapshot response dds h
    obtain ⟨dds2, hd, hv, hm, hs, hl⟩ := ih (p.Save lib snapshot response).1 _
      (by rw [h1])
    refine ⟨dds2, hd, ?_, ?_, ?_, ?_⟩
    · rw [hv, h1]
    · rw [hm]
    · rw [hs]; simp only [List.length_cons]; omega
    · rw [hl]
      cases response <;> cases dds.lastSavedDeployment <;> simp [List.any_cons]

/-! ## Transport selection -/

/-- C16, as stated, fails: with delta uploads advertised at a cutoff of 1000 bytes, the
second save of an update, whose snapshot serializes to fewer bytes than the cutoff,
sends the verbatim checkpoint, not a delta. -/
theorem C16_counterexample :
    ((newSnapshotPersister { delta := some 1000, schemaV4 := false }).saves sampleLibraries
        [(snapshotOne, none), (snapshotTwo, none)]).2.map Request.transport
      = [Transport.verbatim, Transport.verbatim] := by
  decide

/-- C16, amended: for every save within one update (`history` are the earlier saves of the
update with the responses of the remote).  If the remote did not advertise delta
uploads the regular checkpoint is sent.  If it did, the verbatim checkpoint is sent
when no earlier save of the update was accepted (so on the first save) or when the
serialized snapshot is smaller than the cutoff, and a delta is sent otherwise. -/
theorem C16_transport_selection (lib : Libraries) (caps : Capabilities)
    (history : List (Snapshot × Option String)) (snapshot : Snapshot)
    (response : Option String) :
    (caps.delta = none →
      ((((newSnapshotPersister caps).saves lib history).1).Save lib snapshot
        response).2.1.transport = Transport.regular) ∧
    (∀ cutoff, caps.delta = some cutoff →
      ((∀ h ∈ history, h.2 ≠ none) ∨
        (lib.marshalIndent ((newSnapshotPersister caps).untypedDeployment lib snapshot)).length
          < cutoff) →
      ((((newSnapshotPersister caps).saves lib history).1).Save lib snapshot
        response).2.1.transport = Transport.verbatim) ∧
    (∀ cutoff, caps.delta = some cutoff →
      (∃ h ∈ history, h.2 = none) →
      cutoff ≤
        (lib.marshalIndent ((newSnapshotPersister caps).untypedDeployment lib snapshot)).length →
      ((((newSnapshotPersister caps).saves lib history).1).Save lib snapshot
        response).2.1.transport = Transport.delta) := by
  refine ⟨?_, ?_, ?_⟩
  · intro hnone
    have h0 : (newSnapshotPersister caps).deploymentDiffState = none := by
      simp [newSnapshotPersister, hnone]
    rw [saves_of_no_diffState lib history _ h0, Save_of_no_diffState lib _ snapshot response h0]
    rfl
  · intro cutoff hsome hcase
    have h0 : (newSnapshotPersister caps).deploymentDiffState
        = some (newDeploymentDiffState cutoff) := by
      simp [newSnapshotPersister, hsome]
    obtain ⟨dds2, hd, hv, hm, -, hl⟩ := saves_diffState lib history _ _ h0
    have hraw : ((newSnapshotPersister caps).saves lib history).1.untypedDeployment lib snapshot
        = (newSnapshotPersister caps).untypedDeployment lib snapshot := by
      simp only [cloudSnapshotPersister.untypedDeployment, hv]
    rw [Save_request lib _ snapshot response dds2 hd, hraw]
    have hno : dds2.ShouldDiff
        (lib.marshalIndent ((newSnapshotPersister caps).untypedDeployment lib snapshot))
        = false := by
      simp only [deploymentDiffState.ShouldDiff, hl, hm, newDeploymentDiffState]
      rcases hcase with hall | hsmall
      · have : history.any (fun h => h.2.isNone) = false := by
          rw [List.any_eq_false]
          intro h hh
          have := hall h hh
          cases hx : h.2
          · exact absurd hx this
          · simp
        simp [this]
      · have : ¬ cutoff ≤ (lib.marshalIndent
            ((newSnapshotPersister caps).untypedDeployment lib snapshot)).length := by omega
        simp [this]
    simp [hno, Request.transport]
  · intro cutoff hsome hex hbig
    have h0 : (newSnapshotPersister caps).deploymentDiffState
        = some (newDeploymentDiffState cutoff) := by
      simp [newSnapshotPersister, hsome]
    obtain ⟨dds2, hd, hv, hm, -, hl⟩ := saves_diffState lib history _ _ h0
    have hraw : ((newSnapshotPersister caps).saves lib history).1.untypedDeployment lib snapshot
        = (newSnapshotPersister caps).untypedDeployment lib snapshot := by
      simp only [cloudSnapshotPersister.untypedDeployment, hv]
    rw [Save_request lib _ snapshot response dds2 hd, hraw]
    have hyes : dds2.ShouldDiff
        (lib.marshalIndent ((newSnapshotPersister caps).untypedDeployment lib snapshot))
        = true := by
      simp only [deploymentDiffState.ShouldDiff, hl, hm, newDeploymentDiffState]
      have : history.any (fun h => h.2.isNone) = true := by
        rw [List.any_eq_true]
        obtain ⟨h, hh, hx⟩ := hex
        exact ⟨h, hh, by simp [hx]⟩
      simp [this, hbig]
    simp [hyes, Request.transport]

/-- C16 amended, as in the test with a cutoff of 1 byte: after an accepted first save, the
second save sends a delta. -/
theorem C16_transport_selection_witness :
    ({ delta := some 1, schemaV4 := false } : Capabilities).delta = some 1 ∧
    (∃ h ∈ [(snapshotOne, (none : Option String))], h.2 = none) ∧
    1 ≤ (sampleLibraries.marshalIndent
      ((newSnapshotPersister { delta := some 1, schemaV4 := false }).untypedDeployment
        sampleLibraries snapshotTwo)).length ∧
    ((((newSnapshotPersister { delta := some 1, schemaV4 := false }).saves sampleLibraries
        [(snapshotOne, none)]).1).Save sampleLibraries snapshotTwo none).2.1.transport
      = Transport.delta :=
  ⟨rfl, ⟨(snapshotOne, none), by simp, rfl⟩, by decide,
    (C16_transport_selection sampleLibraries { delta := some 1, schemaV4 := false }
      [(snapshotOne, none)] snapshotTwo none).2.2 1 rfl ⟨(snapshotOne, none), by simp, rfl⟩ (by decide)⟩

/-! ## Schema version of the persisted deployment -/

/-- The sample text diff and its application are inverse to each other. -/
theorem sampleLibraries_roundtrip (a b : RawMessage) :
    sampleLibraries.applyEdits a (sampleLibraries.computeEdits a b) = b := by
  simp [sampleLibraries, sampleComputeEdits, sampleApplyEditsFrom]

/-- The saves of an update keep the schema capability. -/
theorem saves_schemaV4 (lib : Libraries) (history : List (Snapshot × Option String))
    (p : cloudSnapshotPersister) : (p.saves lib history).1.schemaV4 = p.schemaV4 := by
  cases h : p.deploymentDiffState with
  | none => rw [saves_of_no_diffState lib history p h]
  | some dds =>
    obtain ⟨_, _, hv, _⟩ := saves_diffState lib history p dds h
    exact hv

/-- The state the test server persists on the request of a save is the encoding of the
untyped deployment of the snapshot: the compact one on the regular transport, the
canonical indented one on the verbatim and delta transports.  For a delta the text
diff must be invertible and the server must hold the baseline of the client. -/
theorem handleRequest_Save (lib : Libraries)
    (hround : ∀ a b, lib.applyEdits a (lib.computeEdits a b) = b)
    (p : cloudSnapshotPersister) (snapshot : Snapshot) (response : Option String)
    (persistedState : RawMessage)
    (hbase : ∀ dds b, p.deploymentDiffState = some dds →
      dds.lastSavedDeployment = some b → persistedState = b) :
    ((p.Save lib snapshot response).2.1.transport = Transport.regular →
      handleRequest lib persistedState (p.Save lib snapshot response).2.1
        = lib.marshal (p.untypedDeployment lib snapshot)) ∧
    ((p.Save lib snapshot response).2.1.transport ≠ Transport.regular →
      handleRequest lib persistedState (p.Save lib snapshot response).2.1
        = lib.marshalIndent (p.untypedDeployment lib snapshot)) := by
  cases h : p.deploymentDiffState with
  | none =>
    rw [Save_of_no_diffState lib p snapshot response h]
    refine ⟨fun _ => rfl, fun hne => absurd rfl hne⟩
  | some dds =>
    rw [Save_request lib p snapshot response dds h]
    by_cases hd : dds.ShouldDiff (lib.marshalIndent (p.untypedDeployment lib snapshot)) = true
    · simp only [hd, ↓reduceIte]
      refine ⟨fun hreg => by simp [Request.transport] at hreg, fun _ => ?_⟩
      have hsome : dds.lastSavedDeployment.isSome = true := by
        simp only [deploymentDiffState.ShouldDiff, Bool.and_eq_true] at hd
        exact hd.1
      obtain ⟨b, hb⟩ := Option.isSome_iff_exists.mp hsome
      have hp := hbase dds b h hb
      simp only [handleRequest, handleLastRequestAsDelta, hb, Option.getD_some, hp]
      exact hround _ _
    · simp only [hd, Bool.false_eq_true, ↓reduceIte]
      refine ⟨fun hreg => by simp [Request.transport] at hreg, fun _ => rfl⟩

/-- The schema downgrade rule on the untyped deployment of a snapshot. -/
theorem untypedDeployment_schema (lib : Libraries) (p : cloudSnapshotPersister)
    (snapshot : Snapshot) :
    (p.untypedDeployment lib snapshot).Deployment
      = lib.marshalDeployment { Resources := snapshot.Resources } ∧
    (((p.untypedDeployment lib snapshot).Version = 4 ∧
        (p.untypedDeployment lib snapshot).Features = snapshot.features)
      ↔ (p.schemaV4 = true ∧ snapshot.features ≠ [])) ∧
    (¬ (p.schemaV4 = true ∧ snapshot.features ≠ []) →
      (p.untypedDeployment lib snapshot).Version = 3 ∧
        (p.untypedDeployment lib snapshot).Features = []) := by
  refine ⟨rfl, ?_, ?_⟩
  · by_cases hv : p.schemaV4 = true <;> by_cases hf : snapshot.features = [] <;>
      simp [cloudSnapshotPersister.untypedDeployment, schemaFor, hv, hf]
  · intro hc
    by_cases hv : p.schemaV4 = true <;> by_cases hf : snapshot.features = [] <;>
      simp_all [cloudSnapshotPersister.untypedDeployment, schemaFor]

/-- C17: for every save of an update, on each of the three transports, the state the
remote persists is the encoding of an untyped deployment that has version 4 with the
feature tags of the snapshot iff the remote advertised schema version 4 and the
feature set of the snapshot is non-empty, and version 3 with no feature tags
otherwise; in both cases its payload is the serialization of all resources of the
snapshot with their fields.  For the delta transport the text diff is assumed
invertible and the remote is assumed to hold the baseline of the client. -/
theorem C17_schema_downgrade (lib : Libraries)
    (hround : ∀ a b, lib.applyEdits a (lib.computeEdits a b) = b)
    (caps : Capabilities) (history : List (Snapshot × Option String))
    (snapshot : Snapshot) (response : Option String) (persistedState : RawMessage)
    (hbase : ∀ dds b,
      ((newSnapshotPersister caps).saves lib history).1.deploymentDiffState = some dds →
      dds.lastSavedDeployment = some b → persistedState = b) :
    ∃ u : UntypedDeployment,
      ((((newSnapshotPersister caps).saves lib history).1.Save lib snapshot
          response).2.1.transport = Transport.regular →
        handleRequest lib persistedState
          (((newSnapshotPersister caps).saves lib history).1.Save lib snapshot response).2.1
          = lib.marshal u) ∧
      ((((newSnapshotPersister caps).saves lib history).1.Save lib snapshot
          response).2.1.transport ≠ Transport.regular →
        handleRequest lib persistedState
          (((newSnapshotPersister caps).saves lib history).1.Save lib snapshot response).2.1
          = lib.marshalIndent u) ∧
      u.Deployment = lib.marshalDeployment { Resources := snapshot.Resources } ∧
      ((u.Version = 4 ∧ u.Features = snapshot.features)
        ↔ (caps.schemaV4 = true ∧ snapshot.features ≠ [])) ∧
      (¬ (caps.schemaV4 = true ∧ snapshot.features ≠ []) →
        u.Version = 3 ∧ u.Features = []) := by
  have hv : ((newSnapshotPersister caps).saves lib history).1.schemaV4 = caps.schemaV4 :=
    saves_schemaV4 lib history (newSnapshotPersister caps)
  obtain ⟨h1, h2⟩ := handleRequest_Save lib hround
    ((newSnapshotPersister caps).saves lib history).1 snapshot response persistedState hbase
  obtain ⟨h3, h4, h5⟩ := untypedDeployment_schema lib
    ((newSnapshotPersister caps).saves lib history).1 snapshot
  rw [hv] at h4 h5
  exact ⟨_, h1, h2, h3, h4, h5⟩

/-- C17 at a sample: the remote advertises delta uploads with a cutoff of 1 byte and schema
version 4, the first save was accepted, the remote holds its JSON, and the second
snapshot uses the version 4 feature. -/
theorem C17_schema_downgrade_witness :
    (∀ a b, sampleLibraries.applyEdits a (sampleLibraries.computeEdits a b) = b) ∧
    (∀ dds b,
      ((newSnapshotPersister { delta := some 1, schemaV4 := true }).saves sampleLibraries
        [(snapshotOne, none)]).1.deploymentDiffState = some dds →
      dds.lastSavedDeployment = some b →
      sampleLibraries.marshalIndent
        ((newSnapshotPersister { delta := some 1, schemaV4 := true }).untypedDeployment
          sampleLibraries snapshotOne) = b) ∧
    ∃ u : UntypedDeployment,
      ((((newSnapshotPersister { delta := some 1, schemaV4 := true }).saves sampleLibraries
          [(snapshotOne, none)]).1.Save sampleLibraries snapshotV4
          none).2.1.transport = Transport.regular →
        handleRequest sampleLibraries
          (sampleLibraries.marshalIndent
            ((newSnapshotPersister { delta := some 1, schemaV4 := true }).untypedDeployment
              sampleLibraries snapshotOne))
          (((newSnapshotPersister { delta := some 1, schemaV4 := true }).saves sampleLibraries
            [(snapshotOne, none)]).1.Save sampleLibraries snapshotV4 none).2.1
          = sampleLibraries.marshal u) ∧
      ((((newSnapshotPersister { delta := some 1, schemaV4 := true }).saves sampleLibraries
          [(snapshotOne, none)]).1.Save sampleLibraries snapshotV4
          none).2.1.transport ≠ Transport.regular →
        handleRequest sampleLibraries
          (sampleLibraries.marshalIndent
            ((newSnapshotPersister { delta := some 1, schemaV4 := true }).untypedDeployment
              sampleLibraries snapshotOne))
          (((newSnapshotPersister { delta := some 1, schemaV4 := true }).saves sampleLibraries
            [(snapshotOne, none)]).1.Save sampleLibraries snapshotV4 none).2.1
          = sampleLibraries.marshalIndent u) ∧
      u.Deployment = sampleLibraries.marshalDeployment { Resources := snapshotV4.Resources } ∧
      ((u.Version = 4 ∧ u.Features = snapshotV4.features)
        ↔ (({ delta := some 1, schemaV4 := true } : Capabilities).schemaV4 = true ∧
            snapshotV4.features ≠ [])) ∧
      (¬ (({ delta := some 1, schemaV4 := true } : Capabilities).schemaV4 = true ∧
            snapshotV4.features ≠ []) →
        u.Version = 3 ∧ u.Features = []) :=
  have hb : ∀ (dds : deploymentDiffState) (b : RawMessage),
      ((newSnapshotPersister { delta := some 1, schemaV4 := true }).saves sampleLibraries
        [(snapshotOne, none)]).1.deploymentDiffState = some dds →
      dds.lastSavedDeployment = some b →
      sampleLibraries.marshalIndent
        ((newSnapshotPersister { delta := some 1, schemaV4 := true }).untypedDeployment
          sampleLibraries snapshotOne) = b := by
    intro dds b h1 h2
    have hp : ((newSnapshotPersister { delta := some 1, schemaV4 := true }).saves sampleLibraries
        [(snapshotOne, none)]).1.deploymentDiffState
        = some { lastSavedDeployment := some (sampleLibraries.marshalIndent
                  ((newSnapshotPersister { delta := some 1, schemaV4 := true }).untypedDeployment
                    sampleLibraries snapshotOne))
                 sequenceNumber := 2
                 minimalDiffSize := 1 } := by decide
    rw [hp] at h1
    cases h1
    exact Option.some.inj h2
  ⟨sampleLibraries_roundtrip, hb,
    C17_schema_downgrade sampleLibraries sampleLibraries_roundtrip
      { delta := some 1, schemaV4 := true } [(snapshotOne, none)] snapshotV4 none _ hb⟩

/-! ## Sequence numbers -/

/-- The sequence numbers of the requests of the saves of an update on a persister with a
diff state: they count up from the sequence number of the diff state. -/
theorem saves_sequenceNumber (lib : Libraries) (history : List (Snapshot × Option String)) :
    ∀ (p : cloudSnapshotPersister) (dds : deploymentDiffState),
      p.deploymentDiffState = some dds →
      (p.saves lib history).2.map Request.sequenceNumber
        = (List.range history.length).map (fun k => some (dds.sequenceNumber + k)) := by
  induction history with
  | nil => intro p dds _; rfl
  | cons s rest ih =>
    intro p dds h
    obtain ⟨snapshot, response⟩ := s
    simp only [cloudSnapshotPersister.saves, List.map_cons, List.length_cons]
    rw [List.range_succ_eq_map, List.map_cons, List.map_map]
    have h1 := Save_diffState lib p snapshot response dds h
    rw [ih (p.Save lib snapshot response).1 _ (by rw [h1])]
    have hreq : ((p.Save lib snapshot response).2.1).sequenceNumber
        = some (dds.sequenceNumber + 0) := by
      rw [Save_request lib p snapshot response dds h]
      split <;> rfl
    rw [hreq]
    congr 1
    apply List.map_congr_left
    intro k _
    simp only [Function.comp, Nat.succ_eq_add_one]
    congr 1
    omega

/-- C18: within one update of a persister whose remote advertised delta uploads, every
PATCH carries a sequence number (it is a verbatim or a delta PATCH), and the k-th
PATCH carries sequence number k, whatever the remote answered to the earlier ones:
the first carries 1 and each later one carries one more than the one before. -/
theorem C18_sequence_numbers (lib : Libraries) (caps : Capabilities) (cutoff : Nat)
    (hdelta : caps.delta = some cutoff) (history : List (Snapshot × Option String)) :
    ((newSnapshotPersister caps).saves lib history).2.map Request.sequenceNumber
      = (List.range history.length).map (fun k => some (k + 1)) := by
  have h0 : (newSnapshotPersister caps).deploymentDiffState
      = some (newDeploymentDiffState cutoff) := by
    simp [newSnapshotPersister, hdelta]
  rw [saves_sequenceNumber lib history _ _ h0]
  apply List.map_congr_left
  intro k _
  simp only [newDeploymentDiffState]
  congr 1
  omega

/-- C18 at a sample: three saves, the second of them refused by the remote, carry the
sequence numbers 1, 2 and 3. -/
theorem C18_sequence_numbers_witness :
    ({ delta := some 1, schemaV4 := false } : Capabilities).delta = some 1 ∧
    ((newSnapshotPersister { delta := some 1, schemaV4 := false }).saves sampleLibraries
        [(snapshotOne, none), (snapshotTwo, some "refused"), (snapshotTwo, none)]).2.map
        Request.sequenceNumber
      = (List.range
          [(snapshotOne, (none : Option String)), (snapshotTwo, some "refused"),
            (snapshotTwo, none)].length).map (fun k => some (k + 1)) :=
  ⟨rfl, C18_sequence_numbers sampleLibraries { delta := some 1, schemaV4 := false } 1 rfl
    [(snapshotOne, none), (snapshotTwo, some "refused"), (snapshotTwo, none)]⟩

/-! ## The diff protocol -/

/-- Every record of the loop of `testDiffStack`, from any diff state: the edits applied to
the baseline give the new JSON, and the hash is that of the new JSON. -/
theorem testDiffStackLoop_records (lib : Libraries)
    (hround : ∀ a b, lib.applyEdits a (lib.computeEdits a b) = b)
    (snaps : List DeploymentV3) :
    ∀ dds, ∀ r ∈ testDiffStackLoop lib dds snaps,
      lib.applyEdits r.1 r.2.1.deploymentDelta = r.2.2 ∧
      r.2.1.checkpointHash = hexLower (lib.sha256 r.2.2) := by
  induction snaps with
  | nil => intro dds r hr; simp [testDiffStackLoop] at hr
  | cons s rest ih =>
    intro dds r hr
    simp only [testDiffStackLoop] at hr
    split at hr
    · rcases List.mem_cons.mp hr with heq | hmem
      · subst heq
        exact ⟨hround _ _, rfl⟩
      · exact ih _ r hmem
    · exact ih _ r hr

/-- C19: for every sequence of snapshots saved through the diff state, as `testDiffStack`
does, and for every save of the persister that sends a delta: applying the text edits
of the delta to the last saved bytes gives exactly the newly serialized bytes, and
the checkpoint hash of the delta is the lowercase hexadecimal SHA-256 of those bytes
(the test server accepts the hash).  The text diff is assumed invertible. -/
theorem C19_delta_roundtrip (lib : Libraries)
    (hround : ∀ a b, lib.applyEdits a (lib.computeEdits a b) = b) :
    (∀ snaps, ∀ r ∈ testDiffStack lib snaps,
      lib.applyEdits r.1 r.2.1.deploymentDelta = r.2.2 ∧
      r.2.1.checkpointHash = hexLower (lib.sha256 (lib.applyEdits r.1 r.2.1.deploymentDelta))) ∧
    (∀ (p : cloudSnapshotPersister) (dds : deploymentDiffState) (snapshot : Snapshot)
      (response : Option String) (req : PatchUpdateCheckpointDeltaRequest),
      p.deploymentDiffState = some dds →
      (p.Save lib snapshot response).2.1 = Request.checkpointdelta req →
      ∃ lastSaved, dds.lastSavedDeployment = some lastSaved ∧
        handleLastRequestAsDelta lib lastSaved req
          = (lib.marshalIndent (p.untypedDeployment lib snapshot), true)) := by
  refine ⟨?_, ?_⟩
  · intro snaps r hr
    obtain ⟨h1, h2⟩ := testDiffStackLoop_records lib hround snaps _ r hr
    exact ⟨h1, by rw [h1]; exact h2⟩
  · intro p dds snapshot response req h hreq
    rw [Save_request lib p snapshot response dds h] at hreq
    by_cases hd : dds.ShouldDiff (lib.marshalIndent (p.untypedDeployment lib snapshot)) = true
    · simp only [hd, ↓reduceIte] at hreq
      have hsome : dds.lastSavedDeployment.isSome = true := by
        simp only [deploymentDiffState.ShouldDiff, Bool.and_eq_true] at hd
        exact hd.1
      obtain ⟨b, hb⟩ := Option.isSome_iff_exists.mp hsome
      refine ⟨b, hb, ?_⟩
      cases hreq
      simp only [handleLastRequestAsDelta, hb, Option.getD_some, hround, decide_True]
    · simp only [hd, Bool.false_eq_true, ↓reduceIte] at hreq
      cases hreq

/-- C19 at a sample: `testDiffStack` on two deployments computes one diff, and it takes the
JSON of the first deployment to the JSON of the second. -/
theorem C19_delta_roundtrip_witness :
    (∀ a b, sampleLibraries.applyEdits a (sampleLibraries.computeEdits a b) = b) ∧
    (testDiffStack sampleLibraries
        [SerializeDeployment snapshotOne, SerializeDeployment snapshotTwo]).map
        (fun r => (r.1, r.2.2))
      = [(deploymentDiffState.MarshalDeployment sampleLibraries
            (SerializeDeployment snapshotOne) 3 [],
          deploymentDiffState.MarshalDeployment sampleLibraries
            (SerializeDeployment snapshotTwo) 3 [])] ∧
    (∀ r ∈ testDiffStack sampleLibraries
        [SerializeDeployment snapshotOne, SerializeDeployment snapshotTwo],
      sampleLibraries.applyEdits r.1 r.2.1.deploymentDelta = r.2.2 ∧
      r.2.1.checkpointHash
        = hexLower (sampleLibraries.sha256
            (sampleLibraries.applyEdits r.1 r.2.1.deploymentDelta))) :=
  ⟨sampleLibraries_roundtrip, by decide,
    (C19_delta_roundtrip sampleLibraries sampleLibraries_roundtrip).1
      [SerializeDeployment snapshotOne, SerializeDeployment snapshotTwo]⟩

end httpstate
